import Mathlib

/-!
SeqEyes: series builders and label analyzer.

A shallow embedding of `src/SeriesBuilder.cpp` and `src/PulseqLabelAnalyzer.h`.

Conventions of the embedding.

* `double` quantities are exact rationals (`ℚ`); their rounding is not modelled.  A
  `float` value is a rational too; the one `float` operation in the time arithmetic of
  the builders, the product `j * dwell` of `buildRFSeries`, is rounded by `roundToFloat`.
* A `QVector<double>` series is a pair of lists, one of times and one of values.  A value
  is an `Option ℚ`: `none` is the `quiet_NaN` break marker, `some v` an ordinary sample.
* A `std::vector<SeqBlock*>` is a `List (Option SeqBlock)`; `none` is a null pointer.
* A raw `float*` is a function from the index to the value read there; the length is
  whatever the block reports separately, exactly as in the source.
* `SeqBlock` and the event records are declared in the pulseq header, which is not part of
  these sources; the record below has one field per accessor the builders call.
* `edges[i]` is read with a default of `0` outside the array, where the source has no
  defined behaviour.
-/

namespace SeqEyes

/-! ## Blocks -/

/-- The fields of `RFEvent` the builders read. -/
structure RFEvent where
  delay : ℚ
  amplitude : ℚ

/-- The fields of `GradEvent` the builders read. -/
structure GradEvent where
  delay : ℚ
  amplitude : ℚ
  rampUpTime : ℚ
  flatTime : ℚ
  rampDownTime : ℚ

/-- The fields of `ADCEvent` the builders read. -/
structure ADCEvent where
  numSamples : Int
  dwellTime : ℚ
  delay : ℚ

/-- A decoded block, seen through the accessors used by `SeriesBuilder`. -/
structure SeqBlock where
  isRF : Bool
  GetRFEvent : RFEvent
  GetRFLength : Int
  GetRFDwellTime : ℚ
  GetRFAmplitudePtr : Nat → ℚ
  GetRFPhasePtr : Nat → ℚ
  isTrapGradient : Int → Bool
  isArbitraryGradient : Int → Bool
  isExtTrapGradient : Int → Bool
  GetGradEvent : Int → GradEvent
  GetArbGradNumSamples : Int → Int
  GetArbGradShapePtr : Int → Option (Nat → ℚ)
  GetExtTrapGradTimes : Int → List Int
  GetExtTrapGradShape : Int → List ℚ
  isADC : Bool
  GetADCEvent : ADCEvent
  GetDuration : Int

/-- Time equality tolerance `epsT = 1e-12`. -/
def epsT : ℚ := 1 / 1000000000000

/-- Value equality tolerance `epsV = 1e-12`. -/
def epsV : ℚ := 1 / 1000000000000

/-- The test `abs(a - b) <= eps` of the source. -/
def within (a b eps : ℚ) : Bool := decide (|a - b| ≤ eps)

/-! ## buildGradientSeries -/

/-- Loop state of `buildGradientSeries`: the two output arrays and the remembered
last emitted point. -/
structure GradState where
  gradTime : List ℚ
  gradValues : List (Option ℚ)
  hasAnyPoint : Bool
  lastTime : ℚ
  lastVal : ℚ

/-- State on entry to the block loop: cleared outputs, no point yet. -/
def GradState.init : GradState :=
  { gradTime := [], gradValues := [], hasAnyPoint := false, lastTime := 0, lastVal := 0 }

/-- Trapezoid branch (source lines 142-156): the four corner points. -/
def trapFragment (grad : GradEvent) (tStart tFactor : ℚ) : List (ℚ × ℚ) :=
  let rampUpTime := grad.rampUpTime * tFactor
  let flatTime := grad.flatTime * tFactor
  let rampDownTime := grad.rampDownTime * tFactor
  let times : List ℚ := [0, rampUpTime, rampUpTime + flatTime, rampUpTime + flatTime + rampDownTime]
  let amps : List ℚ := [0, grad.amplitude, grad.amplitude, 0]
  (times.zip amps).map (fun p => (tStart + p.1, p.2))

/-- Arbitrary branch (source lines 157-173): one point per shape sample. -/
def arbFragment (grad : GradEvent) (numSamples : Int) (shapePtr : Option (Nat → ℚ))
    (tStart tFactor gradientRasterUs : ℚ) : List (ℚ × ℚ) :=
  match shapePtr with
  | none => []
  | some shape =>
    if 0 < numSamples then
      let gradRaster_us : ℚ := if 0 < gradientRasterUs then gradientRasterUs else 10
      (List.range numSamples.toNat).map
        (fun (j : Nat) => (tStart + (j : ℚ) * gradRaster_us * tFactor, shape j * grad.amplitude))
    else []

/-- Extended trapezoid branch (source lines 174-187): one point per (time, shape) pair. -/
def extTrapFragment (grad : GradEvent) (times : List Int) (shape : List ℚ)
    (tStart tFactor : ℚ) : List (ℚ × ℚ) :=
  if times ≠ [] ∧ shape ≠ [] ∧ times.length = shape.length then
    (times.zip shape).map (fun p => (tStart + (p.1 : ℚ) * tFactor, p.2 * grad.amplitude))
  else []

/-- The fragment `(blockTime, blockValues)` of one block before deduplication. -/
def blockFragment (blk : SeqBlock) (channel : Int) (tStart tFactor gradientRasterUs : ℚ) :
    List (ℚ × ℚ) :=
  let grad := blk.GetGradEvent channel
  if blk.isTrapGradient channel then trapFragment grad tStart tFactor
  else if blk.isArbitraryGradient channel then
    arbFragment grad (blk.GetArbGradNumSamples channel) (blk.GetArbGradShapePtr channel)
      tStart tFactor gradientRasterUs
  else if blk.isExtTrapGradient channel then
    extTrapFragment grad (blk.GetExtTrapGradTimes channel) (blk.GetExtTrapGradShape channel)
      tStart tFactor
  else []

/-- The in-place deduplication loop (source lines 194-207).  `kept` is the prefix
`[0, w)` already written, `prevT` the time of the last point that advanced `w`. -/
def dedupLoop : List (ℚ × ℚ) → List (ℚ × ℚ) → ℚ → List (ℚ × ℚ)
  | [], kept, _ => kept
  | (tj, vj) :: rest, kept, prevT =>
    if kept ≠ [] ∧ within tj prevT epsT = true then
      dedupLoop rest (kept.dropLast ++ [(tj, vj)]) prevT
    else
      dedupLoop rest (kept ++ [(tj, vj)]) tj

/-- Deduplication of a fragment (source lines 189-210).  The initial `prevT` is never
compared, since the comparison is guarded by `w > 0`. -/
def dedupFragment (frag : List (ℚ × ℚ)) : List (ℚ × ℚ) :=
  dedupLoop frag [] 0

/-- The append loop (source lines 243-250). -/
def GradState.appendPoints (s : GradState) (frag : List (ℚ × ℚ)) : GradState :=
  frag.foldl
    (fun st p =>
      { gradTime := st.gradTime ++ [p.1], gradValues := st.gradValues ++ [some p.2],
        hasAnyPoint := true, lastTime := p.1, lastVal := p.2 })
    s

/-- The continuity check (source lines 225-237): a break marker at the last emitted
time unless the fragment starts at the last emitted point. -/
def GradState.breakBefore (s : GradState) (p : ℚ × ℚ) : GradState :=
  if s.hasAnyPoint then
    if within s.lastTime p.1 epsT && within s.lastVal p.2 epsV then s
    else { s with gradTime := s.gradTime ++ [s.lastTime], gradValues := s.gradValues ++ [none] }
  else s

/-- Boundary handling and append for a deduplicated fragment (source lines 212-250):
an empty fragment is skipped; a leading point at the last emitted time is dropped, and a
fragment that was only that point is skipped; then the continuity check and the append. -/
def GradState.mergeFragment (s : GradState) (frag : List (ℚ × ℚ)) : GradState :=
  match frag with
  | [] => s
  | first :: others =>
    if s.hasAnyPoint && within first.1 s.lastTime epsT then
      match others with
      | [] => s
      | p :: tl => (s.breakBefore p).appendPoints (p :: tl)
    else (s.breakBefore first).appendPoints (first :: others)

/-- One iteration of the block loop of `buildGradientSeries` (source lines 124-251). -/
def gradBlockStep (edges : List ℚ) (tFactor : ℚ) (channel : Int) (gradientRasterUs : ℚ)
    (i : Nat) (blk : Option SeqBlock) (s : GradState) : GradState :=
  match blk with
  | none => s
  | some blk =>
    if (blk.isTrapGradient channel || blk.isArbitraryGradient channel
        || blk.isExtTrapGradient channel) = false then s
    else
      let grad := blk.GetGradEvent channel
      let tStart := edges.getD i 0 + grad.delay * tFactor
      s.mergeFragment (dedupFragment (blockFragment blk channel tStart tFactor gradientRasterUs))

/-- The block loop, from block index `i` on. -/
def gradLoop (edges : List ℚ) (tFactor : ℚ) (channel : Int) (gradientRasterUs : ℚ) :
    Nat → List (Option SeqBlock) → GradState → GradState
  | _, [], s => s
  | i, blk :: rest, s =>
    gradLoop edges tFactor channel gradientRasterUs (i + 1) rest
      (gradBlockStep edges tFactor channel gradientRasterUs i blk s)

/-- Function `SeriesBuilder::buildGradientSeries`: the pair `(gradTime, gradValues)`. -/
def buildGradientSeries (blocks : List (Option SeqBlock)) (edges : List ℚ) (tFactor : ℚ)
    (channel : Int) (gradientRasterUs : ℚ) : List ℚ × List (Option ℚ) :=
  if blocks.isEmpty || edges.isEmpty then ([], [])
  else
    let s := gradLoop edges tFactor channel gradientRasterUs 0 blocks GradState.init
    (s.gradTime, s.gradValues)

/-! ## buildRFSeries -/

/-- Loop state of `buildRFSeries`: the four output arrays and, for each of the two
series, the remembered last emitted point. -/
structure RFState where
  rfTimeAmp : List ℚ
  rfAmp : List (Option ℚ)
  rfTimePh : List ℚ
  rfPh : List (Option ℚ)
  hasAnyPointAmp : Bool
  lastTimeAmp : ℚ
  lastValAmp : ℚ
  hasAnyPointPh : Bool
  lastTimePh : ℚ
  lastValPh : ℚ

/-- State on entry to the block loop: cleared outputs, no point yet. -/
def RFState.init : RFState :=
  { rfTimeAmp := [], rfAmp := [], rfTimePh := [], rfPh := [],
    hasAnyPointAmp := false, lastTimeAmp := 0, lastValAmp := 0,
    hasAnyPointPh := false, lastTimePh := 0, lastValPh := 0 }

/-- The amplitude continuity check (source lines 55-63). -/
def RFState.breakAmp (s : RFState) (firstTime firstAmp : ℚ) : RFState :=
  if s.hasAnyPointAmp then
    if within s.lastTimeAmp firstTime epsT && within s.lastValAmp firstAmp epsV then s
    else { s with rfTimeAmp := s.rfTimeAmp ++ [s.lastTimeAmp], rfAmp := s.rfAmp ++ [none] }
  else s

/-- The phase continuity check (source lines 65-73). -/
def RFState.breakPh (s : RFState) (firstTime firstPh : ℚ) : RFState :=
  if s.hasAnyPointPh then
    if within s.lastTimePh firstTime epsT && within s.lastValPh firstPh epsV then s
    else { s with rfTimePh := s.rfTimePh ++ [s.lastTimePh], rfPh := s.rfPh ++ [none] }
  else s

/-- Rounding to the nearest integer, ties to the even one. -/
def roundHalfEven (x : ℚ) : Int :=
  if x - ⌊x⌋ < 1 / 2 then ⌊x⌋
  else if 1 / 2 < x - ⌊x⌋ then ⌊x⌋ + 1
  else if ⌊x⌋ % 2 = 0 then ⌊x⌋ else ⌊x⌋ + 1

/-- The value a real number takes as a `float` (IEEE 754 binary32): 24 significant
bits, least exponent -126 with gradual underflow below it, round to nearest, ties to
even.  For `2^e <= |x| < 2^(e+1)` the neighbouring floats are `2^(e-23)` apart.
Overflow to infinity is outside the idealisation, as it is for `double`. -/
def roundToFloat (x : ℚ) : ℚ :=
  if x = 0 then 0
  else
    let e : Int := max (Int.log 2 |x|) (-126)
    (roundHalfEven (x / (2 : ℚ) ^ (e - 23)) : ℚ) * (2 : ℚ) ^ (e - 23)

/-- Body of the sample loop (source lines 82-98) for sample index `j`.  In
`j * dwell * tFactor` the variable `dwell` is a `float`, so `j` is converted to `float`
and `j * dwell` is a `float` product; that product is then widened to `double` for the
multiplication by `tFactor` and the addition. -/
def rfSampleStep (tStart dwell tFactor amplitude : ℚ) (rfList phaseList : Nat → ℚ)
    (s : RFState) (j : Nat) : RFState :=
  let t := tStart + roundToFloat (roundToFloat (j : ℚ) * dwell) * tFactor
  let amp := rfList j * amplitude
  let phase := phaseList j
  { rfTimeAmp := s.rfTimeAmp ++ [t], rfAmp := s.rfAmp ++ [some amp],
    rfTimePh := s.rfTimePh ++ [t], rfPh := s.rfPh ++ [some phase],
    hasAnyPointAmp := true, lastTimeAmp := t, lastValAmp := amp,
    hasAnyPointPh := true, lastTimePh := t, lastValPh := phase }

/-- One iteration of the block loop of `buildRFSeries` (source lines 35-99).  The
declaration `float dwell = blk->GetRFDwellTime()` converts the dwell time to `float`. -/
def rfBlockStep (edges : List ℚ) (tFactor : ℚ) (i : Nat) (blk : Option SeqBlock)
    (s : RFState) : RFState :=
  match blk with
  | none => s
  | some blk =>
    if blk.isRF = false then s
    else
      let rf := blk.GetRFEvent
      let RFLength := blk.GetRFLength
      if RFLength ≤ 0 then s
      else
        let dwell := roundToFloat blk.GetRFDwellTime
        let rfList := blk.GetRFAmplitudePtr
        let phaseList := blk.GetRFPhasePtr
        let tStart := edges.getD i 0 + rf.delay * tFactor
        let firstTime := tStart
        let firstAmp := rfList 0 * rf.amplitude
        let firstPh := phaseList 0
        let s1 := (s.breakAmp firstTime firstAmp).breakPh firstTime firstPh
        (List.range RFLength.toNat).foldl
          (rfSampleStep tStart dwell tFactor rf.amplitude rfList phaseList) s1

/-- The block loop, from block index `i` on. -/
def rfLoop (edges : List ℚ) (tFactor : ℚ) :
    Nat → List (Option SeqBlock) → RFState → RFState
  | _, [], s => s
  | i, blk :: rest, s => rfLoop edges tFactor (i + 1) rest (rfBlockStep edges tFactor i blk s)

/-- Function `SeriesBuilder::buildRFSeries`: the final state, whose first four fields are
the output arrays `rfTimeAmp`, `rfAmp`, `rfTimePh`, `rfPh`. -/
def buildRFSeries (blocks : List (Option SeqBlock)) (edges : List ℚ) (tFactor : ℚ) : RFState :=
  if blocks.isEmpty || edges.isEmpty then RFState.init
  else rfLoop edges tFactor 0 blocks RFState.init

/-! ## buildADCSeries -/

/-- One iteration of the block loop of `buildADCSeries` (source lines 266-295), on the
pair `(adcTime, adcValues)`. -/
def adcBlockStep (edges : List ℚ) (tFactor : ℚ) (i : Nat) (blk : Option SeqBlock)
    (s : List ℚ × List (Option ℚ)) : List ℚ × List (Option ℚ) :=
  match blk with
  | none => s
  | some blk =>
    if blk.isADC = false then s
    else
      let adc := blk.GetADCEvent
      if adc.numSamples = 0 then s
      else
        let tStart := edges.getD i 0 + adc.delay * tFactor
        let tEnd := tStart + ((adc.numSamples : ℚ) * adc.dwellTime / 1000) * tFactor
        let s1 : List ℚ × List (Option ℚ) :=
          if s.1.isEmpty = false then (s.1 ++ [tStart], s.2 ++ [none]) else s
        (s1.1 ++ [tStart, tStart, tEnd, tEnd, tEnd],
         s1.2 ++ [some 0, some 1, some 1, some 0, none])

/-- The block loop, from block index `i` on. -/
def adcLoop (edges : List ℚ) (tFactor : ℚ) :
    Nat → List (Option SeqBlock) → List ℚ × List (Option ℚ) → List ℚ × List (Option ℚ)
  | _, [], s => s
  | i, blk :: rest, s => adcLoop edges tFactor (i + 1) rest (adcBlockStep edges tFactor i blk s)

/-- Function `SeriesBuilder::buildADCSeries`: the pair `(adcTime, adcValues)`. -/
def buildADCSeries (blocks : List (Option SeqBlock)) (edges : List ℚ) (tFactor : ℚ) :
    List ℚ × List (Option ℚ) :=
  if blocks.isEmpty || edges.isEmpty then ([], [])
  else adcLoop edges tFactor 0 blocks ([], [])

/-! ## Label state machine (pulseq header, not part of these sources) -/

/-- Modelled from the spec: a label operation of a block (spec, Data model, "Label
Operation"): a set of a counter, a set of a flag, or an increment of a counter. -/
inductive LabelOp where
  | set (labelId : Nat) (value : Int)
  | setFlag (flagId : Nat) (flagValue : Bool)
  | inc (labelId : Nat) (value : Int)
  deriving DecidableEq, Repr

/-- Modelled from the spec: the replay state `LabelStateAndBookkeeping` (spec 4.1):
counters, flags and their "used" bits.  The class is declared in the pulseq header. -/
structure LabelStateAndBookkeeping where
  counter : Nat → Int
  flag : Nat → Bool
  counterUsed : Nat → Bool
  flagUsed : Nat → Bool

/-- Modelled from the spec: `initBookkeeping` and `initCurrState` (spec 4.1,
`initialize()`): all counters 0, all flags false, "used" bits cleared. -/
def LabelStateAndBookkeeping.init : LabelStateAndBookkeeping :=
  { counter := fun _ => 0, flag := fun _ => false,
    counterUsed := fun _ => false, flagUsed := fun _ => false }

/-- Modelled from the spec: one label operation (spec 4.1, `applyBlock`): a set
overwrites and marks used, an increment adds the delta and marks used. -/
def LabelStateAndBookkeeping.applyOp (t : LabelStateAndBookkeeping) :
    LabelOp → LabelStateAndBookkeeping
  | .set id v =>
    { t with counter := fun k => if k = id then v else t.counter k,
             counterUsed := fun k => if k = id then true else t.counterUsed k }
  | .setFlag id b =>
    { t with flag := fun k => if k = id then b else t.flag k,
             flagUsed := fun k => if k = id then true else t.flagUsed k }
  | .inc id d =>
    { t with counter := fun k => if k = id then t.counter k + d else t.counter k,
             counterUsed := fun k => if k = id then true else t.counterUsed k }

/-- Modelled from the spec: `updateLabelValues(block)` (spec 4.1, `applyBlock`): the
operations of the block's event list applied in the order they appear, with no reset. -/
def LabelStateAndBookkeeping.updateLabelValues (t : LabelStateAndBookkeeping)
    (block : List LabelOp) : LabelStateAndBookkeeping :=
  block.foldl LabelStateAndBookkeeping.applyOp t

/-- Modelled from the spec: `currVal(label)`, the current value of a counter. -/
def LabelStateAndBookkeeping.currVal (t : LabelStateAndBookkeeping) (label : Nat) : Int :=
  t.counter label

/-- The constants `NUM_LABELS` and `LAST_ADC_RELEVANT_LABEL` of the pulseq header, which
is not part of these sources: parameters of the analyzer. -/
structure LabelConstants where
  NUM_LABELS : Nat
  LAST_ADC_RELEVANT_LABEL : Int

/-- The `num` part of `LabelValueStorage`, the only part the analyzer touches.  A
default-constructed storage has empty vectors. -/
structure LabelValueStorage where
  val : List Int
  bValUsed : List Bool
  bValUpdated : List Bool
  deriving DecidableEq, Repr

/-- Method `std::vector::resize(n, x)`. -/
def resize {α : Type} (l : List α) (n : Nat) (x : α) : List α :=
  l.take n ++ List.replicate (n - l.length) x

/-- Constant `INT_MAX` of `<climits>`. -/
def INT_MAX : Int := 2147483647

/-- Constant `INT_MIN` of `<climits>`. -/
def INT_MIN : Int := -2147483648

/-- A `std::map<int, LabelValueStorage>` as the list of its entries in ascending key
order, which is the order a range-for visits them. -/
abbrev StateMap := List (Int × LabelValueStorage)

/-- Method `find` of `std::map`, as an optional value. -/
def StateMap.find (m : StateMap) (k : Int) : Option LabelValueStorage :=
  match m with
  | [] => none
  | (k1, v1) :: rest => if k1 = k then some v1 else StateMap.find rest k

/-- The assignment `m[k] = v` of `std::map`. -/
def StateMap.assign (m : StateMap) (k : Int) (v : LabelValueStorage) : StateMap :=
  match m with
  | [] => [(k, v)]
  | (k1, v1) :: rest =>
    if k < k1 then (k, v) :: (k1, v1) :: rest
    else if k = k1 then (k, v) :: rest
    else (k1, v1) :: StateMap.assign rest k v

/-- The members of `PulseqLabelAnalyzer`; `m_seq` is the sequence store seen as the list
of its blocks, each block as its label event list. -/
structure PulseqLabelAnalyzer where
  m_seq : List (List LabelOp)
  m_labelTracker : LabelStateAndBookkeeping
  m_blockLabelStates : StateMap

/-- Method `getCurrentLabelState` (source lines 185-202). -/
def getCurrentLabelState (c : LabelConstants) (tracker : LabelStateAndBookkeeping) :
    LabelValueStorage :=
  let val : List Int := (List.range c.NUM_LABELS).map (fun i => tracker.currVal i)
  { val := val,
    bValUsed := (List.range c.NUM_LABELS).map
      (fun (i : Nat) =>
        decide ((i : Int) ≤ c.LAST_ADC_RELEVANT_LABEL) || decide (val.getD i 0 ≠ 0)),
    bValUpdated := resize [] c.NUM_LABELS false }

/-- The loop of `analyzeLabels` (source lines 38-49), from block index `i` on. -/
def analyzeLoop (c : LabelConstants) :
    Nat → List (List LabelOp) → PulseqLabelAnalyzer → PulseqLabelAnalyzer
  | _, [], a => a
  | i, block :: rest, a =>
    let tracker := a.m_labelTracker.updateLabelValues block
    let state := getCurrentLabelState c tracker
    analyzeLoop c (i + 1) rest
      { a with m_labelTracker := tracker,
               m_blockLabelStates := a.m_blockLabelStates.assign (i : Int) state }

/-- Method `analyzeLabels` (source lines 36-50). -/
def PulseqLabelAnalyzer.analyzeLabels (c : LabelConstants) (a : PulseqLabelAnalyzer) :
    PulseqLabelAnalyzer :=
  analyzeLoop c 0 a.m_seq a

/-- The constructor (source lines 30-34). -/
def PulseqLabelAnalyzer.new (c : LabelConstants) (seq : List (List LabelOp)) :
    PulseqLabelAnalyzer :=
  PulseqLabelAnalyzer.analyzeLabels c
    { m_seq := seq, m_labelTracker := LabelStateAndBookkeeping.init, m_blockLabelStates := [] }

/-- Method `getLabelStateAfterBlock` (source lines 82-94). -/
def PulseqLabelAnalyzer.getLabelStateAfterBlock (c : LabelConstants) (a : PulseqLabelAnalyzer)
    (blockIndex : Int) : LabelValueStorage :=
  match a.m_blockLabelStates.find blockIndex with
  | some state => state
  | none =>
    { val := resize [] c.NUM_LABELS 0,
      bValUsed := resize [] c.NUM_LABELS false,
      bValUpdated := resize [] c.NUM_LABELS false }

/-- The guard shared by the three queries: the id is in range and the snapshot marks
the counter used. -/
def labelUsedIn (c : LabelConstants) (labelId : Int) (state : LabelValueStorage) : Bool :=
  decide (0 ≤ labelId) && decide (labelId < (c.NUM_LABELS : Int))
    && state.bValUsed.getD labelId.toNat false

/-- Method `findBlocksWithLabel` (source lines 97-108). -/
def PulseqLabelAnalyzer.findBlocksWithLabel (c : LabelConstants) (a : PulseqLabelAnalyzer)
    (labelId targetValue : Int) : List Int :=
  a.m_blockLabelStates.foldl
    (fun result p =>
      if labelUsedIn c labelId p.2 && decide (p.2.val.getD labelId.toNat 0 = targetValue)
      then result ++ [p.1] else result)
    []

/-- Method `getLabelValueRange` (source lines 147-168). -/
def PulseqLabelAnalyzer.getLabelValueRange (c : LabelConstants) (a : PulseqLabelAnalyzer)
    (labelId : Int) : Int × Int :=
  let r : Int × Int × Bool :=
    a.m_blockLabelStates.foldl
      (fun acc p =>
        if labelUsedIn c labelId p.2 then
          let val := p.2.val.getD labelId.toNat 0
          let minVal := if val < acc.1 then val else acc.1
          let maxVal := if val > acc.2.1 then val else acc.2.1
          (minVal, maxVal, true)
        else acc)
      (INT_MAX, INT_MIN, false)
  if r.2.2 = false then (0, 0) else (r.1, r.2.1)

/-- Method `getLabelValueSequence` (source lines 171-182). -/
def PulseqLabelAnalyzer.getLabelValueSequence (c : LabelConstants) (a : PulseqLabelAnalyzer)
    (labelId : Int) : List (Int × Int) :=
  a.m_blockLabelStates.foldl
    (fun sequence p =>
      if labelUsedIn c labelId p.2 then sequence ++ [(p.1, p.2.val.getD labelId.toNat 0)]
      else sequence)
    []

/-- Whether an operation is a set or an increment of counter `id`. -/
def LabelOp.touches (id : Nat) : LabelOp → Bool
  | .set k _ => decide (k = id)
  | .setFlag _ _ => false
  | .inc k _ => decide (k = id)

/-- Replay of the operations on one counter, as the spec words it: a set overwrites, an
increment adds its delta, any other operation leaves the counter alone. -/
def replayCounter (id : Nat) (ops : List LabelOp) (start : Int) : Int :=
  ops.foldl
    (fun x op =>
      match op with
      | .set k v => if k = id then v else x
      | .setFlag _ _ => x
      | .inc k d => if k = id then x + d else x)
    start

/-- The sum of the increments of counter `id` in a list of operations. -/
def incSum (id : Nat) (ops : List LabelOp) : Int :=
  (ops.map (fun op =>
    match op with
    | .inc k d => if k = id then d else 0
    | _ => 0)).sum

/-- Whether an operation is a set of counter `id`. -/
def LabelOp.setsCounter (id : Nat) : LabelOp → Bool
  | .set k _ => decide (k = id)
  | _ => false

/-! ## Series as lists of entries -/

/-- A series extended by a list of `(time, value)` entries. -/
def emit (s : List ℚ × List (Option ℚ)) (es : List (ℚ × Option ℚ)) :
    List ℚ × List (Option ℚ) :=
  (s.1 ++ es.map Prod.fst, s.2 ++ es.map Prod.snd)

/-- An ordinary (non-break) entry. -/
def sample (p : ℚ × ℚ) : ℚ × Option ℚ := (p.1, some p.2)

/-- The entries of a series that are not break markers, in order. -/
def nonBreak (s : List ℚ × List (Option ℚ)) : List (ℚ × ℚ) :=
  (s.1.zip s.2).filterMap (fun e => e.2.map (fun v => (e.1, v)))

/-- The number of break markers of a series. -/
def breakCount (s : List ℚ × List (Option ℚ)) : Nat :=
  (s.2.filter (fun v => v.isNone)).length

/-- The amplitude series of a final `buildRFSeries` state. -/
def RFState.ampSeries (s : RFState) : List ℚ × List (Option ℚ) := (s.rfTimeAmp, s.rfAmp)

/-- The phase series of a final `buildRFSeries` state. -/
def RFState.phSeries (s : RFState) : List ℚ × List (Option ℚ) := (s.rfTimePh, s.rfPh)

/-- The series held by a `buildGradientSeries` loop state. -/
def GradState.series (s : GradState) : List ℚ × List (Option ℚ) := (s.gradTime, s.gradValues)

/-- Whether a fragment starting at time `t` starts at the last time of the series, within
`epsT`; false for an empty series. -/
def startsAtLast (s : List ℚ × List (Option ℚ)) (t : ℚ) : Bool :=
  match s.1.getLast? with
  | some tL => within t tL epsT
  | none => false

/-- Loop invariant of `buildGradientSeries`: without a point the output is empty, with
one the remembered last point is the last entry of the output. -/
def GradState.Inv (s : GradState) : Prop :=
  (s.hasAnyPoint = false → s.gradTime = [] ∧ s.gradValues = []) ∧
  (s.hasAnyPoint = true →
    s.gradTime.getLast? = some s.lastTime ∧ s.gradValues.getLast? = some (some s.lastVal))

/-- The four corner points of a trapezoid starting at time `t0`, as the spec lists them:
`(delay, 0)`, `(delay + rampUp, amplitude)`, `(delay + rampUp + flat, amplitude)`,
`(delay + rampUp + flat + rampDown, 0)`, with the durations scaled by `tFactor`. -/
def trapCorners (g : GradEvent) (t0 tFactor : ℚ) : List (ℚ × ℚ) :=
  [(t0, 0),
   (t0 + g.rampUpTime * tFactor, g.amplitude),
   (t0 + (g.rampUpTime * tFactor + g.flatTime * tFactor), g.amplitude),
   (t0 + (g.rampUpTime * tFactor + g.flatTime * tFactor + g.rampDownTime * tFactor), 0)]

/-- Loop invariant of `buildRFSeries`: each series is a pair of equal-length arrays;
without a point it is empty, with one the remembered last point is its last entry. -/
structure RFState.Inv (s : RFState) : Prop where
  lenAmp : s.rfTimeAmp.length = s.rfAmp.length
  lenPh : s.rfTimePh.length = s.rfPh.length
  ampNone : s.hasAnyPointAmp = false → s.rfTimeAmp = [] ∧ s.rfAmp = []
  ampSome : s.hasAnyPointAmp = true →
    s.rfTimeAmp.getLast? = some s.lastTimeAmp ∧ s.rfAmp.getLast? = some (some s.lastValAmp)
  phNone : s.hasAnyPointPh = false → s.rfTimePh = [] ∧ s.rfPh = []
  phSome : s.hasAnyPointPh = true →
    s.rfTimePh.getLast? = some s.lastTimePh ∧ s.rfPh.getLast? = some (some s.lastValPh)

/-- The break entry the amplitude continuity check emits before a block whose first
sample is `(t0, a0)`: one marker at the last emitted time, or nothing. -/
def ampBreak (s : RFState) (t0 a0 : ℚ) : List (ℚ × Option ℚ) :=
  if s.hasAnyPointAmp && !(within s.lastTimeAmp t0 epsT && within s.lastValAmp a0 epsV)
  then [(s.lastTimeAmp, none)] else []

/-- The break entry the phase continuity check emits before a block whose first sample
is `(t0, p0)`. -/
def phBreak (s : RFState) (t0 p0 : ℚ) : List (ℚ × Option ℚ) :=
  if s.hasAnyPointPh && !(within s.lastTimePh t0 epsT && within s.lastValPh p0 epsV)
  then [(s.lastTimePh, none)] else []

/-- The single-precision product `j * dwell` of sample `j` of an RF event: `dwell` is
the dwell time as a `float`, `j` is converted to `float`, and the product is rounded to
`float`. -/
def rfDwellProduct (blk : SeqBlock) (j : Nat) : ℚ :=
  roundToFloat (roundToFloat (j : ℚ) * roundToFloat blk.GetRFDwellTime)

/-- The time of sample `j` of an RF event starting at time `tStart`:
`tStart + (j * dwell) * tFactor` with the single-precision product `j * dwell`. -/
def rfSampleTime (blk : SeqBlock) (tStart tFactor : ℚ) (j : Nat) : ℚ :=
  tStart + rfDwellProduct blk j * tFactor

/-- The amplitude samples of an RF event starting at time `tStart`: sample `j` at
`rfSampleTime` with value `sample[j] * rf.amplitude`. -/
def rfAmpSamples (blk : SeqBlock) (tStart tFactor : ℚ) : List (ℚ × ℚ) :=
  (List.range blk.GetRFLength.toNat).map
    (fun (j : Nat) =>
      (rfSampleTime blk tStart tFactor j,
       blk.GetRFAmplitudePtr j * blk.GetRFEvent.amplitude))

/-- The phase samples of an RF event starting at time `tStart`: the raw phase sample `j`
at the time of amplitude sample `j`. -/
def rfPhSamples (blk : SeqBlock) (tStart tFactor : ℚ) : List (ℚ × ℚ) :=
  (List.range blk.GetRFLength.toNat).map
    (fun (j : Nat) => (rfSampleTime blk tStart tFactor j, blk.GetRFPhasePtr j))

/-- Whether a block pointer carries RF samples: not null, `isRF()` and a positive
`GetRFLength()`. -/
def carriesRF (blk : Option SeqBlock) : Bool :=
  match blk with
  | none => false
  | some b => b.isRF && decide (0 < b.GetRFLength)

/-- The non-break entries of a list of entries. -/
def realEntries (es : List (ℚ × Option ℚ)) : List (ℚ × ℚ) :=
  es.filterMap (fun e => e.2.map (fun v => (e.1, v)))

/-- Start of the acquisition window of an ADC event in a block starting at `edge`. -/
def adcStart (adc : ADCEvent) (edge tFactor : ℚ) : ℚ :=
  edge + adc.delay * tFactor

/-- End of the acquisition window: `start + (numSamples * dwellTime / 1000) * tFactor`. -/
def adcEnd (adc : ADCEvent) (edge tFactor : ℚ) : ℚ :=
  adcStart adc edge tFactor + ((adc.numSamples : ℚ) * adc.dwellTime / 1000) * tFactor

/-- The rectangle of an acquisition window and its closing break marker. -/
def adcRectangle (tStart tEnd : ℚ) : List (ℚ × Option ℚ) :=
  [(tStart, some 0), (tStart, some 1), (tEnd, some 1), (tEnd, some 0), (tEnd, none)]

/-- The leading break marker of an acquisition window: present when the series already
has an entry. -/
def adcLead (s : List ℚ × List (Option ℚ)) (tStart : ℚ) : List (ℚ × Option ℚ) :=
  if s.1.isEmpty then [] else [(tStart, none)]

/-- Whether a block pointer carries an ADC event with a non-zero sample count. -/
def isADCEvent (blk : Option SeqBlock) : Bool :=
  match blk with
  | none => false
  | some b => b.isADC && decide (b.GetADCEvent.numSamples ≠ 0)

/-- The number of blocks carrying an ADC event with a non-zero sample count. -/
def adcEventCount (blocks : List (Option SeqBlock)) : Nat :=
  (blocks.filter isADCEvent).length

/-- The number of break markers in a list of entries. -/
def breakEntries (es : List (ℚ × Option ℚ)) : Nat :=
  (es.filter (fun e => e.2.isNone)).length

/-- The tracker after replaying a list of blocks, in order, with no reset in between. -/
def trackerAfter (t : LabelStateAndBookkeeping) (blocks : List (List LabelOp)) :
    LabelStateAndBookkeeping :=
  blocks.foldl LabelStateAndBookkeeping.updateLabelValues t

/-- The snapshots `analyzeLabels` records for the blocks from index `i` on, starting
from tracker `t`: entry `(i + k, state after block i + k)`. -/
def snapshotsFrom (c : LabelConstants) :
    Nat → LabelStateAndBookkeeping → List (List LabelOp) → StateMap
  | _, _, [] => []
  | i, t, block :: rest =>
    ((i : Int), getCurrentLabelState c (t.updateLabelValues block)) ::
      snapshotsFrom c (i + 1) (t.updateLabelValues block) rest

/-- The state `getLabelStateAfterBlock` returns for a block that has no snapshot. -/
def emptyState (c : LabelConstants) : LabelValueStorage :=
  { val := List.replicate c.NUM_LABELS 0,
    bValUsed := List.replicate c.NUM_LABELS false,
    bValUpdated := List.replicate c.NUM_LABELS false }

/-! ## Calls with their effect on the object -/

/-- The subscript `m[k]` of `std::map`: the value stored at `k` and the map after the
access; an absent key is first inserted with a default-constructed (empty) storage. -/
def StateMap.subscript (m : StateMap) (k : Int) : LabelValueStorage × StateMap :=
  match m.find k with
  | some v => (v, m)
  | none => (⟨[], [], []⟩, m.assign k ⟨[], [], []⟩)

/-- Method `getLabelStateAfterBlock` (source lines 82-94) with its effect on the
analyzer: the returned state and the analyzer after the call. -/
def PulseqLabelAnalyzer.getLabelStateAfterBlockRun (c : LabelConstants)
    (a : PulseqLabelAnalyzer) (blockIndex : Int) : LabelValueStorage × PulseqLabelAnalyzer :=
  if (a.m_blockLabelStates.find blockIndex).isSome then
    let r := a.m_blockLabelStates.subscript blockIndex
    (r.1, { a with m_blockLabelStates := r.2 })
  else
    ({ val := resize [] c.NUM_LABELS 0,
       bValUsed := resize [] c.NUM_LABELS false,
       bValUpdated := resize [] c.NUM_LABELS false }, a)

/-- A run of calls of `getLabelStateAfterBlock`, one per block index of the list: the
states returned, in call order, and the analyzer after the last call. -/
def PulseqLabelAnalyzer.getLabelStatesRun (c : LabelConstants) :
    PulseqLabelAnalyzer → List Int → List LabelValueStorage × PulseqLabelAnalyzer
  | a, [] => ([], a)
  | a, b :: rest =>
    let r := a.getLabelStateAfterBlockRun c b
    let rs := PulseqLabelAnalyzer.getLabelStatesRun c r.2 rest
    (r.1 :: rs.1, rs.2)

/-- Method `QVector::clear`. -/
def clear {α : Type} (_ : List α) : List α := []

/-- Function `buildRFSeries` as a procedure on its four output arrays, whose contents
before the call are `out` (source lines 17-21, then the block loop). -/
def buildRFSeriesInto (out : List ℚ × List (Option ℚ) × List ℚ × List (Option ℚ))
    (blocks : List (Option SeqBlock)) (edges : List ℚ) (tFactor : ℚ) : RFState :=
  let cleared : RFState :=
    { rfTimeAmp := clear out.1, rfAmp := clear out.2.1,
      rfTimePh := clear out.2.2.1, rfPh := clear out.2.2.2,
      hasAnyPointAmp := false, lastTimeAmp := 0, lastValAmp := 0,
      hasAnyPointPh := false, lastTimePh := 0, lastValPh := 0 }
  if blocks.isEmpty || edges.isEmpty then cleared
  else rfLoop edges tFactor 0 blocks cleared

/-- Function `buildGradientSeries` as a procedure on its two output arrays, whose
contents before the call are `out` (source lines 111-114, then the block loop). -/
def buildGradientSeriesInto (out : List ℚ × List (Option ℚ))
    (blocks : List (Option SeqBlock)) (edges : List ℚ) (tFactor : ℚ)
    (channel : Int) (gradientRasterUs : ℚ) : List ℚ × List (Option ℚ) :=
  let cleared : GradState :=
    { gradTime := clear out.1, gradValues := clear out.2,
      hasAnyPoint := false, lastTime := 0, lastVal := 0 }
  if blocks.isEmpty || edges.isEmpty then (cleared.gradTime, cleared.gradValues)
  else
    let s := gradLoop edges tFactor channel gradientRasterUs 0 blocks cleared
    (s.gradTime, s.gradValues)

/-- Function `buildADCSeries` as a procedure on its two output arrays, whose contents
before the call are `out` (source lines 261-264, then the block loop). -/
def buildADCSeriesInto (out : List ℚ × List (Option ℚ))
    (blocks : List (Option SeqBlock)) (edges : List ℚ) (tFactor : ℚ) :
    List ℚ × List (Option ℚ) :=
  let cleared : List ℚ × List (Option ℚ) := (clear out.1, clear out.2)
  if blocks.isEmpty || edges.isEmpty then cleared
  else adcLoop edges tFactor 0 blocks cleared

/-! ## Binding: read_version_from_file, CreateLoaderForVersion, PySequence -/

/-- A line of the file, as `read_version_from_file` observes it: whether
`line.find("[VERSION]")` finds the tag, whether the line is non-empty and starts with
`[`, and the result of `iss >> key >> val` (the key and the integer, when both are
read). -/
structure Line where
  hasVersionTag : Bool
  startsSection : Bool
  keyVal : Option (String × Int)

/-- The two failures of `read_version_from_file`. -/
inductive VersionError where
  | cannotOpen
  | couldNotParse
  deriving DecidableEq, Repr

/-- The assignments to `major` and `minor` for one line of the section (source lines
41-50). -/
def updateVersion (line : Line) (major minor : Int) : Int × Int :=
  match line.keyVal with
  | some (key, val) =>
    if key = "major" then (val, minor)
    else if key = "minor" then (major, val)
    else (major, minor)
  | none => (major, minor)

/-- The `while (std::getline(file, line))` loop (source lines 30-55), with the values of
`in_version`, `major` and `minor` on entry; the result is `(major, minor)` on exit. -/
def versionLoop : List Line → Bool → Int → Int → Int × Int
  | [], _, major, minor => (major, minor)
  | line :: rest, in_version, major, minor =>
    if line.hasVersionTag then versionLoop rest true major minor
    else if in_version then
      if line.startsSection then (major, minor)
      else
        let mm := updateVersion line major minor
        if mm.1 ≠ -1 ∧ mm.2 ≠ -1 then mm
        else versionLoop rest true mm.1 mm.2
    else versionLoop rest false major minor

/-- Function `read_version_from_file` (source lines 20-61), as a function of the file:
`none` for a file that cannot be opened, else its lines. -/
def read_version_from_file (file : Option (List Line)) : Except VersionError (Int × Int) :=
  match file with
  | none => Except.error VersionError.cannotOpen
  | some lines =>
    let r := versionLoop lines false (-1) (-1)
    if r.1 = -1 ∨ r.2 = -1 then Except.error VersionError.couldNotParse
    else Except.ok r

/-- The lines of a section body: up to the first line that starts a section and does
not carry the `[VERSION]` tag; lines carrying the tag are headers, not entries. -/
def sectionBody : List Line → List Line
  | [] => []
  | l :: rest =>
    if l.hasVersionTag then sectionBody rest
    else if l.startsSection then []
    else l :: sectionBody rest

/-- The entries of the `[VERSION]` section of a file: the body after the first line
that carries the tag; empty when no line carries it. -/
def versionSection : List Line → List Line
  | [] => []
  | l :: rest => if l.hasVersionTag then sectionBody rest else versionSection rest

/-- The scan of the entries of a section: each entry updates `major` and `minor`, and
the scan stops once both differ from -1. -/
def keyScan : List Line → Int → Int → Int × Int
  | [], major, minor => (major, minor)
  | l :: rest, major, minor =>
    let mm := updateVersion l major minor
    if mm.1 ≠ -1 ∧ mm.2 ≠ -1 then mm else keyScan rest mm.1 mm.2

/-- The loader object `CreateLoaderForVersion` hands out: the v1.5.1 loader. -/
inductive Loader where
  | v151
  deriving DecidableEq, Repr

/-- Function `CreateLoaderForVersion` (ExternalSequence.cpp, lines 11-25); `none` is the
null pointer. -/
def CreateLoaderForVersion (version_major version_minor : Int) : Option Loader :=
  if version_major = 1 ∧ version_minor ≤ 5 then some Loader.v151 else none

/-- The versions the documentation of the loader names as supported: v1.4.x and
v1.5.x. -/
def documentedSupported (version_major version_minor : Int) : Prop :=
  version_major = 1 ∧ (version_minor = 4 ∨ version_minor = 5)

/-- The failures of the `PySequence` constructor. -/
inductive PyError where
  | version (e : VersionError)
  | unsupported (version_major version_minor : Int)
  | loadFailed
  deriving DecidableEq, Repr

/-- The members of `PySequence` set by the constructor. -/
structure PySequence where
  m_seq : Loader
  m_version_major : Int
  m_version_minor : Int
  deriving DecidableEq, Repr

/-- The constructor of `PySequence` (source lines 70-84); `loadOk` is the result of
`m_seq->load(filepath)`, a method of the pulseq loader. -/
def PySequence.new (file : Option (List Line)) (loadOk : Bool) : Except PyError PySequence :=
  match read_version_from_file file with
  | Except.error e => Except.error (PyError.version e)
  | Except.ok ver =>
    match CreateLoaderForVersion ver.1 ver.2 with
    | none => Except.error (PyError.unsupported ver.1 ver.2)
    | some seq =>
      if loadOk = false then Except.error PyError.loadFailed
      else Except.ok { m_seq := seq, m_version_major := ver.1, m_version_minor := ver.2 }

/-! ## Binding: get_block -/

/-- The sequence store behind `PySequence`: the block count and the block lookup, which
may return a null pointer. -/
structure SequenceStore where
  GetNumberOfBlocks : Int
  GetBlock : Int → Option SeqBlock

/-- The failures of `get_block`; `undefinedRead` stands for the read through a null
shape pointer, which the source does not guard. -/
inductive GetBlockError where
  | outOfRange (idx : Int)
  | nullBlock (idx : Int)
  | undefinedRead
  deriving DecidableEq, Repr

/-- The dictionary `get_block` returns: `none` is Python `None`. -/
structure BlockDict where
  duration_us : Int
  rf : Option (List ℚ × List ℚ × List ℚ)
  gx : Option (List ℚ × List ℚ)
  gy : Option (List ℚ × List ℚ)
  gz : Option (List ℚ × List ℚ)
  adc : Option (Int × ℚ × ℚ)

/-- The RF entries `(rf_amp, rf_phase, rf_time)` of `get_block` (source lines 125-155). -/
def rfEntry (blk : SeqBlock) : Option (List ℚ × List ℚ × List ℚ) :=
  if blk.isRF then
    let n := blk.GetRFLength.toNat
    some ((List.range n).map (fun (i : Nat) => blk.GetRFAmplitudePtr i * blk.GetRFEvent.amplitude),
          (List.range n).map (fun (i : Nat) => blk.GetRFPhasePtr i),
          (List.range n).map (fun (i : Nat) => blk.GetRFEvent.delay + (i : ℚ) * blk.GetRFDwellTime))
  else none

/-- The gradient entries `(g_time, g_wave)` of `get_block` for channel `ch` (source
lines 157-207).  The delay and the durations are stored in `long` variables, so they
are integers and the conversion is the identity. -/
def gradEntry (blk : SeqBlock) (ch : Int) : Except GetBlockError (Option (List ℚ × List ℚ)) :=
  if blk.isTrapGradient ch then
    let g := blk.GetGradEvent ch
    let t0 := g.delay
    let t1 := t0 + g.rampUpTime
    let t2 := t1 + g.flatTime
    let t3 := t2 + g.rampDownTime
    Except.ok (some ([t0, t1, t2, t3], [0, g.amplitude, g.amplitude, 0]))
  else if blk.isArbitraryGradient ch then
    let g := blk.GetGradEvent ch
    let n := (blk.GetArbGradNumSamples ch).toNat
    match blk.GetArbGradShapePtr ch with
    | some shape =>
      Except.ok (some ((List.range n).map (fun (i : Nat) => g.delay + (i : ℚ) * 10),
                       (List.range n).map (fun (i : Nat) => shape i * g.amplitude)))
    | none => if n = 0 then Except.ok (some ([], [])) else Except.error GetBlockError.undefinedRead
  else Except.ok none

/-- The ADC entries `(adc_num_samples, adc_dwell, adc_delay)` of `get_block` (source
lines 209-222). -/
def adcEntry (blk : SeqBlock) : Option (Int × ℚ × ℚ) :=
  if blk.isADC then
    some (blk.GetADCEvent.numSamples, blk.GetADCEvent.dwellTime, blk.GetADCEvent.delay)
  else none

/-- The dictionary built from a decoded block (source lines 119-225). -/
def blockDict (blk : SeqBlock) : Except GetBlockError BlockDict :=
  match gradEntry blk 0 with
  | Except.error e => Except.error e
  | Except.ok gx =>
    match gradEntry blk 1 with
    | Except.error e => Except.error e
    | Except.ok gy =>
      match gradEntry blk 2 with
      | Except.error e => Except.error e
      | Except.ok gz =>
        Except.ok { duration_us := blk.GetDuration, rf := rfEntry blk,
                    gx := gx, gy := gy, gz := gz, adc := adcEntry blk }

/-- Method `PySequence::get_block` (source lines 109-225): the list of indices passed
to `GetBlock`, in call order, and the result. -/
def get_block (m_seq : SequenceStore) (idx : Int) :
    List Int × Except GetBlockError BlockDict :=
  if idx < 0 ∨ idx ≥ m_seq.GetNumberOfBlocks then
    ([], Except.error (GetBlockError.outOfRange idx))
  else
    match m_seq.GetBlock idx with
    | none => ([idx], Except.error (GetBlockError.nullBlock idx))
    | some blk => ([idx], blockDict blk)

/-! ## DoubleRangeSlider and the time slider of TRManager -/

/-- The value members of `DoubleRangeSlider`. -/
structure DoubleRangeSlider where
  m_minimum : Int
  m_maximum : Int
  m_startValue : Int
  m_endValue : Int
  deriving DecidableEq, Repr

/-- The signals of `DoubleRangeSlider`. -/
inductive SliderSignal where
  | startValueChanged (value : Int)
  | endValueChanged (value : Int)
  | valuesChanged (start stop : Int)
  deriving DecidableEq, Repr

/-- Method `DoubleRangeSlider::setRange` (doublerangeslider.cpp, lines 29-41). -/
def DoubleRangeSlider.setRange (w : DoubleRangeSlider) (min max : Int) : DoubleRangeSlider :=
  let s1 := if w.m_startValue < min then min else w.m_startValue
  let s2 := if s1 > max then max else s1
  let e1 := if w.m_endValue < min then min else w.m_endValue
  let e2 := if e1 > max then max else e1
  { m_minimum := min, m_maximum := max, m_startValue := s2, m_endValue := e2 }

/-- Method `DoubleRangeSlider::setValues` (doublerangeslider.cpp, lines 81-106): the
slider after the call and the signals emitted, in order. -/
def DoubleRangeSlider.setValues (w : DoubleRangeSlider) (start stop : Int) :
    DoubleRangeSlider × List SliderSignal :=
  let s1 := if start < w.m_minimum then w.m_minimum else start
  let s2 := if s1 > w.m_maximum then w.m_maximum else s1
  let e1 := if stop < w.m_minimum then w.m_minimum else stop
  let e2 := if e1 > w.m_maximum then w.m_maximum else e1
  let s3 := if s2 > e2 then e2 else s2
  let changed : Bool := decide (w.m_startValue ≠ s3) || decide (w.m_endValue ≠ e2)
  let w2 : DoubleRangeSlider := { w with m_startValue := s3, m_endValue := e2 }
  if changed then
    (w2, [SliderSignal.startValueChanged s3, SliderSignal.endValueChanged e2,
          SliderSignal.valuesChanged s3 e2])
  else (w2, [])

/-- Function `std::round` followed by `static_cast<int>`: the nearest integer, halves
away from zero.  The cast is the identity on the values an `int` holds. -/
def roundToInt (x : ℚ) : Int :=
  if 0 ≤ x then ⌊x + 1 / 2⌋ else ⌈x - 1 / 2⌉

/-- The loader accessors `hasRepetitionTime()` and `getRepetitionTime_us()`. -/
structure PulseqLoader where
  hasRepetitionTime : Bool
  getRepetitionTime_us : ℚ

/-- The members of `TRManager` that `updateTimeSliderFromTrRange` reads and writes.  A
time input is the result of `text().toDouble(&ok)`: `none` when `ok` is false. -/
structure TimeControls where
  m_lastTimeSliderMax : Int
  m_pTimeRangeSlider : DoubleRangeSlider
  m_pTimeStartInput : Option ℚ
  m_pTimeEndInput : Option ℚ
  m_lastRelStartMs : ℚ
  m_lastRelEndMs : ℚ

/-- Collapse of one run of a fragment.  The point `cur` stands for the run that started
at time `start`; a following point within `epsT` of `start` replaces it, any other point
closes the run and opens the next one. -/
def collapseFrom (start : ℚ) (cur : ℚ × ℚ) : List (ℚ × ℚ) → List (ℚ × ℚ)
  | [] => [cur]
  | p :: rest =>
    if within p.1 start epsT = true then collapseFrom start p rest
    else cur :: collapseFrom p.1 p rest

/-- A fragment with every run collapsed to its last point, a run being a first point
and the points after it whose time is within `epsT` of that first point's time. -/
def collapseRuns : List (ℚ × ℚ) → List (ℚ × ℚ)
  | [] => []
  | p :: rest => collapseFrom p.1 p rest

/-- Consecutive timestamps of a fragment differ by more than `d`. -/
def gapsOver (d : ℚ) (frag : List (ℚ × ℚ)) : Prop :=
  List.Chain' (fun a b => d < |b.1 - a.1|) frag

/-- The sample points the spec lists for an arbitrary gradient: sample `j` at
`tStart + j * raster * tFactor` with value `shape[j] * amplitude`. -/
def arbPoints (grad : GradEvent) (numSamples : Int) (shape : Nat → ℚ)
    (tStart tFactor raster : ℚ) : List (ℚ × ℚ) :=
  (List.range numSamples.toNat).map
    (fun (j : Nat) => (tStart + (j : ℚ) * raster * tFactor, shape j * grad.amplitude))

/-- The raster the spec names: the supplied one when positive, 10 microseconds
otherwise. -/
def effectiveRaster (gradientRasterUs : ℚ) : ℚ :=
  if 0 < gradientRasterUs then gradientRasterUs else 10

/-- Two blocks agree on everything that lies within the reported lengths: all scalar
accessors and the two vectors are equal, the RF amplitude and phase arrays agree at the
indices below `GetRFLength`, and on each channel the arbitrary shape pointers are both
null or agree at the indices below `GetArbGradNumSamples`.  Beyond these indices the
arrays are unconstrained. -/
def SeqBlock.agreesBelow (a b : SeqBlock) : Prop :=
  a.isRF = b.isRF ∧ a.GetRFEvent = b.GetRFEvent ∧ a.GetRFLength = b.GetRFLength ∧
  a.GetRFDwellTime = b.GetRFDwellTime ∧
  (∀ j : Nat, (j : Int) < a.GetRFLength →
    a.GetRFAmplitudePtr j = b.GetRFAmplitudePtr j ∧ a.GetRFPhasePtr j = b.GetRFPhasePtr j) ∧
  a.isTrapGradient = b.isTrapGradient ∧ a.isArbitraryGradient = b.isArbitraryGradient ∧
  a.isExtTrapGradient = b.isExtTrapGradient ∧ a.GetGradEvent = b.GetGradEvent ∧
  a.GetArbGradNumSamples = b.GetArbGradNumSamples ∧
  (∀ ch : Int,
    match a.GetArbGradShapePtr ch, b.GetArbGradShapePtr ch with
    | none, none => True
    | some f, some g => ∀ j : Nat, (j : Int) < a.GetArbGradNumSamples ch → f j = g j
    | _, _ => False) ∧
  a.GetExtTrapGradTimes = b.GetExtTrapGradTimes ∧
  a.GetExtTrapGradShape = b.GetExtTrapGradShape ∧
  a.isADC = b.isADC ∧ a.GetADCEvent = b.GetADCEvent

/-- Agreement of two entries of a block list: both null, or both blocks that agree
within the reported lengths. -/
def blocksAgree : Option SeqBlock → Option SeqBlock → Prop
  | none, none => True
  | some a, some b => a.agreesBelow b
  | _, _ => False

/-! ## DoubleRangeSlider: constructor, single-value setters, invariant -/

/-- The constructor of `DoubleRangeSlider` (doublerangeslider.cpp, lines 7-12): range
`[0, 100]`, start 0, end 100. -/
def DoubleRangeSlider.new : DoubleRangeSlider :=
  { m_minimum := 0, m_maximum := 100, m_startValue := 0, m_endValue := 100 }

/-- Method `DoubleRangeSlider::setStartValue` (doublerangeslider.cpp, lines 53-65): the
slider after the call and the signals emitted, in order. -/
def DoubleRangeSlider.setStartValue (w : DoubleRangeSlider) (value : Int) :
    DoubleRangeSlider × List SliderSignal :=
  let v1 := if value < w.m_minimum then w.m_minimum else value
  let v2 := if v1 > w.m_maximum then w.m_maximum else v1
  let v3 := if v2 > w.m_endValue then w.m_endValue else v2
  if w.m_startValue ≠ v3 then
    ({ w with m_startValue := v3 },
      [SliderSignal.startValueChanged v3, SliderSignal.valuesChanged v3 w.m_endValue])
  else (w, [])

/-- Method `DoubleRangeSlider::setEndValue` (doublerangeslider.cpp, lines 67-79). -/
def DoubleRangeSlider.setEndValue (w : DoubleRangeSlider) (value : Int) :
    DoubleRangeSlider × List SliderSignal :=
  let v1 := if value < w.m_minimum then w.m_minimum else value
  let v2 := if v1 > w.m_maximum then w.m_maximum else v1
  let v3 := if v2 < w.m_startValue then w.m_startValue else v2
  if w.m_endValue ≠ v3 then
    ({ w with m_endValue := v3 },
      [SliderSignal.endValueChanged v3, SliderSignal.valuesChanged w.m_startValue v3])
  else (w, [])

/-- The slider invariant `minimum <= startValue <= endValue <= maximum`. -/
def DoubleRangeSlider.Inv (w : DoubleRangeSlider) : Prop :=
  w.m_minimum ≤ w.m_startValue ∧ w.m_startValue ≤ w.m_endValue ∧ w.m_endValue ≤ w.m_maximum

instance (w : DoubleRangeSlider) : Decidable w.Inv := by
  unfold DoubleRangeSlider.Inv
  infer_instance

/-- The value `v` clamped into `[lo, hi]`. -/
def clamp (v lo hi : Int) : Int :=
  if v < lo then lo else if v > hi then hi else v

/-- Whether a signal is `valuesChanged`. -/
def SliderSignal.isValuesChanged : SliderSignal → Bool
  | .valuesChanged _ _ => true
  | _ => false

/-! ## TRManager: time window edits and viewport synchronisation -/

/-- A slider call made while a `QSignalBlocker` on the slider is alive: the slider
changes, the signals it emits reach no listener. -/
def underSignalBlocker (r : DoubleRangeSlider × List SliderSignal) :
    DoubleRangeSlider × List SliderSignal :=
  (r.1, [])

/-- Conversion `static_cast<int>` of a `double`: truncation toward zero. -/
def truncToInt (x : ℚ) : Int :=
  if 0 ≤ x then ⌊x⌋ else ⌈x⌉

/-- The number a time input holds after `setText(QString::number(x, 'f', 1))`: `x` to
one decimal. -/
def oneDecimal (x : ℚ) : ℚ :=
  (roundToInt (x * 10) : ℚ) / 10

/-- Method `TRManager::setTimeRange` (TRManager.cpp, lines 1219-1246): the members after
the call and the slider signals that reach a listener.  The label text written by
`updateTimeRangeDisplay` is not part of the modelled members. -/
def setTimeRange (tc : TimeControls) (startMs endMs : ℚ) : TimeControls × List SliderSignal :=
  let sl := underSignalBlocker
    (tc.m_pTimeRangeSlider.setValues (truncToInt startMs) (truncToInt endMs))
  ({ tc with m_pTimeStartInput := some (oneDecimal startMs),
             m_pTimeEndInput := some (oneDecimal endMs),
             m_pTimeRangeSlider := sl.1,
             m_lastRelStartMs := startMs, m_lastRelEndMs := endMs }, sl.2)

/-- The window `(newStart, newEnd)` that `onTimeIncrementEditingFinished` computes from
the window `(startMs, endMs)` of the time inputs, the increment and the slider bounds
(TRManager.cpp, lines 1085-1113). -/
def shiftedWindow (w : DoubleRangeSlider) (startMs0 endMs0 inc : ℚ) : ℚ × ℚ :=
  let startMs := if endMs0 < startMs0 then endMs0 else startMs0
  let endMs := if endMs0 < startMs0 then startMs0 else endMs0
  let windowSize0 := endMs - startMs
  let windowSize := if windowSize0 < 0 then 0 else windowSize0
  let minAllowed : ℚ := max 0 (w.m_minimum : ℚ)
  let maxAllowed : ℚ := (w.m_maximum : ℚ)
  let newStart0 := startMs + inc
  let newEnd0 := endMs + inc
  let newStart1 := if newStart0 < minAllowed then minAllowed else newStart0
  let newEnd1 := if newStart0 < minAllowed then newStart1 + windowSize else newEnd0
  let newStart2 :=
    if newEnd1 > maxAllowed then
      (if maxAllowed - windowSize < minAllowed then minAllowed else maxAllowed - windowSize)
    else newStart1
  let newEnd2 := if newEnd1 > maxAllowed then maxAllowed else newEnd1
  let newEnd3 := if newEnd2 < newStart2 then newStart2 else newEnd2
  (newStart2, newEnd3)

/-- Method `TRManager::onTimeIncrementEditingFinished` (TRManager.cpp, lines 1068-1118).
The increment input is the result of `text().toDouble(&okInc)`, `none` when `okInc` is
false. -/
def onTimeIncrementEditingFinished (m_pTimeIncInput : Option ℚ) (tc : TimeControls) :
    TimeControls × List SliderSignal :=
  match m_pTimeIncInput with
  | none => (tc, [])
  | some inc =>
    if inc = 0 then (tc, [])
    else
      match tc.m_pTimeStartInput, tc.m_pTimeEndInput with
      | some startMs, some endMs =>
        let win := shiftedWindow tc.m_pTimeRangeSlider startMs endMs inc
        setTimeRange tc win.1 win.2
      | _, _ => (tc, [])

/-- The bisection of `std::upper_bound` on the range `[first, first + count)` of
`edges`; `fuel` bounds the number of iterations. -/
def upperBoundLoop (edges : List ℚ) (value : ℚ) : Nat → Nat → Nat → Nat
  | 0, first, _ => first
  | fuel + 1, first, count =>
    if count = 0 then first
    else
      let step := count / 2
      let it := first + step
      if value < edges.getD it 0 then upperBoundLoop edges value fuel first step
      else upperBoundLoop edges value fuel (it + 1) (count - (step + 1))

/-- Function `std::upper_bound(edges.begin(), edges.end(), value)` as an index: on a
non-decreasing array, the position of the first element greater than `value`.  The
range halves at least once per iteration, so `edges.length` iterations suffice. -/
def upper_bound (edges : List ℚ) (value : ℚ) : Nat :=
  upperBoundLoop edges value edges.length 0 edges.length

/-- The lambda `findBlockIndex` of `updateBlockWindowDisplay` (TRManager.cpp, lines
1344-1351); the caller has returned before when `edges.size() < 2`. -/
def findBlockIndex (edges : List ℚ) (internal : ℚ) : Int :=
  let idx0 : Int := (upper_bound edges internal : Int) - 1
  let idx1 : Int := if idx0 < 0 then 0 else idx0
  let maxIdx : Int := (edges.length : Int) - 2
  if idx1 > maxIdx then maxIdx else idx1

/-- The linear scan of `calculateBlockRangeFromTrRange` (TRManager.cpp, lines 1656-1663
and 1664-1671): the first `i` below `blockEdges.size() - 1` with
`blockEdges[i] <= t < blockEdges[i + 1]`, `none` when the loop ends without a `break`. -/
def scanBlockIndex (blockEdges : List ℚ) (t : ℚ) : Option Nat :=
  (List.range (blockEdges.length - 1)).find?
    (fun i => decide (t ≥ blockEdges.getD i 0) && decide (t < blockEdges.getD (i + 1) 0))

/-- Method `TRManager::calculateBlockRangeFromTrRange` (TRManager.cpp, lines 1636-1677):
the pair `(startBlock, endBlock)`.  Value `numBlocks` is
`getDecodedSeqBlocks().size()`, `tFactor` is `getTFactor()` and `totalDuration_us` is
`getTotalDuration_us()` of the loader. -/
def calculateBlockRangeFromTrRange (loader : PulseqLoader) (numBlocks : Nat)
    (tFactor totalDuration_us : ℚ) (blockEdges : List ℚ) (startTr endTr : Int) : Int × Int :=
  if loader.hasRepetitionTime = false ∨ numBlocks = 0 then (0, 0)
  else
    let startTime := ((startTr - 1 : Int) : ℚ) * loader.getRepetitionTime_us * tFactor
    let endTime0 := (endTr : ℚ) * loader.getRepetitionTime_us * tFactor
    let endTime := if endTime0 > totalDuration_us * tFactor then totalDuration_us * tFactor
                   else endTime0
    let startBlock0 : Int :=
      match scanBlockIndex blockEdges startTime with
      | some i => (i : Int)
      | none => 0
    let endBlock0 : Int :=
      match scanBlockIndex blockEdges endTime with
      | some i => (i : Int)
      | none => (numBlocks : Int) - 1
    let startBlock1 : Int := if startBlock0 < 0 then 0 else startBlock0
    let endBlock1 : Int := if endBlock0 ≥ (numBlocks : Int) then (numBlocks : Int) - 1 else endBlock0
    let startBlock2 : Int := if startBlock1 > endBlock1 then endBlock1 else startBlock1
    (startBlock2, endBlock1)

/-- The array `edges` is non-decreasing. -/
def nonDecreasing (edges : List ℚ) : Prop :=
  ∀ i j : Nat, i ≤ j → j < edges.length → edges.getD i 0 ≤ edges.getD j 0

/-! ## The value sequence of a counter, entry by entry -/

/-- The entry a snapshot contributes to the value sequence of counter `labelId`: the
block index with the snapshot's value when the snapshot marks the counter used. -/
def sequenceEntry (c : LabelConstants) (labelId : Int) (p : Int × LabelValueStorage) :
    Option (Int × Int) :=
  if labelUsedIn c labelId p.2 then some (p.1, p.2.val.getD labelId.toNat 0) else none

/-! ## Example blocks -/

/-- A block with no event at all. -/
def emptyBlock : SeqBlock :=
  { isRF := false, GetRFEvent := ⟨0, 0⟩, GetRFLength := 0, GetRFDwellTime := 0,
    GetRFAmplitudePtr := fun _ => 0, GetRFPhasePtr := fun _ => 0,
    isTrapGradient := fun _ => false, isArbitraryGradient := fun _ => false,
    isExtTrapGradient := fun _ => false, GetGradEvent := fun _ => ⟨0, 0, 0, 0, 0⟩,
    GetArbGradNumSamples := fun _ => 0, GetArbGradShapePtr := fun _ => none,
    GetExtTrapGradTimes := fun _ => [], GetExtTrapGradShape := fun _ => [],
    isADC := false, GetADCEvent := ⟨0, 0, 0⟩, GetDuration := 0 }

/-- A block whose only event is a trapezoid `g` on channel `ch`. -/
def trapBlock (ch : Int) (g : GradEvent) : SeqBlock :=
  { emptyBlock with
    isTrapGradient := fun c => decide (c = ch)
    GetGradEvent := fun c => if c = ch then g else ⟨0, 0, 0, 0, 0⟩ }

/-- A block whose only event is an RF pulse of `n` samples. -/
def rfBlock (rf : RFEvent) (n : Int) (dwell : ℚ) (amp ph : Nat → ℚ) : SeqBlock :=
  { emptyBlock with
    isRF := true, GetRFEvent := rf, GetRFLength := n, GetRFDwellTime := dwell,
    GetRFAmplitudePtr := amp, GetRFPhasePtr := ph }

/-- A block whose only event is an ADC readout. -/
def adcBlock (adc : ADCEvent) : SeqBlock :=
  { emptyBlock with isADC := true, GetADCEvent := adc }

/-- A block whose only event is an extended trapezoid on channel `ch`. -/
def extTrapBlock (ch : Int) (g : GradEvent) (times : List Int) (shape : List ℚ) : SeqBlock :=
  { emptyBlock with
    isExtTrapGradient := fun c => decide (c = ch)
    GetGradEvent := fun c => if c = ch then g else ⟨0, 0, 0, 0, 0⟩
    GetExtTrapGradTimes := fun c => if c = ch then times else []
    GetExtTrapGradShape := fun c => if c = ch then shape else [] }

/-- The section header `[VERSION]`. -/
def versionTagLine : Line :=
  { hasVersionTag := true, startsSection := true, keyVal := none }

/-- An entry line `key val`. -/
def entryLine (key : String) (val : Int) : Line :=
  { hasVersionTag := false, startsSection := false, keyVal := some (key, val) }

/-- A block whose only event is an arbitrary gradient on channel `ch`. -/
def arbBlock (ch : Int) (g : GradEvent) (n : Int) (shape : Nat → ℚ) : SeqBlock :=
  { emptyBlock with
    isArbitraryGradient := fun c => decide (c = ch)
    GetGradEvent := fun c => if c = ch then g else ⟨0, 0, 0, 0, 0⟩
    GetArbGradNumSamples := fun c => if c = ch then n else 0
    GetArbGradShapePtr := fun c => if c = ch then some shape else none }

/-! ## Lemmas on the gradient loop -/

theorem within_eq_true_iff (a b eps : ℚ) : within a b eps = true ↔ |a - b| ≤ eps := by
  simp [within]

theorem within_eq_false_iff (a b eps : ℚ) : within a b eps = false ↔ eps < |a - b| := by
  simp [within]

theorem emit_nil (s : List ℚ × List (Option ℚ)) : emit s [] = s := by
  simp [emit]

theorem emit_emit (s : List ℚ × List (Option ℚ)) (xs ys : List (ℚ × Option ℚ)) :
    emit (emit s xs) ys = emit s (xs ++ ys) := by
  simp [emit]

theorem appendPoints_cons (s : GradState) (p : ℚ × ℚ) (tl : List (ℚ × ℚ)) :
    s.appendPoints (p :: tl) =
      { gradTime := s.gradTime ++ (p :: tl).map Prod.fst,
        gradValues := s.gradValues ++ (p :: tl).map (fun q => some q.2),
        hasAnyPoint := true,
        lastTime := ((p :: tl).getLast (List.cons_ne_nil p tl)).1,
        lastVal := ((p :: tl).getLast (List.cons_ne_nil p tl)).2 } := by
  induction tl generalizing s p with
  | nil => simp [GradState.appendPoints]
  | cons q tl ih =>
    have h := ih { gradTime := s.gradTime ++ [p.1], gradValues := s.gradValues ++ [some p.2],
                   hasAnyPoint := true, lastTime := p.1, lastVal := p.2 } q
    simp only [GradState.appendPoints, List.foldl_cons] at h ⊢
    rw [h]
    simp

theorem appendPoints_series (s : GradState) (frag : List (ℚ × ℚ)) :
    (s.appendPoints frag).series = emit s.series (frag.map sample) := by
  cases frag with
  | nil => simp [GradState.appendPoints, emit]
  | cons p tl =>
    rw [appendPoints_cons]
    simp [GradState.series, emit, sample, Function.comp_def]

theorem gradInit_inv : GradState.init.Inv := by
  simp [GradState.Inv, GradState.init]

theorem buildGradientSeries_eq_loop (blocks : List (Option SeqBlock)) (edges : List ℚ)
    (tFactor : ℚ) (channel : Int) (raster : ℚ) (hedges : edges ≠ []) :
    buildGradientSeries blocks edges tFactor channel raster =
      (gradLoop edges tFactor channel raster 0 blocks GradState.init).series := by
  cases blocks with
  | nil => simp [buildGradientSeries, gradLoop, GradState.series, GradState.init]
  | cons x xs =>
    cases edges with
    | nil => exact absurd rfl hedges
    | cons e es => simp [buildGradientSeries, GradState.series]

theorem startsAtLast_of_inv (s : GradState) (t : ℚ) (h : s.Inv) :
    startsAtLast s.series t = (s.hasAnyPoint && within t s.lastTime epsT) := by
  cases hp : s.hasAnyPoint with
  | false => simp [startsAtLast, GradState.series, (h.1 hp).1]
  | true => simp [startsAtLast, GradState.series, (h.2 hp).1]

theorem breakBefore_series (s : GradState) (p : ℚ × ℚ) :
    ∃ brk : List (ℚ × Option ℚ), brk.length ≤ 1 ∧ (∀ e ∈ brk, e.2 = none) ∧
      (s.breakBefore p).series = emit s.series brk := by
  unfold GradState.breakBefore
  split
  · split
    · exact ⟨[], by simp, by simp, by simp [emit]⟩
    · exact ⟨[(s.lastTime, none)], by simp, by simp, by simp [emit, GradState.series]⟩
  · exact ⟨[], by simp, by simp, by simp [emit]⟩

theorem dedupFragment_trap (g : GradEvent) (t0 tFactor : ℚ)
    (hup : epsT < g.rampUpTime * tFactor) (hflat : epsT < g.flatTime * tFactor)
    (hdown : epsT < g.rampDownTime * tFactor) :
    dedupFragment (trapFragment g t0 tFactor) = trapFragment g t0 tFactor := by
  have hpos : (0 : ℚ) < epsT := by norm_num [epsT]
  have h1 : within (t0 + g.rampUpTime * tFactor) t0 epsT = false := by
    rw [within_eq_false_iff]
    have : t0 + g.rampUpTime * tFactor - t0 = g.rampUpTime * tFactor := by ring
    rw [this, abs_of_pos (lt_trans hpos hup)]
    exact hup
  have h2 : within (t0 + (g.rampUpTime * tFactor + g.flatTime * tFactor))
      (t0 + g.rampUpTime * tFactor) epsT = false := by
    rw [within_eq_false_iff]
    have : t0 + (g.rampUpTime * tFactor + g.flatTime * tFactor) - (t0 + g.rampUpTime * tFactor)
        = g.flatTime * tFactor := by ring
    rw [this, abs_of_pos (lt_trans hpos hflat)]
    exact hflat
  have h3 : within (t0 + (g.rampUpTime * tFactor + g.flatTime * tFactor + g.rampDownTime * tFactor))
      (t0 + (g.rampUpTime * tFactor + g.flatTime * tFactor)) epsT = false := by
    rw [within_eq_false_iff]
    have : t0 + (g.rampUpTime * tFactor + g.flatTime * tFactor + g.rampDownTime * tFactor)
        - (t0 + (g.rampUpTime * tFactor + g.flatTime * tFactor)) = g.rampDownTime * tFactor := by
      ring
    rw [this, abs_of_pos (lt_trans hpos hdown)]
    exact hdown
  simp [dedupFragment, trapFragment, dedupLoop, h1, h2, h3]

theorem mergeFragment_extends (s : GradState) (frag : List (ℚ × ℚ)) :
    ∃ es : List (ℚ × Option ℚ), (s.mergeFragment frag).series = emit s.series es := by
  cases frag with
  | nil => exact ⟨[], by simp [GradState.mergeFragment, emit]⟩
  | cons first others =>
    simp only [GradState.mergeFragment]
    split
    · cases others with
      | nil => exact ⟨[], by simp [emit]⟩
      | cons p tl =>
        obtain ⟨brk, _, _, h3⟩ := breakBefore_series s p
        exact ⟨_, by rw [appendPoints_series, h3, emit_emit]⟩
    · obtain ⟨brk, _, _, h3⟩ := breakBefore_series s first
      exact ⟨_, by rw [appendPoints_series, h3, emit_emit]⟩

theorem gradLoop_extends (edges : List ℚ) (tFactor : ℚ) (channel : Int) (raster : ℚ)
    (blocks : List (Option SeqBlock)) (i : Nat) (s : GradState) :
    ∃ es : List (ℚ × Option ℚ),
      (gradLoop edges tFactor channel raster i blocks s).series = emit s.series es := by
  induction blocks generalizing i s with
  | nil => exact ⟨[], by simp [gradLoop, emit]⟩
  | cons x xs ih =>
    simp only [gradLoop]
    obtain ⟨es, h⟩ := ih (i + 1) (gradBlockStep edges tFactor channel raster i x s)
    have hstep : ∃ e1 : List (ℚ × Option ℚ),
        (gradBlockStep edges tFactor channel raster i x s).series = emit s.series e1 := by
      cases x with
      | none => exact ⟨[], by simp [gradBlockStep, emit]⟩
      | some b =>
        simp only [gradBlockStep]
        split
        · exact ⟨[], by simp [emit]⟩
        · exact mergeFragment_extends _ _
    obtain ⟨e1, h1⟩ := hstep
    exact ⟨e1 ++ es, by rw [h, h1, emit_emit]⟩

theorem trapFragment_eq_corners (g : GradEvent) (t0 tFactor : ℚ) :
    trapFragment g t0 tFactor = trapCorners g t0 tFactor := by
  simp [trapFragment, trapCorners]

theorem gradStep_trap (edges : List ℚ) (tFactor : ℚ) (channel : Int) (raster : ℚ)
    (i : Nat) (blk : SeqBlock) (s : GradState) (hinv : s.Inv)
    (htrap : blk.isTrapGradient channel = true)
    (hup : epsT < (blk.GetGradEvent channel).rampUpTime * tFactor)
    (hflat : epsT < (blk.GetGradEvent channel).flatTime * tFactor)
    (hdown : epsT < (blk.GetGradEvent channel).rampDownTime * tFactor) :
    ∃ brk : List (ℚ × Option ℚ), brk.length ≤ 1 ∧ (∀ e ∈ brk, e.2 = none) ∧
      (gradBlockStep edges tFactor channel raster i (some blk) s).series =
        emit s.series
          (brk ++
            (if startsAtLast s.series
                (edges.getD i 0 + (blk.GetGradEvent channel).delay * tFactor) = true
             then (trapCorners (blk.GetGradEvent channel)
                (edges.getD i 0 + (blk.GetGradEvent channel).delay * tFactor) tFactor).tail
             else trapCorners (blk.GetGradEvent channel)
                (edges.getD i 0 + (blk.GetGradEvent channel).delay * tFactor) tFactor).map sample) := by
  have hfrag : dedupFragment (blockFragment blk channel
      (edges.getD i 0 + (blk.GetGradEvent channel).delay * tFactor) tFactor raster) =
      trapCorners (blk.GetGradEvent channel)
        (edges.getD i 0 + (blk.GetGradEvent channel).delay * tFactor) tFactor := by
    simp only [blockFragment, htrap, if_true]
    rw [dedupFragment_trap _ _ _ hup hflat hdown, trapFragment_eq_corners]
  simp only [gradBlockStep, htrap, Bool.true_or, Bool.true_eq_false, if_false]
  rw [hfrag, startsAtLast_of_inv s _ hinv]
  simp only [trapCorners, GradState.mergeFragment]
  split
  · obtain ⟨brk, h1, h2, h3⟩ := breakBefore_series s
      (edges.getD i 0 + (blk.GetGradEvent channel).delay * tFactor +
        (blk.GetGradEvent channel).rampUpTime * tFactor, (blk.GetGradEvent channel).amplitude)
    refine ⟨brk, h1, h2, ?_⟩
    rw [appendPoints_series, h3, emit_emit]
    simp
  · obtain ⟨brk, h1, h2, h3⟩ := breakBefore_series s
      (edges.getD i 0 + (blk.GetGradEvent channel).delay * tFactor, 0)
    refine ⟨brk, h1, h2, ?_⟩
    rw [appendPoints_series, h3, emit_emit]

/-! ## Lemmas on single-precision rounding -/

theorem roundHalfEven_down (x : ℚ) (f : Int) (h1 : (f : ℚ) ≤ x) (h2 : x < (f : ℚ) + 1 / 2) :
    roundHalfEven x = f := by
  have hf : ⌊x⌋ = f := Int.floor_eq_iff.2 ⟨h1, by linarith⟩
  simp only [roundHalfEven, hf]
  rw [if_pos (by linarith)]

theorem rfSamples_fields (tStart dwell tFactor amplitude : ℚ) (rfList phaseList : Nat → ℚ)
    (js : List Nat) (s : RFState) :
    (js.foldl (rfSampleStep tStart dwell tFactor amplitude rfList phaseList) s).rfTimeAmp
        = s.rfTimeAmp ++ js.map (fun (j : Nat) => tStart + roundToFloat (roundToFloat (j : ℚ) * dwell) * tFactor) ∧
    (js.foldl (rfSampleStep tStart dwell tFactor amplitude rfList phaseList) s).rfAmp
        = s.rfAmp ++ js.map (fun (j : Nat) => some (rfList j * amplitude)) ∧
    (js.foldl (rfSampleStep tStart dwell tFactor amplitude rfList phaseList) s).rfTimePh
        = s.rfTimePh ++ js.map (fun (j : Nat) => tStart + roundToFloat (roundToFloat (j : ℚ) * dwell) * tFactor) ∧
    (js.foldl (rfSampleStep tStart dwell tFactor amplitude rfList phaseList) s).rfPh
        = s.rfPh ++ js.map (fun (j : Nat) => some (phaseList j)) := by
  induction js generalizing s with
  | nil => simp
  | cons j js ih =>
    obtain ⟨h1, h2, h3, h4⟩ := ih (rfSampleStep tStart dwell tFactor amplitude rfList phaseList s j)
    simp only [List.foldl_cons, List.map_cons]
    rw [h1, h2, h3, h4]
    simp [rfSampleStep]

theorem rfSamples_last (tStart dwell tFactor amplitude : ℚ) (rfList phaseList : Nat → ℚ)
    (m : Nat) (s : RFState) :
    ((List.range (m + 1)).foldl
        (rfSampleStep tStart dwell tFactor amplitude rfList phaseList) s).hasAnyPointAmp = true ∧
    ((List.range (m + 1)).foldl
        (rfSampleStep tStart dwell tFactor amplitude rfList phaseList) s).lastTimeAmp
        = tStart + roundToFloat (roundToFloat (m : ℚ) * dwell) * tFactor ∧
    ((List.range (m + 1)).foldl
        (rfSampleStep tStart dwell tFactor amplitude rfList phaseList) s).lastValAmp
        = rfList m * amplitude ∧
    ((List.range (m + 1)).foldl
        (rfSampleStep tStart dwell tFactor amplitude rfList phaseList) s).hasAnyPointPh = true ∧
    ((List.range (m + 1)).foldl
        (rfSampleStep tStart dwell tFactor amplitude rfList phaseList) s).lastTimePh
        = tStart + roundToFloat (roundToFloat (m : ℚ) * dwell) * tFactor ∧
    ((List.range (m + 1)).foldl
        (rfSampleStep tStart dwell tFactor amplitude rfList phaseList) s).lastValPh
        = phaseList m := by
  rw [List.range_succ, List.foldl_append]
  simp [rfSampleStep]

theorem ampSeries_breakAmp (s : RFState) (t a : ℚ) :
    (s.breakAmp t a).ampSeries = emit s.ampSeries (ampBreak s t a) := by
  unfold RFState.breakAmp ampBreak
  cases s.hasAnyPointAmp <;>
    cases within s.lastTimeAmp t epsT && within s.lastValAmp a epsV <;>
      simp [emit, RFState.ampSeries]

theorem phSeries_breakPh (s : RFState) (t a : ℚ) :
    (s.breakPh t a).phSeries = emit s.phSeries (phBreak s t a) := by
  unfold RFState.breakPh phBreak
  cases s.hasAnyPointPh <;>
    cases within s.lastTimePh t epsT && within s.lastValPh a epsV <;>
      simp [emit, RFState.phSeries]

theorem breakAmp_ph (s : RFState) (t a : ℚ) :
    (s.breakAmp t a).phSeries = s.phSeries ∧
    (s.breakAmp t a).hasAnyPointPh = s.hasAnyPointPh ∧
    (s.breakAmp t a).lastTimePh = s.lastTimePh ∧
    (s.breakAmp t a).lastValPh = s.lastValPh := by
  unfold RFState.breakAmp
  cases s.hasAnyPointAmp <;>
    cases within s.lastTimeAmp t epsT && within s.lastValAmp a epsV <;>
      simp [RFState.phSeries]

theorem breakPh_amp (s : RFState) (t a : ℚ) :
    (s.breakPh t a).ampSeries = s.ampSeries := by
  unfold RFState.breakPh
  cases s.hasAnyPointPh <;>
    cases within s.lastTimePh t epsT && within s.lastValPh a epsV <;>
      simp [RFState.ampSeries]

theorem rfSamples_ampSeries (blk : SeqBlock) (tStart tFactor : ℚ) (s : RFState) :
    ((List.range blk.GetRFLength.toNat).foldl
        (rfSampleStep tStart (roundToFloat blk.GetRFDwellTime) tFactor blk.GetRFEvent.amplitude
          blk.GetRFAmplitudePtr blk.GetRFPhasePtr) s).ampSeries
      = emit s.ampSeries ((rfAmpSamples blk tStart tFactor).map sample) := by
  obtain ⟨h1, h2, _, _⟩ := rfSamples_fields tStart (roundToFloat blk.GetRFDwellTime) tFactor
    blk.GetRFEvent.amplitude blk.GetRFAmplitudePtr blk.GetRFPhasePtr
    (List.range blk.GetRFLength.toNat) s
  simp only [RFState.ampSeries, h1, h2]
  simp [emit, rfAmpSamples, rfSampleTime, rfDwellProduct, sample, Function.comp_def]

theorem rfSamples_phSeries (blk : SeqBlock) (tStart tFactor : ℚ) (s : RFState) :
    ((List.range blk.GetRFLength.toNat).foldl
        (rfSampleStep tStart (roundToFloat blk.GetRFDwellTime) tFactor blk.GetRFEvent.amplitude
          blk.GetRFAmplitudePtr blk.GetRFPhasePtr) s).phSeries
      = emit s.phSeries ((rfPhSamples blk tStart tFactor).map sample) := by
  obtain ⟨_, _, h3, h4⟩ := rfSamples_fields tStart (roundToFloat blk.GetRFDwellTime) tFactor
    blk.GetRFEvent.amplitude blk.GetRFAmplitudePtr blk.GetRFPhasePtr
    (List.range blk.GetRFLength.toNat) s
  simp only [RFState.phSeries, h3, h4]
  simp [emit, rfPhSamples, rfSampleTime, rfDwellProduct, sample, Function.comp_def]

theorem rfStep_carrying (edges : List ℚ) (tFactor : ℚ) (i : Nat) (blk : SeqBlock)
    (s : RFState) (hrf : blk.isRF = true) (hlen : 0 < blk.GetRFLength) :
    rfBlockStep edges tFactor i (some blk) s =
      (List.range blk.GetRFLength.toNat).foldl
        (rfSampleStep (edges.getD i 0 + blk.GetRFEvent.delay * tFactor)
          (roundToFloat blk.GetRFDwellTime)
          tFactor blk.GetRFEvent.amplitude blk.GetRFAmplitudePtr blk.GetRFPhasePtr)
        ((s.breakAmp (edges.getD i 0 + blk.GetRFEvent.delay * tFactor)
            (blk.GetRFAmplitudePtr 0 * blk.GetRFEvent.amplitude)).breakPh
          (edges.getD i 0 + blk.GetRFEvent.delay * tFactor) (blk.GetRFPhasePtr 0)) := by
  simp [rfBlockStep, hrf, not_le.mpr hlen]

theorem rfStep_not_carrying (edges : List ℚ) (tFactor : ℚ) (i : Nat)
    (blk : Option SeqBlock) (s : RFState) (h : carriesRF blk = false) :
    rfBlockStep edges tFactor i blk s = s := by
  cases blk with
  | none => rfl
  | some b =>
    simp only [carriesRF, Bool.and_eq_false_iff, decide_eq_false_iff_not, not_lt] at h
    simp only [rfBlockStep]
    rcases h with h | h
    · simp [h]
    · simp [h]

theorem rfStep_ampSeries (edges : List ℚ) (tFactor : ℚ) (i : Nat) (blk : SeqBlock)
    (s : RFState) (hrf : blk.isRF = true) (hlen : 0 < blk.GetRFLength) :
    (rfBlockStep edges tFactor i (some blk) s).ampSeries =
      emit s.ampSeries
        (ampBreak s (edges.getD i 0 + blk.GetRFEvent.delay * tFactor)
            (blk.GetRFAmplitudePtr 0 * blk.GetRFEvent.amplitude) ++
          (rfAmpSamples blk (edges.getD i 0 + blk.GetRFEvent.delay * tFactor) tFactor).map
            sample) := by
  rw [rfStep_carrying _ _ _ _ _ hrf hlen, rfSamples_ampSeries, breakPh_amp, ampSeries_breakAmp,
    emit_emit]

theorem phBreak_breakAmp (s : RFState) (t a t2 p : ℚ) :
    phBreak (s.breakAmp t a) t2 p = phBreak s t2 p := by
  obtain ⟨_, h2, h3, h4⟩ := breakAmp_ph s t a
  simp [phBreak, h2, h3, h4]

theorem rfStep_phSeries (edges : List ℚ) (tFactor : ℚ) (i : Nat) (blk : SeqBlock)
    (s : RFState) (hrf : blk.isRF = true) (hlen : 0 < blk.GetRFLength) :
    (rfBlockStep edges tFactor i (some blk) s).phSeries =
      emit s.phSeries
        (phBreak s (edges.getD i 0 + blk.GetRFEvent.delay * tFactor) (blk.GetRFPhasePtr 0) ++
          (rfPhSamples blk (edges.getD i 0 + blk.GetRFEvent.delay * tFactor) tFactor).map
            sample) := by
  rw [rfStep_carrying _ _ _ _ _ hrf hlen, rfSamples_phSeries, phSeries_breakPh,
    (breakAmp_ph s _ _).1, emit_emit, phBreak_breakAmp]

theorem rfInit_inv : RFState.init.Inv := by
  constructor <;> simp [RFState.init]

theorem toNat_succ_of_pos (n : Int) (h : 0 < n) : ∃ m : Nat, n.toNat = m + 1 := by
  refine ⟨n.toNat - 1, ?_⟩
  omega

theorem rfStep_inv (edges : List ℚ) (tFactor : ℚ) (i : Nat) (blk : Option SeqBlock)
    (s : RFState) (h : s.Inv) : (rfBlockStep edges tFactor i blk s).Inv := by
  cases hc : carriesRF blk with
  | false => rw [rfStep_not_carrying _ _ _ _ _ hc]; exact h
  | true =>
    cases blk with
    | none => simp [carriesRF] at hc
    | some b =>
      simp only [carriesRF, Bool.and_eq_true, decide_eq_true_eq] at hc
      obtain ⟨hrf, hlen⟩ := hc
      obtain ⟨m, hm⟩ := toNat_succ_of_pos _ hlen
      have hA := rfStep_ampSeries edges tFactor i b s hrf hlen
      have hP := rfStep_phSeries edges tFactor i b s hrf hlen
      have hL := rfSamples_last (edges.getD i 0 + b.GetRFEvent.delay * tFactor)
        (roundToFloat b.GetRFDwellTime)
        tFactor b.GetRFEvent.amplitude b.GetRFAmplitudePtr b.GetRFPhasePtr m
        ((s.breakAmp (edges.getD i 0 + b.GetRFEvent.delay * tFactor)
            (b.GetRFAmplitudePtr 0 * b.GetRFEvent.amplitude)).breakPh
          (edges.getD i 0 + b.GetRFEvent.delay * tFactor) (b.GetRFPhasePtr 0))
      rw [← hm, ← rfStep_carrying _ _ _ _ _ hrf hlen] at hL
      obtain ⟨l1, l2, l3, l4, l5, l6⟩ := hL
      have hA1 := congrArg Prod.fst hA
      have hA2 := congrArg Prod.snd hA
      have hP1 := congrArg Prod.fst hP
      have hP2 := congrArg Prod.snd hP
      simp only [RFState.ampSeries, RFState.phSeries, emit, rfAmpSamples, rfPhSamples,
        rfSampleTime, rfDwellProduct, hm, List.range_succ] at hA1 hA2 hP1 hP2
      have lenA := h.lenAmp
      have lenP := h.lenPh
      constructor
      · rw [hA1, hA2]; simp [lenA]
      · rw [hP1, hP2]; simp [lenP]
      · intro hf; rw [l1] at hf; exact absurd hf (by simp)
      · intro _
        rw [hA1, hA2, l2, l3]
        simp [sample]
      · intro hf; rw [l4] at hf; exact absurd hf (by simp)
      · intro _
        rw [hP1, hP2, l5, l6]
        simp [sample]

theorem rfLoop_inv (edges : List ℚ) (tFactor : ℚ)
    (blocks : List (Option SeqBlock)) (i : Nat) (s : RFState) (h : s.Inv) :
    (rfLoop edges tFactor i blocks s).Inv := by
  induction blocks generalizing i s with
  | nil => simpa [rfLoop] using h
  | cons x xs ih =>
    simp only [rfLoop]
    exact ih _ _ (rfStep_inv _ _ _ _ _ h)

theorem realEntries_append (xs ys : List (ℚ × Option ℚ)) :
    realEntries (xs ++ ys) = realEntries xs ++ realEntries ys := by
  simp [realEntries, List.filterMap_append]

theorem realEntries_map_sample (l : List (ℚ × ℚ)) : realEntries (l.map sample) = l := by
  induction l with
  | nil => rfl
  | cons p tl ih =>
    simp only [realEntries, List.map_cons] at ih ⊢
    rw [List.filterMap_cons]
    simp [sample, ih]

theorem nonBreak_emit_nil (es : List (ℚ × Option ℚ)) :
    nonBreak (emit ([], []) es) = realEntries es := by
  have hz : ∀ l : List (ℚ × Option ℚ), (l.map Prod.fst).zip (l.map Prod.snd) = l := by
    intro l
    induction l with
    | nil => rfl
    | cons e tl ih => simp [ih]
  simp [nonBreak, emit, realEntries, hz]

theorem adcLoop_append (edges : List ℚ) (tFactor : ℚ)
    (xs ys : List (Option SeqBlock)) (i : Nat) (s : List ℚ × List (Option ℚ)) :
    adcLoop edges tFactor i (xs ++ ys) s =
      adcLoop edges tFactor (i + xs.length) ys (adcLoop edges tFactor i xs s) := by
  induction xs generalizing i s with
  | nil => simp [adcLoop]
  | cons x xs ih =>
    show adcLoop edges tFactor (i + 1) (xs ++ ys) _ = _
    rw [ih, List.length_cons]
    have h : i + 1 + xs.length = i + (xs.length + 1) := by omega
    rw [h]
    rfl

theorem buildADCSeries_eq_loop (blocks : List (Option SeqBlock)) (edges : List ℚ)
    (tFactor : ℚ) (hedges : edges ≠ []) :
    buildADCSeries blocks edges tFactor = adcLoop edges tFactor 0 blocks ([], []) := by
  cases blocks with
  | nil => simp [buildADCSeries, adcLoop]
  | cons x xs =>
    cases edges with
    | nil => exact absurd rfl hedges
    | cons e es => simp [buildADCSeries]

theorem adcStep_event (edges : List ℚ) (tFactor : ℚ) (i : Nat) (blk : SeqBlock)
    (s : List ℚ × List (Option ℚ)) (hadc : blk.isADC = true)
    (hn : blk.GetADCEvent.numSamples ≠ 0) :
    adcBlockStep edges tFactor i (some blk) s =
      emit s (adcLead s (adcStart blk.GetADCEvent (edges.getD i 0) tFactor) ++
        adcRectangle (adcStart blk.GetADCEvent (edges.getD i 0) tFactor)
          (adcEnd blk.GetADCEvent (edges.getD i 0) tFactor)) := by
  simp only [adcBlockStep, hadc, hn, Bool.true_eq_false, if_false, adcLead]
  cases h : s.1.isEmpty <;>
    simp [emit, adcRectangle, adcStart, adcEnd]

theorem adcStep_skip (edges : List ℚ) (tFactor : ℚ) (i : Nat) (blk : Option SeqBlock)
    (s : List ℚ × List (Option ℚ)) (h : isADCEvent blk = false) :
    adcBlockStep edges tFactor i blk s = s := by
  cases blk with
  | none => rfl
  | some b =>
    simp only [isADCEvent, Bool.and_eq_false_iff, decide_eq_false_iff_not, not_not] at h
    simp only [adcBlockStep]
    rcases h with h | h
    · simp [h]
    · simp [h]

theorem adcLoop_entries (edges : List ℚ) (tFactor : ℚ) (blocks : List (Option SeqBlock))
    (i : Nat) (s : List ℚ × List (Option ℚ)) :
    ∃ es : List (ℚ × Option ℚ),
      adcLoop edges tFactor i blocks s = emit s es ∧
      es.length + (if s.1.isEmpty = true ∧ 0 < adcEventCount blocks then 1 else 0)
        = 6 * adcEventCount blocks ∧
      breakEntries es + (if s.1.isEmpty = true ∧ 0 < adcEventCount blocks then 1 else 0)
        = 2 * adcEventCount blocks := by
  induction blocks generalizing i s with
  | nil => exact ⟨[], by simp [adcLoop, emit], by simp [adcEventCount],
      by simp [adcEventCount, breakEntries]⟩
  | cons x xs ih =>
    simp only [adcLoop]
    cases hc : isADCEvent x with
    | false =>
      rw [adcStep_skip _ _ _ _ _ hc]
      obtain ⟨es, h1, h2, h3⟩ := ih (i + 1) s
      have hk : adcEventCount (x :: xs) = adcEventCount xs := by
        simp [adcEventCount, List.filter_cons, hc]
      exact ⟨es, h1, by rw [hk]; exact h2, by rw [hk]; exact h3⟩
    | true =>
      cases x with
      | none => simp [isADCEvent] at hc
      | some b =>
        have hc2 := hc
        simp only [isADCEvent, Bool.and_eq_true, decide_eq_true_eq] at hc2
        obtain ⟨hadc, hn⟩ := hc2
        rw [adcStep_event _ _ _ _ _ hadc hn]
        obtain ⟨es, h1, h2, h3⟩ := ih (i + 1)
          (emit s (adcLead s (adcStart b.GetADCEvent (edges.getD i 0) tFactor) ++
            adcRectangle (adcStart b.GetADCEvent (edges.getD i 0) tFactor)
              (adcEnd b.GetADCEvent (edges.getD i 0) tFactor)))
        have hk : adcEventCount (some b :: xs) = adcEventCount xs + 1 := by
          simp [adcEventCount, List.filter_cons, hc]
        have hne : (emit s (adcLead s (adcStart b.GetADCEvent (edges.getD i 0) tFactor) ++
            adcRectangle (adcStart b.GetADCEvent (edges.getD i 0) tFactor)
              (adcEnd b.GetADCEvent (edges.getD i 0) tFactor))).1.isEmpty = false := by
          simp [emit, adcRectangle]
        rw [hne] at h2 h3
        simp only [Bool.false_eq_true, false_and, if_false, Nat.add_zero] at h2 h3
        refine ⟨_, by rw [h1, emit_emit], ?_, ?_⟩
        · rw [hk]
          cases he : s.1.isEmpty <;>
            simp [adcLead, he, adcRectangle, List.length_append] <;> omega
        · rw [hk]
          cases he : s.1.isEmpty <;>
            simp [adcLead, he, adcRectangle, breakEntries, List.filter_append,
              List.filter_cons] at h3 ⊢ <;> omega

/-! ## Lemmas on the label analyzer -/

theorem assign_append (m : StateMap) (k : Int) (v : LabelValueStorage)
    (h : ∀ p ∈ m, p.1 < k) : m.assign k v = m ++ [(k, v)] := by
  induction m with
  | nil => rfl
  | cons p tl ih =>
    obtain ⟨k1, v1⟩ := p
    have h1 : k1 < k := h (k1, v1) (List.mem_cons_self _ _)
    have h2 : ∀ q ∈ tl, q.1 < k := fun q hq => h q (List.mem_cons_of_mem _ hq)
    simp only [StateMap.assign, List.cons_append]
    rw [if_neg (by omega), if_neg (by omega), ih h2]

theorem snapshotsFrom_keys (c : LabelConstants) (blocks : List (List LabelOp)) (i : Nat)
    (t : LabelStateAndBookkeeping) :
    ∀ p ∈ snapshotsFrom c i t blocks, (i : Int) ≤ p.1 ∧ p.1 < (i : Int) + blocks.length := by
  induction blocks generalizing i t with
  | nil => simp [snapshotsFrom]
  | cons b rest ih =>
    intro p hp
    simp only [snapshotsFrom, List.mem_cons] at hp
    rcases hp with hp | hp
    · rw [hp]
      simp only [List.length_cons]
      constructor <;> push_cast <;> omega
    · have := ih (i + 1) _ p hp
      simp only [List.length_cons]
      push_cast at this ⊢
      omega

theorem analyzeLoop_states (c : LabelConstants) (blocks : List (List LabelOp)) (i : Nat)
    (a : PulseqLabelAnalyzer) (h : ∀ p ∈ a.m_blockLabelStates, p.1 < (i : Int)) :
    (analyzeLoop c i blocks a).m_blockLabelStates =
      a.m_blockLabelStates ++ snapshotsFrom c i a.m_labelTracker blocks := by
  induction blocks generalizing i a with
  | nil => simp [analyzeLoop, snapshotsFrom]
  | cons b rest ih =>
    simp only [analyzeLoop, snapshotsFrom]
    rw [ih]
    · simp only [assign_append _ _ _ h, List.append_assoc, List.singleton_append]
    · intro p hp
      simp only [assign_append _ _ _ h, List.mem_append, List.mem_singleton] at hp
      rcases hp with hp | hp
      · have := h p hp
        push_cast
        omega
      · rw [hp]
        push_cast
        omega

theorem new_states (c : LabelConstants) (seq : List (List LabelOp)) :
    (PulseqLabelAnalyzer.new c seq).m_blockLabelStates =
      snapshotsFrom c 0 LabelStateAndBookkeeping.init seq := by
  simp only [PulseqLabelAnalyzer.new, PulseqLabelAnalyzer.analyzeLabels]
  rw [analyzeLoop_states]
  · simp
  · simp

theorem find_snapshotsFrom (c : LabelConstants) (blocks : List (List LabelOp)) (i k : Nat)
    (t : LabelStateAndBookkeeping) (hk : k < blocks.length) :
    StateMap.find (snapshotsFrom c i t blocks) ((i : Int) + k) =
      some (getCurrentLabelState c (trackerAfter t (blocks.take (k + 1)))) := by
  induction blocks generalizing i k t with
  | nil => simp at hk
  | cons b rest ih =>
    cases k with
    | zero => simp [snapshotsFrom, StateMap.find, trackerAfter]
    | succ k =>
      simp only [snapshotsFrom, StateMap.find]
      rw [if_neg (by push_cast; omega)]
      have hk2 : k < rest.length := by simpa using hk
      have := ih (i + 1) k (t.updateLabelValues b) hk2
      have he : ((i + 1 : Nat) : Int) + (k : Int) = (i : Int) + ((k + 1 : Nat) : Int) := by
        push_cast
        omega
      rw [he] at this
      rw [this]
      simp [trackerAfter]

theorem find_none_of_keys (m : StateMap) (b : Int) (h : ∀ p ∈ m, p.1 ≠ b) :
    StateMap.find m b = none := by
  induction m with
  | nil => rfl
  | cons p tl ih =>
    obtain ⟨k1, v1⟩ := p
    have h1 : k1 ≠ b := h (k1, v1) (List.mem_cons_self _ _)
    simp only [StateMap.find]
    rw [if_neg h1]
    exact ih (fun q hq => h q (List.mem_cons_of_mem _ hq))

theorem applyOp_counter (t : LabelStateAndBookkeeping) (op : LabelOp) (id : Nat) :
    (t.applyOp op).counter id = replayCounter id [op] (t.counter id) := by
  cases op <;> simp [LabelStateAndBookkeeping.applyOp, replayCounter, eq_comm]

theorem updateLabelValues_counter (t : LabelStateAndBookkeeping) (block : List LabelOp)
    (id : Nat) :
    (t.updateLabelValues block).counter id = replayCounter id block (t.counter id) := by
  induction block generalizing t with
  | nil => rfl
  | cons op rest ih =>
    simp only [LabelStateAndBookkeeping.updateLabelValues, List.foldl_cons] at ih ⊢
    rw [ih, applyOp_counter]
    simp [replayCounter]

theorem replayCounter_append (id : Nat) (xs ys : List LabelOp) (start : Int) :
    replayCounter id (xs ++ ys) start = replayCounter id ys (replayCounter id xs start) := by
  simp [replayCounter, List.foldl_append]

theorem trackerAfter_counter (t : LabelStateAndBookkeeping) (blocks : List (List LabelOp))
    (id : Nat) :
    (trackerAfter t blocks).counter id = replayCounter id blocks.flatten (t.counter id) := by
  induction blocks generalizing t with
  | nil => rfl
  | cons b rest ih =>
    simp only [trackerAfter, List.foldl_cons, List.flatten_cons] at ih ⊢
    rw [ih, updateLabelValues_counter, replayCounter_append]

theorem snapshot_val (c : LabelConstants) (t : LabelStateAndBookkeeping) (id : Nat) :
    (getCurrentLabelState c t).val.getD id 0 = if id < c.NUM_LABELS then t.counter id else 0 := by
  simp only [getCurrentLabelState, LabelStateAndBookkeeping.currVal, List.getD_eq_getElem?_getD,
    List.getElem?_map, List.getElem?_range]
  by_cases h : id < c.NUM_LABELS
  · simp [h, List.getElem?_range]
  · simp [h, List.getElem?_eq_none (l := List.range c.NUM_LABELS) (by simpa using h)]

theorem snapshot_used (c : LabelConstants) (t : LabelStateAndBookkeeping) (id : Nat)
    (h : id < c.NUM_LABELS) :
    (getCurrentLabelState c t).bValUsed.getD id false =
      (decide ((id : Int) ≤ c.LAST_ADC_RELEVANT_LABEL) || decide (t.counter id ≠ 0)) := by
  have hv := snapshot_val c t id
  rw [if_pos h] at hv
  simp only [getCurrentLabelState] at hv ⊢
  simp only [List.getD_eq_getElem?_getD, List.getElem?_map] at hv ⊢
  simp [h, List.getElem?_range, LabelStateAndBookkeeping.currVal]

theorem labelUsedIn_snapshot (c : LabelConstants) (t : LabelStateAndBookkeeping) (id : Nat)
    (h : id < c.NUM_LABELS) :
    labelUsedIn c (id : Int) (getCurrentLabelState c t) =
      (decide ((id : Int) ≤ c.LAST_ADC_RELEVANT_LABEL) || decide (t.counter id ≠ 0)) := by
  have h1 : (0 : Int) ≤ (id : Int) := Int.ofNat_nonneg id
  have h2 : (id : Int) < (c.NUM_LABELS : Int) := by exact_mod_cast h
  simp only [labelUsedIn, Int.toNat_ofNat, snapshot_used c t id h, h1, h2, decide_True,
    Bool.true_and]

theorem stateAfterBlock_eq (c : LabelConstants) (seq : List (List LabelOp)) (N : Nat)
    (hN : N < seq.length) :
    (PulseqLabelAnalyzer.new c seq).getLabelStateAfterBlock c (N : Int) =
      getCurrentLabelState c (trackerAfter LabelStateAndBookkeeping.init (seq.take (N + 1))) := by
  have h := find_snapshotsFrom c seq 0 N LabelStateAndBookkeeping.init hN
  simp only [Nat.cast_zero, zero_add] at h
  simp only [PulseqLabelAnalyzer.getLabelStateAfterBlock, new_states, h]

theorem replayCounter_no_set (id : Nat) (ops : List LabelOp) (x : Int)
    (h : ∀ op ∈ ops, op.setsCounter id = false) :
    replayCounter id ops x = x + incSum id ops := by
  induction ops generalizing x with
  | nil => simp [replayCounter, incSum]
  | cons op rest ih =>
    have hop := h op (List.mem_cons_self _ _)
    have hrest : ∀ o ∈ rest, o.setsCounter id = false :=
      fun o ho => h o (List.mem_cons_of_mem _ ho)
    have e : replayCounter id (op :: rest) x = replayCounter id rest (replayCounter id [op] x) := by
      simp [replayCounter]
    rw [e, ih _ hrest]
    cases op with
    | set k v =>
      simp only [LabelOp.setsCounter, decide_eq_false_iff_not] at hop
      simp [replayCounter, incSum, hop]
    | setFlag k b => simp [replayCounter, incSum]
    | inc k d =>
      by_cases hk : k = id
      · simp [replayCounter, incSum, hk]; ring
      · simp [replayCounter, incSum, hk]

theorem replayCounter_after_set (id : Nat) (ops1 ops2 : List LabelOp) (v x : Int)
    (h : ∀ op ∈ ops2, op.setsCounter id = false) :
    replayCounter id (ops1 ++ [LabelOp.set id v] ++ ops2) x = v + incSum id ops2 := by
  rw [replayCounter_append, replayCounter_append, replayCounter_no_set _ _ _ h]
  simp [replayCounter]

theorem foldl_unchanged {α β : Type} (f : β → α → β) (l : List α) (acc : β)
    (h : ∀ x ∈ l, ∀ b : β, f b x = b) : l.foldl f acc = acc := by
  induction l generalizing acc with
  | nil => rfl
  | cons x tl ih =>
    simp only [List.foldl_cons]
    rw [h x (List.mem_cons_self _ _), ih _ (fun y hy => h y (List.mem_cons_of_mem _ hy))]

theorem queries_of_unused (c : LabelConstants) (a : PulseqLabelAnalyzer) (labelId : Int)
    (h : ∀ p ∈ a.m_blockLabelStates, labelUsedIn c labelId p.2 = false) :
    a.getLabelValueRange c labelId = (0, 0) ∧
    a.getLabelValueSequence c labelId = [] ∧
    ∀ targetValue : Int, a.findBlocksWithLabel c labelId targetValue = [] := by
  refine ⟨?_, ?_, ?_⟩
  · simp only [PulseqLabelAnalyzer.getLabelValueRange]
    rw [foldl_unchanged _ _ _ (fun p hp b => by simp [h p hp])]
    simp
  · simp only [PulseqLabelAnalyzer.getLabelValueSequence]
    rw [foldl_unchanged _ _ _ (fun p hp b => by simp [h p hp])]
  · intro v
    simp only [PulseqLabelAnalyzer.findBlocksWithLabel]
    rw [foldl_unchanged _ _ _ (fun p hp b => by simp [h p hp])]

theorem labelUsedIn_out_of_range (c : LabelConstants) (labelId : Int)
    (state : LabelValueStorage) (h : labelId < 0 ∨ (c.NUM_LABELS : Int) ≤ labelId) :
    labelUsedIn c labelId state = false := by
  simp only [labelUsedIn, Bool.and_eq_false_iff, decide_eq_false_iff_not, not_le, not_lt]
  rcases h with h | h
  · exact Or.inl (Or.inl h)
  · exact Or.inl (Or.inr h)

theorem replayCounter_untouched (id : Nat) (ops : List LabelOp) (x : Int)
    (h : ∀ op ∈ ops, op.touches id = false) : replayCounter id ops x = x := by
  induction ops generalizing x with
  | nil => rfl
  | cons op rest ih =>
    have hop := h op (List.mem_cons_self _ _)
    have e : replayCounter id (op :: rest) x = replayCounter id rest (replayCounter id [op] x) := by
      simp [replayCounter]
    rw [e, ih _ (fun o ho => h o (List.mem_cons_of_mem _ ho))]
    cases op with
    | set k v =>
      simp only [LabelOp.touches, decide_eq_false_iff_not] at hop
      simp [replayCounter, hop]
    | setFlag k b => simp [replayCounter]
    | inc k d =>
      simp only [LabelOp.touches, decide_eq_false_iff_not] at hop
      simp [replayCounter, hop]

theorem snapshotsFrom_untouched (c : LabelConstants) (blocks : List (List LabelOp)) (i id : Nat)
    (t : LabelStateAndBookkeeping) (ht : t.counter id = 0)
    (h : ∀ block ∈ blocks, ∀ op ∈ block, op.touches id = false) :
    ∀ p ∈ snapshotsFrom c i t blocks, p.2.val.getD id 0 = 0 := by
  induction blocks generalizing i t with
  | nil => simp [snapshotsFrom]
  | cons b rest ih =>
    have hb : (t.updateLabelValues b).counter id = 0 := by
      rw [updateLabelValues_counter, replayCounter_untouched _ _ _ (h b (List.mem_cons_self _ _)),
        ht]
    intro p hp
    simp only [snapshotsFrom, List.mem_cons] at hp
    rcases hp with hp | hp
    · rw [hp]
      show (getCurrentLabelState c (t.updateLabelValues b)).val.getD id 0 = 0
      rw [snapshot_val, hb]
      simp
    · exact ih (i + 1) _ hb (fun bl hbl => h bl (List.mem_cons_of_mem _ hbl)) p hp

theorem range_fold_zero (c : LabelConstants) (labelId : Int) (m : StateMap)
    (acc : Int × Int × Bool)
    (hacc : acc = (INT_MAX, INT_MIN, false) ∨ acc = (0, 0, true))
    (h : ∀ p ∈ m, p.2.val.getD labelId.toNat 0 = 0) :
    m.foldl
        (fun acc p =>
          if labelUsedIn c labelId p.2 then
            let val := p.2.val.getD labelId.toNat 0
            let minVal := if val < acc.1 then val else acc.1
            let maxVal := if val > acc.2.1 then val else acc.2.1
            (minVal, maxVal, true)
          else acc)
        acc = (INT_MAX, INT_MIN, false) ∨
    m.foldl
        (fun acc p =>
          if labelUsedIn c labelId p.2 then
            let val := p.2.val.getD labelId.toNat 0
            let minVal := if val < acc.1 then val else acc.1
            let maxVal := if val > acc.2.1 then val else acc.2.1
            (minVal, maxVal, true)
          else acc)
        acc = (0, 0, true) := by
  induction m generalizing acc with
  | nil => simpa using hacc
  | cons p tl ih =>
    simp only [List.foldl_cons]
    apply ih
    · have hp := h p (List.mem_cons_self _ _)
      cases hu : labelUsedIn c labelId p.2 with
      | false => simpa using hacc
      | true =>
        right
        rw [if_pos rfl]
        simp only [hp]
        rcases hacc with hacc | hacc <;> rw [hacc] <;> simp [INT_MAX, INT_MIN]
    · exact fun q hq => h q (List.mem_cons_of_mem _ hq)

/-! ## Claims on buildGradientSeries -/

/-- C1 (the code at the claim's own scenario): two X-axis trapezoids of amplitude 10 and
durations (10, 20, 10) at block offsets 0 and 40 with time scale 1.  The second
fragment starts at the last emitted point (40, 0); its leading point is dropped, and
the continuity check then compares the last emitted point with the fragment's second
point (50, 10) and inserts a break marker at time 40.  The series has 8 entries, the
fifth of which is a break marker, not 7 entries without one. -/
theorem buildGradientSeries_two_trapezoids :
    buildGradientSeries
        [some (trapBlock 0 ⟨0, 10, 10, 20, 10⟩), some (trapBlock 0 ⟨0, 10, 10, 20, 10⟩)]
        [0, 40] 1 0 (-1)
      = ([0, 10, 30, 40, 40, 50, 70, 80],
         [some 0, some 10, some 10, some 0, none, some 10, some 10, some 0]) := by
  simp [buildGradientSeries, gradLoop, gradBlockStep, trapBlock, emptyBlock, blockFragment,
    trapFragment, dedupFragment, dedupLoop, GradState.mergeFragment, GradState.breakBefore,
    GradState.appendPoints, GradState.init, within, epsT, epsV]
  norm_num

/-- C5: in every block list, a block carrying an ADC event with a non-zero sample count
contributes, after the series of the blocks before it and the leading break marker that
separates it from an earlier window, the rectangle (start, 0), (start, 1), (end, 1),
(end, 0) and then a break marker at time end, in this order, where
start = edges[i] + adc.delay*tFactor and
end = start + (numSamples*dwellTime/1000)*tFactor; the two top points have value 1,
and end > start when the sample count, the dwell time and the time scale are positive. -/
theorem adc_block_rectangle (pre post : List (Option SeqBlock)) (blk : SeqBlock)
    (edges : List ℚ) (tFactor : ℚ)
    (hcover : pre.length < edges.length)
    (hadc : blk.isADC = true) (hn : blk.GetADCEvent.numSamples ≠ 0) :
    (∃ rest : List (ℚ × Option ℚ),
      buildADCSeries (pre ++ some blk :: post) edges tFactor =
        emit (buildADCSeries pre edges tFactor)
          (adcLead (buildADCSeries pre edges tFactor)
              (edges.getD pre.length 0 + blk.GetADCEvent.delay * tFactor) ++
            [(edges.getD pre.length 0 + blk.GetADCEvent.delay * tFactor, some 0),
             (edges.getD pre.length 0 + blk.GetADCEvent.delay * tFactor, some 1),
             (edges.getD pre.length 0 + blk.GetADCEvent.delay * tFactor +
                ((blk.GetADCEvent.numSamples : ℚ) * blk.GetADCEvent.dwellTime / 1000) * tFactor,
              some 1),
             (edges.getD pre.length 0 + blk.GetADCEvent.delay * tFactor +
                ((blk.GetADCEvent.numSamples : ℚ) * blk.GetADCEvent.dwellTime / 1000) * tFactor,
              some 0),
             (edges.getD pre.length 0 + blk.GetADCEvent.delay * tFactor +
                ((blk.GetADCEvent.numSamples : ℚ) * blk.GetADCEvent.dwellTime / 1000) * tFactor,
              none)] ++ rest)) ∧
      (0 < blk.GetADCEvent.numSamples → 0 < blk.GetADCEvent.dwellTime → 0 < tFactor →
        edges.getD pre.length 0 + blk.GetADCEvent.delay * tFactor <
          edges.getD pre.length 0 + blk.GetADCEvent.delay * tFactor +
            ((blk.GetADCEvent.numSamples : ℚ) * blk.GetADCEvent.dwellTime / 1000) * tFactor) := by
  have hedges : edges ≠ [] := by
    intro h
    rw [h] at hcover
    simp at hcover
  constructor
  · rw [buildADCSeries_eq_loop _ _ _ hedges, buildADCSeries_eq_loop _ _ _ hedges,
      adcLoop_append]
    simp only [adcLoop, Nat.zero_add]
    obtain ⟨rest, hrest, _, _⟩ := adcLoop_entries edges tFactor post (pre.length + 1)
      (adcBlockStep edges tFactor pre.length (some blk)
        (adcLoop edges tFactor 0 pre ([], [])))
    refine ⟨rest, ?_⟩
    rw [hrest, adcStep_event _ _ _ _ _ hadc hn, emit_emit]
    rfl
  · intro h1 h2 h3
    have hq : (0 : ℚ) < (blk.GetADCEvent.numSamples : ℚ) := by exact_mod_cast h1
    have : 0 < ((blk.GetADCEvent.numSamples : ℚ) * blk.GetADCEvent.dwellTime / 1000) * tFactor := by
      positivity
    linarith

/-- C5 (witness): a window of 4 samples with dwell time 1000 and delay 1 in a block
starting at 10, after a block without events and before a second window. -/
theorem adc_block_rectangle_witness :
    (∃ rest : List (ℚ × Option ℚ),
      buildADCSeries ([some emptyBlock] ++ some (adcBlock ⟨4, 1000, 1⟩) :: [some (adcBlock ⟨4, 1000, 1⟩)]) [0, 10, 20] 1 =
        emit (buildADCSeries [some emptyBlock] [0, 10, 20] 1)
          (adcLead (buildADCSeries [some emptyBlock] [0, 10, 20] 1)
              (([0, 10, 20] : List ℚ).getD [some emptyBlock].length 0 +
                (adcBlock ⟨4, 1000, 1⟩).GetADCEvent.delay * 1) ++
            [(([0, 10, 20] : List ℚ).getD [some emptyBlock].length 0 +
                (adcBlock ⟨4, 1000, 1⟩).GetADCEvent.delay * 1, some 0),
             (([0, 10, 20] : List ℚ).getD [some emptyBlock].length 0 +
                (adcBlock ⟨4, 1000, 1⟩).GetADCEvent.delay * 1, some 1),
             (([0, 10, 20] : List ℚ).getD [some emptyBlock].length 0 +
                (adcBlock ⟨4, 1000, 1⟩).GetADCEvent.delay * 1 +
                (((adcBlock ⟨4, 1000, 1⟩).GetADCEvent.numSamples : ℚ) * (adcBlock ⟨4, 1000, 1⟩).GetADCEvent.dwellTime / 1000) * 1, some 1),
             (([0, 10, 20] : List ℚ).getD [some emptyBlock].length 0 +
                (adcBlock ⟨4, 1000, 1⟩).GetADCEvent.delay * 1 +
                (((adcBlock ⟨4, 1000, 1⟩).GetADCEvent.numSamples : ℚ) * (adcBlock ⟨4, 1000, 1⟩).GetADCEvent.dwellTime / 1000) * 1, some 0),
             (([0, 10, 20] : List ℚ).getD [some emptyBlock].length 0 +
                (adcBlock ⟨4, 1000, 1⟩).GetADCEvent.delay * 1 +
                (((adcBlock ⟨4, 1000, 1⟩).GetADCEvent.numSamples : ℚ) * (adcBlock ⟨4, 1000, 1⟩).GetADCEvent.dwellTime / 1000) * 1, none)]
            ++ rest)) ∧
      (([0, 10, 20] : List ℚ).getD [some emptyBlock].length 0 + (adcBlock ⟨4, 1000, 1⟩).GetADCEvent.delay * 1 <
          ([0, 10, 20] : List ℚ).getD [some emptyBlock].length 0 + (adcBlock ⟨4, 1000, 1⟩).GetADCEvent.delay * 1 +
            (((adcBlock ⟨4, 1000, 1⟩).GetADCEvent.numSamples : ℚ) * (adcBlock ⟨4, 1000, 1⟩).GetADCEvent.dwellTime / 1000) * 1) :=
  ⟨(adc_block_rectangle [some emptyBlock] [some (adcBlock ⟨4, 1000, 1⟩)] (adcBlock ⟨4, 1000, 1⟩) [0, 10, 20] 1
      (by simp) (by simp [adcBlock]) (by simp [adcBlock])).1,
   (adc_block_rectangle [some emptyBlock] [some (adcBlock ⟨4, 1000, 1⟩)] (adcBlock ⟨4, 1000, 1⟩) [0, 10, 20] 1
      (by simp) (by simp [adcBlock]) (by simp [adcBlock])).2
      (by simp [adcBlock]) (by simp [adcBlock]) (by norm_num)⟩

/-- C6 (counterexample): a single ADC event gives a series of 5 entries, not 6: the
first window has no leading break marker. -/
theorem adc_single_event_five_entries :
    buildADCSeries [some (adcBlock ⟨4, 1000, 1⟩)] [0] 1
        = ([1, 1, 5, 5, 5], [some 0, some 1, some 1, some 0, none]) ∧
      adcEventCount [some (adcBlock ⟨4, 1000, 1⟩)] = 1 ∧
      (buildADCSeries [some (adcBlock ⟨4, 1000, 1⟩)] [0] 1).1.length
        ≠ 6 * adcEventCount [some (adcBlock ⟨4, 1000, 1⟩)] := by
  have h : buildADCSeries [some (adcBlock ⟨4, 1000, 1⟩)] [0] 1
      = ([1, 1, 5, 5, 5], [some 0, some 1, some 1, some 0, none]) := by
    simp [buildADCSeries, adcLoop, adcBlockStep, adcBlock, emptyBlock]
    norm_num
  have hk : adcEventCount [some (adcBlock ⟨4, 1000, 1⟩)] = 1 := by
    simp [adcEventCount, isADCEvent, adcBlock, emptyBlock]
  refine ⟨h, hk, ?_⟩
  rw [h, hk]
  simp

/-- C6 (amended): when the block offsets cover the blocks and `n` blocks carry an ADC
event with a non-zero sample count, the ADC series has 5 entries for the first event
and 6 for every later one: both arrays have length `6*n - 1` (0 when `n = 0`), of which
`2*n - 1` entries are break markers. -/
theorem adc_series_length (blocks : List (Option SeqBlock)) (edges : List ℚ) (tFactor : ℚ)
    (hcover : blocks.length ≤ edges.length) :
    (buildADCSeries blocks edges tFactor).1.length = 6 * adcEventCount blocks - 1 ∧
    (buildADCSeries blocks edges tFactor).2.length = 6 * adcEventCount blocks - 1 ∧
    breakCount (buildADCSeries blocks edges tFactor) = 2 * adcEventCount blocks - 1 := by
  cases blocks with
  | nil => simp [buildADCSeries, adcEventCount, breakCount]
  | cons x xs =>
    have hedges : edges ≠ [] := by
      intro h
      rw [h] at hcover
      simp at hcover
    rw [buildADCSeries_eq_loop _ _ _ hedges]
    obtain ⟨es, h1, h2, h3⟩ := adcLoop_entries edges tFactor (x :: xs) 0 ([], [])
    rw [h1]
    have hb : breakCount (emit ([], []) es) = breakEntries es := by
      simp only [breakCount, emit, breakEntries, List.nil_append, List.filter_map,
        List.length_map]
      rfl
    rw [hb]
    simp only [emit, List.nil_append, List.length_map]
    simp only [List.isEmpty_nil, true_and] at h2 h3
    split_ifs at h2 h3 <;> omega

/-- C6 (witness of the amended claim): two ADC events give 11 entries. -/
theorem adc_series_length_witness :
    (buildADCSeries [some (adcBlock ⟨4, 1000, 1⟩), some (adcBlock ⟨4, 1000, 1⟩)] [0, 10] 1).1.length
        = 6 * adcEventCount [some (adcBlock ⟨4, 1000, 1⟩), some (adcBlock ⟨4, 1000, 1⟩)] - 1 ∧
    (buildADCSeries [some (adcBlock ⟨4, 1000, 1⟩), some (adcBlock ⟨4, 1000, 1⟩)] [0, 10] 1).2.length
        = 6 * adcEventCount [some (adcBlock ⟨4, 1000, 1⟩), some (adcBlock ⟨4, 1000, 1⟩)] - 1 ∧
    breakCount
        (buildADCSeries [some (adcBlock ⟨4, 1000, 1⟩), some (adcBlock ⟨4, 1000, 1⟩)] [0, 10] 1)
        = 2 * adcEventCount [some (adcBlock ⟨4, 1000, 1⟩), some (adcBlock ⟨4, 1000, 1⟩)] - 1 :=
  adc_series_length _ [0, 10] 1 (by simp)

/-! ## Claims on the label analyzer -/

/-- C7: for every block sequence, every block `N` of it and every counter `id` below
`NUM_LABELS`, the value recorded in the snapshot after block `N` is the replay, from 0
and in block order, of every set (overwrite) and increment (add the delta) on that
counter in blocks 0..N, with no reset between blocks; a replay whose last set of the
counter assigns `v` gives `v` plus the sum of the increments after it; and `SET REP=0`
at block 0 followed by `INC REP +1` at blocks 1..4 makes `getLabelValueSequence(REP)`
return [(0,0),(1,1),(2,2),(3,3),(4,4)] for an ADC-relevant counter `REP`. -/
theorem label_snapshot_replay (c : LabelConstants) (seq : List (List LabelOp)) (N id : Nat)
    (hN : N < seq.length) (hid : id < c.NUM_LABELS) :
    ((PulseqLabelAnalyzer.new c seq).getLabelStateAfterBlock c (N : Int)).val.getD id 0
        = replayCounter id (seq.take (N + 1)).flatten 0 ∧
    (∀ (ops1 ops2 : List LabelOp) (v : Int), (∀ op ∈ ops2, op.setsCounter id = false) →
      replayCounter id (ops1 ++ [LabelOp.set id v] ++ ops2) 0 = v + incSum id ops2) ∧
    ((id : Int) ≤ c.LAST_ADC_RELEVANT_LABEL →
      (PulseqLabelAnalyzer.new c
          [[LabelOp.set id 0], [LabelOp.inc id 1], [LabelOp.inc id 1], [LabelOp.inc id 1],
            [LabelOp.inc id 1]]).getLabelValueSequence c (id : Int)
        = [(0, 0), (1, 1), (2, 2), (3, 3), (4, 4)]) := by
  refine ⟨?_, ?_, ?_⟩
  · rw [stateAfterBlock_eq c seq N hN, snapshot_val, if_pos hid, trackerAfter_counter]
    rfl
  · intro ops1 ops2 v h
    exact replayCounter_after_set id ops1 ops2 v 0 h
  · intro hrel
    simp only [PulseqLabelAnalyzer.getLabelValueSequence, new_states, snapshotsFrom,
      List.foldl_cons, List.foldl_nil, labelUsedIn_snapshot c _ id hid, hrel, decide_True,
      Bool.true_or, if_true, Int.toNat_ofNat, snapshot_val, if_pos hid,
      updateLabelValues_counter]
    simp [replayCounter, LabelStateAndBookkeeping.init]

/-- C7 (witness): `NUM_LABELS = 12`, the counters up to 9 ADC-relevant, `REP = 2`, and the
scenario `SET REP=0`, then four times `INC REP +1`; the snapshot after block 4. -/
theorem label_snapshot_replay_witness :
    ((PulseqLabelAnalyzer.new ⟨12, 9⟩
          [[LabelOp.set 2 0], [LabelOp.inc 2 1], [LabelOp.inc 2 1], [LabelOp.inc 2 1],
            [LabelOp.inc 2 1]]).getLabelStateAfterBlock ⟨12, 9⟩ ((4 : Nat) : Int)).val.getD 2 0
        = replayCounter 2
            (([[LabelOp.set 2 0], [LabelOp.inc 2 1], [LabelOp.inc 2 1], [LabelOp.inc 2 1],
              [LabelOp.inc 2 1]] : List (List LabelOp)).take (4 + 1)).flatten 0 ∧
    (PulseqLabelAnalyzer.new ⟨12, 9⟩
          [[LabelOp.set 2 0], [LabelOp.inc 2 1], [LabelOp.inc 2 1], [LabelOp.inc 2 1],
            [LabelOp.inc 2 1]]).getLabelValueSequence ⟨12, 9⟩ ((2 : Nat) : Int)
        = [(0, 0), (1, 1), (2, 2), (3, 3), (4, 4)] :=
  ⟨(label_snapshot_replay ⟨12, 9⟩
      [[LabelOp.set 2 0], [LabelOp.inc 2 1], [LabelOp.inc 2 1], [LabelOp.inc 2 1],
        [LabelOp.inc 2 1]] 4 2 (by simp) (by simp)).1,
   (label_snapshot_replay ⟨12, 9⟩
      [[LabelOp.set 2 0], [LabelOp.inc 2 1], [LabelOp.inc 2 1], [LabelOp.inc 2 1],
        [LabelOp.inc 2 1]] 4 2 (by simp) (by simp)).2.2 (by simp)⟩

/-- C8 (counterexample): with `NUM_LABELS = 12` and the counters up to 9 ADC-relevant,
`SET` of counter 10 to 0 in block 0 leaves the snapshot after block 0 reporting counter
10 as unused with value 0, although a set operation on it occurred: the "used" mark is
not equivalent to "some set or increment occurred". -/
theorem label_set_zero_reported_unused :
    ((PulseqLabelAnalyzer.new ⟨12, 9⟩ [[LabelOp.set 10 0]]).getLabelStateAfterBlock ⟨12, 9⟩
        0).bValUsed.getD 10 true = false ∧
    ((PulseqLabelAnalyzer.new ⟨12, 9⟩ [[LabelOp.set 10 0]]).getLabelStateAfterBlock ⟨12, 9⟩
        0).val.getD 10 1 = 0 ∧
    (∃ op ∈ (([[LabelOp.set 10 0]] : List (List LabelOp)).take (0 + 1)).flatten,
      LabelOp.touches 10 op = true) ∧
    ¬ (((PulseqLabelAnalyzer.new ⟨12, 9⟩ [[LabelOp.set 10 0]]).getLabelStateAfterBlock ⟨12, 9⟩
          0).bValUsed.getD 10 false = true ↔
        ∃ op ∈ (([[LabelOp.set 10 0]] : List (List LabelOp)).take (0 + 1)).flatten,
          LabelOp.touches 10 op = true) := by
  have h := stateAfterBlock_eq ⟨12, 9⟩ [[LabelOp.set 10 0]] 0 (by simp)
  simp only [Nat.cast_zero] at h
  rw [h]
  have hu : (getCurrentLabelState ⟨12, 9⟩
      (trackerAfter LabelStateAndBookkeeping.init
        (([[LabelOp.set 10 0]] : List (List LabelOp)).take (0 + 1)))).bValUsed
      = [true, true, true, true, true, true, true, true, true, true, false, false] := by
    decide
  have hv : (getCurrentLabelState ⟨12, 9⟩
      (trackerAfter LabelStateAndBookkeeping.init
        (([[LabelOp.set 10 0]] : List (List LabelOp)).take (0 + 1)))).val
      = [0, 0, 0, 0, 0, 0, 0, 0, 0, 0, 0, 0] := by
    decide
  have he : ∃ op ∈ (([[LabelOp.set 10 0]] : List (List LabelOp)).take (0 + 1)).flatten,
      LabelOp.touches 10 op = true := ⟨LabelOp.set 10 0, by simp, by simp [LabelOp.touches]⟩
  rw [hu, hv]
  refine ⟨by simp, by simp, he, ?_⟩
  intro hiff
  have := hiff.2 he
  simp at this

/-- C8 (amended): for every block sequence, every block `N` of it and every counter `id`
below `NUM_LABELS` that is not ADC-relevant (`id > LAST_ADC_RELEVANT_LABEL`), the
snapshot after block `N` reports the counter as used if and only if its recorded value
is non-zero, the recorded value being the replay of the sets and increments on it in
blocks 0..N. -/
theorem label_used_iff_nonzero (c : LabelConstants) (seq : List (List LabelOp)) (N id : Nat)
    (hN : N < seq.length) (hid : id < c.NUM_LABELS)
    (hrel : c.LAST_ADC_RELEVANT_LABEL < (id : Int)) :
    (((PulseqLabelAnalyzer.new c seq).getLabelStateAfterBlock c (N : Int)).bValUsed.getD id false
        = true ↔
      ((PulseqLabelAnalyzer.new c seq).getLabelStateAfterBlock c (N : Int)).val.getD id 0 ≠ 0) ∧
    ((PulseqLabelAnalyzer.new c seq).getLabelStateAfterBlock c (N : Int)).val.getD id 0
      = replayCounter id (seq.take (N + 1)).flatten 0 := by
  rw [stateAfterBlock_eq c seq N hN, snapshot_val, if_pos hid, snapshot_used c _ id hid,
    trackerAfter_counter]
  refine ⟨?_, rfl⟩
  have hnot : ¬ ((id : Int) ≤ c.LAST_ADC_RELEVANT_LABEL) := not_le.mpr hrel
  simp only [hnot, decide_False, Bool.false_or, decide_eq_true_eq]

/-- C8 (witness of the amended claim): counter 10 set to 0 in block 0 and incremented by
1 in block 1; the snapshot after block 1. -/
theorem label_used_iff_nonzero_witness :
    (((PulseqLabelAnalyzer.new ⟨12, 9⟩
          [[LabelOp.set 10 0], [LabelOp.inc 10 1]]).getLabelStateAfterBlock ⟨12, 9⟩
            ((1 : Nat) : Int)).bValUsed.getD 10 false = true ↔
      ((PulseqLabelAnalyzer.new ⟨12, 9⟩
          [[LabelOp.set 10 0], [LabelOp.inc 10 1]]).getLabelStateAfterBlock ⟨12, 9⟩
            ((1 : Nat) : Int)).val.getD 10 0 ≠ 0) ∧
    ((PulseqLabelAnalyzer.new ⟨12, 9⟩
          [[LabelOp.set 10 0], [LabelOp.inc 10 1]]).getLabelStateAfterBlock ⟨12, 9⟩
            ((1 : Nat) : Int)).val.getD 10 0
      = replayCounter 10
          (([[LabelOp.set 10 0], [LabelOp.inc 10 1]] : List (List LabelOp)).take (1 + 1)).flatten
          0 :=
  label_used_iff_nonzero ⟨12, 9⟩ [[LabelOp.set 10 0], [LabelOp.inc 10 1]] 1 10
    (by simp) (by simp) (by simp)

/-- C9: for every block sequence, `getLabelValueRange` of a counter on which no block
has a set or an increment returns (0, 0); and `findBlocksWithLabel` of a counter that
every snapshot marks unused returns the empty list for every target value. -/
theorem label_unused_queries (c : LabelConstants) (seq : List (List LabelOp)) :
    (∀ id : Nat, (∀ block ∈ seq, ∀ op ∈ block, LabelOp.touches id op = false) →
      (PulseqLabelAnalyzer.new c seq).getLabelValueRange c (id : Int) = (0, 0)) ∧
    (∀ labelId targetValue : Int,
      (∀ p ∈ (PulseqLabelAnalyzer.new c seq).m_blockLabelStates,
        p.2.bValUsed.getD labelId.toNat false = false) →
      (PulseqLabelAnalyzer.new c seq).findBlocksWithLabel c labelId targetValue = []) := by
  constructor
  · intro id h
    have hz := snapshotsFrom_untouched c seq 0 id LabelStateAndBookkeeping.init rfl h
    have hr := range_fold_zero c (id : Int) (snapshotsFrom c 0 LabelStateAndBookkeeping.init seq)
      (INT_MAX, INT_MIN, false) (Or.inl rfl) (by simpa using hz)
    simp only [PulseqLabelAnalyzer.getLabelValueRange, new_states]
    rcases hr with hr | hr <;> rw [hr] <;> simp
  · intro labelId targetValue h
    refine (queries_of_unused c _ labelId ?_).2.2 targetValue
    intro p hp
    simp only [labelUsedIn, h p hp, Bool.and_false]

/-- C9 (witness): counter 3 is never touched by a sequence that sets and increments
counter 10, and counter 11 is unused in every snapshot. -/
theorem label_unused_queries_witness :
    (PulseqLabelAnalyzer.new ⟨12, 9⟩
        [[LabelOp.set 10 0], [LabelOp.inc 10 1]]).getLabelValueRange ⟨12, 9⟩ ((3 : Nat) : Int)
      = (0, 0) ∧
    (PulseqLabelAnalyzer.new ⟨12, 9⟩
        [[LabelOp.set 10 0], [LabelOp.inc 10 1]]).findBlocksWithLabel ⟨12, 9⟩ 11 0 = [] :=
  ⟨(label_unused_queries ⟨12, 9⟩ [[LabelOp.set 10 0], [LabelOp.inc 10 1]]).1 3
      (by simp [LabelOp.touches]),
   (label_unused_queries ⟨12, 9⟩ [[LabelOp.set 10 0], [LabelOp.inc 10 1]]).2 11 0
      (by
        rw [new_states]
        decide)⟩

/-- C10: out-of-range references return the defined empty result.  For every block
index `b` outside `[0, number of blocks)`, `getLabelStateAfterBlock(b)` is the state
with `NUM_LABELS` counters all 0 and all marked unused; for every counter index outside
`[0, NUM_LABELS)`, `getLabelValueRange` returns (0, 0) and `getLabelValueSequence` and
`findBlocksWithLabel` return empty lists. -/
theorem label_out_of_range (c : LabelConstants) (seq : List (List LabelOp)) :
    (∀ b : Int, (b < 0 ∨ (seq.length : Int) ≤ b) →
      (PulseqLabelAnalyzer.new c seq).getLabelStateAfterBlock c b = emptyState c) ∧
    (∀ labelId : Int, (labelId < 0 ∨ (c.NUM_LABELS : Int) ≤ labelId) →
      (PulseqLabelAnalyzer.new c seq).getLabelValueRange c labelId = (0, 0) ∧
      (PulseqLabelAnalyzer.new c seq).getLabelValueSequence c labelId = [] ∧
      ∀ targetValue : Int,
        (PulseqLabelAnalyzer.new c seq).findBlocksWithLabel c labelId targetValue = []) := by
  constructor
  · intro b hb
    have hnone : StateMap.find (snapshotsFrom c 0 LabelStateAndBookkeeping.init seq) b = none := by
      apply find_none_of_keys
      intro p hp
      have := snapshotsFrom_keys c seq 0 LabelStateAndBookkeeping.init p hp
      simp only [Nat.cast_zero, zero_add] at this
      omega
    simp only [PulseqLabelAnalyzer.getLabelStateAfterBlock, new_states, hnone]
    simp [emptyState, resize]
  · intro labelId h
    exact queries_of_unused c _ labelId (fun p _ => labelUsedIn_out_of_range c labelId p.2 h)

/-- C10 (witness): block index 7 of a two-block sequence, and counter index 12 with
`NUM_LABELS = 12`. -/
theorem label_out_of_range_witness :
    (PulseqLabelAnalyzer.new ⟨12, 9⟩
        [[LabelOp.set 10 0], [LabelOp.inc 10 1]]).getLabelStateAfterBlock ⟨12, 9⟩ 7
      = emptyState ⟨12, 9⟩ ∧
    (PulseqLabelAnalyzer.new ⟨12, 9⟩
        [[LabelOp.set 10 0], [LabelOp.inc 10 1]]).getLabelValueRange ⟨12, 9⟩ 12 = (0, 0) ∧
    (PulseqLabelAnalyzer.new ⟨12, 9⟩
        [[LabelOp.set 10 0], [LabelOp.inc 10 1]]).getLabelValueSequence ⟨12, 9⟩ 12 = [] ∧
    (PulseqLabelAnalyzer.new ⟨12, 9⟩
        [[LabelOp.set 10 0], [LabelOp.inc 10 1]]).findBlocksWithLabel ⟨12, 9⟩ 12 1 = [] :=
  ⟨(label_out_of_range ⟨12, 9⟩ [[LabelOp.set 10 0], [LabelOp.inc 10 1]]).1 7 (by simp),
   ((label_out_of_range ⟨12, 9⟩ [[LabelOp.set 10 0], [LabelOp.inc 10 1]]).2 12 (by simp)).1,
   ((label_out_of_range ⟨12, 9⟩ [[LabelOp.set 10 0], [LabelOp.inc 10 1]]).2 12 (by simp)).2.1,
   ((label_out_of_range ⟨12, 9⟩ [[LabelOp.set 10 0], [LabelOp.inc 10 1]]).2 12 (by simp)).2.2 1⟩

/-! ## Claims on reads and on the builders as procedures -/

theorem subscript_of_find (m : StateMap) (k : Int) (v : LabelValueStorage)
    (h : m.find k = some v) : m.subscript k = (v, m) := by
  simp [StateMap.subscript, h]

theorem stateRun_eq (c : LabelConstants) (a : PulseqLabelAnalyzer) (b : Int) :
    a.getLabelStateAfterBlockRun c b = (a.getLabelStateAfterBlock c b, a) := by
  unfold PulseqLabelAnalyzer.getLabelStateAfterBlockRun
    PulseqLabelAnalyzer.getLabelStateAfterBlock
  cases h : a.m_blockLabelStates.find b with
  | none => simp
  | some v => simp [subscript_of_find _ _ _ h]

theorem statesRun_eq (c : LabelConstants) (a : PulseqLabelAnalyzer) (bs : List Int) :
    PulseqLabelAnalyzer.getLabelStatesRun c a bs =
      (bs.map (fun b => a.getLabelStateAfterBlock c b), a) := by
  induction bs with
  | nil => rfl
  | cons b rest ih =>
    simp only [PulseqLabelAnalyzer.getLabelStatesRun, stateRun_eq, ih, List.map_cons]

/-- C11: for every analyzer and every block index `b`, in range or not, a call of
`getLabelStateAfterBlock(b)` leaves the analyzer, and with it the stored snapshot map,
unchanged; so any run of calls returns for each index the same state a single call
returns, and the result of every other query after the run is the result before it. -/
theorem label_read_side_effect_free (c : LabelConstants) (a : PulseqLabelAnalyzer) :
    (∀ b : Int,
      (a.getLabelStateAfterBlockRun c b).2 = a ∧
      (a.getLabelStateAfterBlockRun c b).2.m_blockLabelStates = a.m_blockLabelStates) ∧
    (∀ bs : List Int,
      (PulseqLabelAnalyzer.getLabelStatesRun c a bs).1
          = bs.map (fun b => (a.getLabelStateAfterBlockRun c b).1) ∧
      (PulseqLabelAnalyzer.getLabelStatesRun c a bs).2.m_blockLabelStates
          = a.m_blockLabelStates ∧
      ∀ labelId targetValue : Int,
        (PulseqLabelAnalyzer.getLabelStatesRun c a bs).2.getLabelValueRange c labelId
            = a.getLabelValueRange c labelId ∧
        (PulseqLabelAnalyzer.getLabelStatesRun c a bs).2.getLabelValueSequence c labelId
            = a.getLabelValueSequence c labelId ∧
        (PulseqLabelAnalyzer.getLabelStatesRun c a bs).2.findBlocksWithLabel c labelId
            targetValue = a.findBlocksWithLabel c labelId targetValue) := by
  constructor
  · intro b
    rw [stateRun_eq]
    exact ⟨rfl, rfl⟩
  · intro bs
    rw [statesRun_eq]
    refine ⟨?_, rfl, fun _ _ => ⟨rfl, rfl, rfl⟩⟩
    simp only [stateRun_eq]

theorem emit_nil_lengths (es : List (ℚ × Option ℚ)) :
    (emit ([], []) es).1.length = (emit ([], []) es).2.length := by
  simp [emit]

theorem buildRFSeries_inv (blocks : List (Option SeqBlock)) (edges : List ℚ) (tFactor : ℚ) :
    (buildRFSeries blocks edges tFactor).Inv := by
  unfold buildRFSeries
  split
  · exact rfInit_inv
  · exact rfLoop_inv _ _ _ _ _ rfInit_inv

/-- C12: for every input, each series produced by the builders is a pair of
equal-length arrays, break markers included: the amplitude time and value arrays and
the phase time and value arrays of `buildRFSeries`, and the time and value arrays of
`buildGradientSeries` and of `buildADCSeries`. -/
theorem series_equal_length (blocks : List (Option SeqBlock)) (edges : List ℚ)
    (tFactor : ℚ) (channel : Int) (raster : ℚ) :
    (buildRFSeries blocks edges tFactor).rfTimeAmp.length
        = (buildRFSeries blocks edges tFactor).rfAmp.length ∧
    (buildRFSeries blocks edges tFactor).rfTimePh.length
        = (buildRFSeries blocks edges tFactor).rfPh.length ∧
    (buildGradientSeries blocks edges tFactor channel raster).1.length
        = (buildGradientSeries blocks edges tFactor channel raster).2.length ∧
    (buildADCSeries blocks edges tFactor).1.length
        = (buildADCSeries blocks edges tFactor).2.length := by
  refine ⟨(buildRFSeries_inv blocks edges tFactor).lenAmp,
    (buildRFSeries_inv blocks edges tFactor).lenPh, ?_, ?_⟩
  · unfold buildGradientSeries
    split
    · rfl
    · obtain ⟨es, h⟩ := gradLoop_extends edges tFactor channel raster blocks 0 GradState.init
      have h1 := congrArg Prod.fst h
      have h2 := congrArg Prod.snd h
      simp only [GradState.series] at h1 h2
      show (gradLoop edges tFactor channel raster 0 blocks GradState.init).gradTime.length
        = (gradLoop edges tFactor channel raster 0 blocks GradState.init).gradValues.length
      rw [h1, h2]
      exact emit_nil_lengths es
  · unfold buildADCSeries
    split
    · rfl
    · obtain ⟨es, h, _, _⟩ := adcLoop_entries edges tFactor blocks 0 ([], [])
      rw [h]
      exact emit_nil_lengths es

theorem buildRFSeriesInto_eq (out : List ℚ × List (Option ℚ) × List ℚ × List (Option ℚ))
    (blocks : List (Option SeqBlock)) (edges : List ℚ) (tFactor : ℚ) :
    buildRFSeriesInto out blocks edges tFactor = buildRFSeries blocks edges tFactor := rfl

theorem buildGradientSeriesInto_eq (out : List ℚ × List (Option ℚ))
    (blocks : List (Option SeqBlock)) (edges : List ℚ) (tFactor : ℚ) (channel : Int)
    (raster : ℚ) :
    buildGradientSeriesInto out blocks edges tFactor channel raster
      = buildGradientSeries blocks edges tFactor channel raster := rfl

theorem buildADCSeriesInto_eq (out : List ℚ × List (Option ℚ))
    (blocks : List (Option SeqBlock)) (edges : List ℚ) (tFactor : ℚ) :
    buildADCSeriesInto out blocks edges tFactor = buildADCSeries blocks edges tFactor := rfl

/-- C13: each builder is a function of the inputs passed in: whatever two contents
`out1` and `out2` the output arrays hold before the call, the same blocks, offsets, time
scale (and channel and raster) give the same output series, which replace the old
contents; and an empty block list or an empty offsets array gives empty series. -/
theorem builders_pure (blocks : List (Option SeqBlock)) (edges : List ℚ)
    (tFactor : ℚ) (channel : Int) (raster : ℚ) :
    (∀ out1 out2 : List ℚ × List (Option ℚ) × List ℚ × List (Option ℚ),
      buildRFSeriesInto out1 blocks edges tFactor
        = buildRFSeriesInto out2 blocks edges tFactor) ∧
    (∀ out1 out2 : List ℚ × List (Option ℚ),
      buildGradientSeriesInto out1 blocks edges tFactor channel raster
        = buildGradientSeriesInto out2 blocks edges tFactor channel raster ∧
      buildADCSeriesInto out1 blocks edges tFactor
        = buildADCSeriesInto out2 blocks edges tFactor) ∧
    ((blocks = [] ∨ edges = []) →
      (∀ out : List ℚ × List (Option ℚ) × List ℚ × List (Option ℚ),
        (buildRFSeriesInto out blocks edges tFactor).ampSeries = ([], []) ∧
        (buildRFSeriesInto out blocks edges tFactor).phSeries = ([], [])) ∧
      (∀ out : List ℚ × List (Option ℚ),
        buildGradientSeriesInto out blocks edges tFactor channel raster = ([], []) ∧
        buildADCSeriesInto out blocks edges tFactor = ([], []))) := by
  refine ⟨fun _ _ => ?_, fun _ _ => ⟨?_, ?_⟩, ?_⟩
  · rw [buildRFSeriesInto_eq, buildRFSeriesInto_eq]
  · rw [buildGradientSeriesInto_eq, buildGradientSeriesInto_eq]
  · rw [buildADCSeriesInto_eq, buildADCSeriesInto_eq]
  · intro h
    have he : (blocks.isEmpty || edges.isEmpty) = true := by
      rcases h with h | h <;> simp [h]
    refine ⟨fun out => ?_, fun out => ?_⟩
    · simp [buildRFSeriesInto, he, RFState.ampSeries, RFState.phSeries, clear]
    · simp [buildGradientSeriesInto, buildADCSeriesInto, he, clear]

/-- C13 (witness): one trapezoid block with an empty offsets array, called on output
arrays that hold old entries. -/
theorem builders_pure_witness :
    (buildRFSeriesInto ([1, 2], [some 3, none], [4], [some 5])
        [some (trapBlock 0 ⟨0, 10, 10, 20, 10⟩)] [] 1).ampSeries = ([], []) ∧
    (buildRFSeriesInto ([1, 2], [some 3, none], [4], [some 5])
        [some (trapBlock 0 ⟨0, 10, 10, 20, 10⟩)] [] 1).phSeries = ([], []) ∧
    buildGradientSeriesInto ([1, 2], [some 3, none])
        [some (trapBlock 0 ⟨0, 10, 10, 20, 10⟩)] [] 1 0 (-1) = ([], []) ∧
    buildADCSeriesInto ([1, 2], [some 3, none])
        [some (trapBlock 0 ⟨0, 10, 10, 20, 10⟩)] [] 1 = ([], []) :=
  ⟨(((builders_pure [some (trapBlock 0 ⟨0, 10, 10, 20, 10⟩)] [] 1 0 (-1)).2.2
        (Or.inr rfl)).1 ([1, 2], [some 3, none], [4], [some 5])).1,
   (((builders_pure [some (trapBlock 0 ⟨0, 10, 10, 20, 10⟩)] [] 1 0 (-1)).2.2
        (Or.inr rfl)).1 ([1, 2], [some 3, none], [4], [some 5])).2,
   (((builders_pure [some (trapBlock 0 ⟨0, 10, 10, 20, 10⟩)] [] 1 0 (-1)).2.2
        (Or.inr rfl)).2 ([1, 2], [some 3, none])).1,
   (((builders_pure [some (trapBlock 0 ⟨0, 10, 10, 20, 10⟩)] [] 1 0 (-1)).2.2
        (Or.inr rfl)).2 ([1, 2], [some 3, none])).2⟩

/-! ## Claims on the break rules of the builders -/

theorem versionLoop_in_section (lines : List Line) (major minor : Int) :
    versionLoop lines true major minor = keyScan (sectionBody lines) major minor := by
  induction lines generalizing major minor with
  | nil => rfl
  | cons l rest ih =>
    simp only [versionLoop, sectionBody]
    by_cases ht : l.hasVersionTag = true
    · simp only [ht, if_true]
      exact ih major minor
    · simp only [ht, Bool.false_eq_true, if_false, if_true]
      by_cases hs : l.startsSection = true
      · simp only [hs, if_true]
        rfl
      · simp only [hs, Bool.false_eq_true, if_false, keyScan]
        split
        · rfl
        · exact ih _ _

theorem versionLoop_eq_keyScan (lines : List Line) (major minor : Int) :
    versionLoop lines false major minor = keyScan (versionSection lines) major minor := by
  induction lines with
  | nil => rfl
  | cons l rest ih =>
    simp only [versionLoop, versionSection]
    by_cases ht : l.hasVersionTag = true
    · simp only [ht, if_true]
      exact versionLoop_in_section rest major minor
    · simp only [ht, Bool.false_eq_true, if_false]
      exact ih

theorem updateVersion_major (l : Line) (major minor : Int) :
    ((updateVersion l major minor).1 = major ∧ ∀ v, l.keyVal ≠ some ("major", v)) ∨
    l.keyVal = some ("major", (updateVersion l major minor).1) := by
  unfold updateVersion
  cases hk : l.keyVal with
  | none => left; simp
  | some kv =>
    obtain ⟨key, val⟩ := kv
    by_cases h1 : key = "major"
    · right; simp [h1]
    · left
      by_cases h2 : key = "minor"
      · simp [h1, h2]
      · simp [h1, h2]

theorem updateVersion_minor (l : Line) (major minor : Int) :
    ((updateVersion l major minor).2 = minor ∧ ∀ v, l.keyVal ≠ some ("minor", v)) ∨
    l.keyVal = some ("minor", (updateVersion l major minor).2) := by
  unfold updateVersion
  cases hk : l.keyVal with
  | none => left; simp
  | some kv =>
    obtain ⟨key, val⟩ := kv
    by_cases h1 : key = "major"
    · left; simp [h1]
    · by_cases h2 : key = "minor"
      · right; simp [h1, h2]
      · left; simp [h1, h2]

theorem keyScan_spec (body : List Line) (major minor : Int)
    (hsent : ∀ l ∈ body, l.keyVal ≠ some ("major", -1) ∧ l.keyVal ≠ some ("minor", -1)) :
    ((keyScan body major minor).1 = major ∨
      ∃ l ∈ body, l.keyVal = some ("major", (keyScan body major minor).1)) ∧
    ((keyScan body major minor).2 = minor ∨
      ∃ l ∈ body, l.keyVal = some ("minor", (keyScan body major minor).2)) ∧
    ((keyScan body major minor).1 = -1 →
      major = -1 ∧ ∀ l ∈ body, ∀ v, l.keyVal ≠ some ("major", v)) ∧
    ((keyScan body major minor).2 = -1 →
      minor = -1 ∧ ∀ l ∈ body, ∀ v, l.keyVal ≠ some ("minor", v)) := by
  induction body generalizing major minor with
  | nil => simp [keyScan]
  | cons l rest ih =>
    have hl := hsent l (List.mem_cons_self _ _)
    have hrest : ∀ x ∈ rest, x.keyVal ≠ some ("major", -1) ∧ x.keyVal ≠ some ("minor", -1) :=
      fun x hx => hsent x (List.mem_cons_of_mem _ hx)
    have hM := updateVersion_major l major minor
    have hm := updateVersion_minor l major minor
    simp only [keyScan]
    by_cases hstop : (updateVersion l major minor).1 ≠ -1 ∧ (updateVersion l major minor).2 ≠ -1
    · rw [if_pos hstop]
      refine ⟨?_, ?_, fun h => absurd h hstop.1, fun h => absurd h hstop.2⟩
      · rcases hM with hM | hM
        · exact Or.inl hM.1
        · exact Or.inr ⟨l, List.mem_cons_self _ _, hM⟩
      · rcases hm with hm | hm
        · exact Or.inl hm.1
        · exact Or.inr ⟨l, List.mem_cons_self _ _, hm⟩
    · rw [if_neg hstop]
      obtain ⟨i1, i2, i3, i4⟩ := ih (updateVersion l major minor).1
        (updateVersion l major minor).2 hrest
      refine ⟨?_, ?_, ?_, ?_⟩
      · rcases i1 with i1 | ⟨x, hx, hxk⟩
        · rw [i1]
          rcases hM with hM | hM
          · exact Or.inl hM.1
          · exact Or.inr ⟨l, List.mem_cons_self _ _, hM⟩
        · exact Or.inr ⟨x, List.mem_cons_of_mem _ hx, hxk⟩
      · rcases i2 with i2 | ⟨x, hx, hxk⟩
        · rw [i2]
          rcases hm with hm | hm
          · exact Or.inl hm.1
          · exact Or.inr ⟨l, List.mem_cons_self _ _, hm⟩
        · exact Or.inr ⟨x, List.mem_cons_of_mem _ hx, hxk⟩
      · intro h
        obtain ⟨j1, j2⟩ := i3 h
        rcases hM with hM | hM
        · refine ⟨hM.1 ▸ j1, ?_⟩
          intro x hx v
          rcases List.mem_cons.1 hx with hx | hx
          · rw [hx]; exact hM.2 v
          · exact j2 x hx v
        · rw [j1] at hM
          exact absurd hM hl.1
      · intro h
        obtain ⟨j1, j2⟩ := i4 h
        rcases hm with hm | hm
        · refine ⟨hm.1 ▸ j1, ?_⟩
          intro x hx v
          rcases List.mem_cons.1 hx with hx | hx
          · rw [hx]; exact hm.2 v
          · exact j2 x hx v
        · rw [j1] at hm
          exact absurd hm hl.2

/-- C16 (counterexample): the file `[VERSION]`, `major -1`, `minor 0`.  The section
contains a `major` line and a `minor` line, and the call fails all the same: -1 is the
value that stands for "not found". -/
theorem read_version_sentinel :
    versionSection [versionTagLine, entryLine "major" (-1), entryLine "minor" 0]
        = [entryLine "major" (-1), entryLine "minor" 0] ∧
    read_version_from_file (some [versionTagLine, entryLine "major" (-1), entryLine "minor" 0])
        = Except.error VersionError.couldNotParse ∧
    read_version_from_file (some [versionTagLine, entryLine "major" (-1), entryLine "minor" 0])
        ≠ Except.ok (-1, 0) := by
  have h : read_version_from_file
      (some [versionTagLine, entryLine "major" (-1), entryLine "minor" 0])
      = Except.error VersionError.couldNotParse := by
    simp [read_version_from_file, versionLoop, versionTagLine, entryLine, updateVersion]
  refine ⟨?_, h, ?_⟩
  · simp [versionSection, sectionBody, versionTagLine, entryLine]
  · rw [h]
    simp

/-- C16 (amended): a file that cannot be opened fails.  For a file whose `[VERSION]`
section (the lines after the first line carrying the tag, up to the next line starting
with `[`) has no `major` or `minor` line with the value -1: the call fails if and only
if the section has no `major` line or no `minor` line; a returned `(M, N)` is the value
of a `major` line and of a `minor` line of the section; and when the section has a
`major` line, all its `major` lines say `M`, it has a `minor` line and all its `minor`
lines say `N`, the call returns `(M, N)`, whatever the other keys of the section and
the lines outside it are. -/
theorem read_version_section (lines : List Line)
    (hsent : ∀ l ∈ versionSection lines,
      l.keyVal ≠ some ("major", -1) ∧ l.keyVal ≠ some ("minor", -1)) :
    read_version_from_file none = Except.error VersionError.cannotOpen ∧
    (read_version_from_file (some lines) = Except.error VersionError.couldNotParse ↔
      ((∀ l ∈ versionSection lines, ∀ v, l.keyVal ≠ some ("major", v)) ∨
       (∀ l ∈ versionSection lines, ∀ v, l.keyVal ≠ some ("minor", v)))) ∧
    (∀ M N : Int, read_version_from_file (some lines) = Except.ok (M, N) →
      (∃ l ∈ versionSection lines, l.keyVal = some ("major", M)) ∧
      (∃ l ∈ versionSection lines, l.keyVal = some ("minor", N))) ∧
    (∀ M N : Int,
      (∃ l ∈ versionSection lines, l.keyVal = some ("major", M)) →
      (∀ l ∈ versionSection lines, ∀ v, l.keyVal = some ("major", v) → v = M) →
      (∃ l ∈ versionSection lines, l.keyVal = some ("minor", N)) →
      (∀ l ∈ versionSection lines, ∀ v, l.keyVal = some ("minor", v) → v = N) →
      read_version_from_file (some lines) = Except.ok (M, N)) := by
  obtain ⟨k1, k2, k3, k4⟩ := keyScan_spec (versionSection lines) (-1) (-1) hsent
  have hr : read_version_from_file (some lines) =
      if (keyScan (versionSection lines) (-1) (-1)).1 = -1 ∨
          (keyScan (versionSection lines) (-1) (-1)).2 = -1
      then Except.error VersionError.couldNotParse
      else Except.ok (keyScan (versionSection lines) (-1) (-1)) := by
    simp only [read_version_from_file, versionLoop_eq_keyScan]
  generalize keyScan (versionSection lines) (-1) (-1) = r at k1 k2 k3 k4 hr
  refine ⟨rfl, ?_, ?_, ?_⟩
  · rw [hr]
    constructor
    · intro h
      by_cases hc : r.1 = -1 ∨ r.2 = -1
      · rcases hc with hc | hc
        · exact Or.inl (k3 hc).2
        · exact Or.inr (k4 hc).2
      · rw [if_neg hc] at h
        simp at h
    · intro h
      have hc : r.1 = -1 ∨ r.2 = -1 := by
        rcases h with h | h
        · left
          rcases k1 with k1 | ⟨l, hl, hk⟩
          · exact k1
          · exact absurd hk (h l hl _)
        · right
          rcases k2 with k2 | ⟨l, hl, hk⟩
          · exact k2
          · exact absurd hk (h l hl _)
      rw [if_pos hc]
  · intro M N h
    rw [hr] at h
    by_cases hc : r.1 = -1 ∨ r.2 = -1
    · rw [if_pos hc] at h
      simp at h
    · rw [if_neg hc] at h
      have hMN : r = (M, N) := by injection h
      simp only [not_or] at hc
      rw [hMN] at k1 k2 hc
      constructor
      · rcases k1 with k1 | k1
        · exact absurd k1 hc.1
        · exact k1
      · rcases k2 with k2 | k2
        · exact absurd k2 hc.2
        · exact k2
  · intro M N ⟨lM, hlM, hkM⟩ uM ⟨lN, hlN, hkN⟩ uN
    rw [hr]
    have h1 : r.1 ≠ -1 := fun h => (k3 h).2 lM hlM M hkM
    have h2 : r.2 ≠ -1 := fun h => (k4 h).2 lN hlN N hkN
    rw [if_neg (by simp only [not_or]; exact ⟨h1, h2⟩)]
    have e1 : r.1 = M := by
      rcases k1 with k1 | ⟨l, hl, hk⟩
      · exact absurd k1 h1
      · exact uM l hl _ hk
    have e2 : r.2 = N := by
      rcases k2 with k2 | ⟨l, hl, hk⟩
      · exact absurd k2 h2
      · exact uN l hl _ hk
    rw [← e1, ← e2]

/-- C16 (witness of the amended claim): a file with a `[DEFINITIONS]`-like line before
the section, the entries `major 1`, `other 7` and `minor 4`, and a next section. -/
theorem read_version_section_witness :
    read_version_from_file
        (some [entryLine "major" 9, versionTagLine, entryLine "major" 1, entryLine "other" 7,
          entryLine "minor" 4, ⟨false, true, none⟩, entryLine "minor" 3])
      = Except.ok (1, 4) :=
  (read_version_section
      [entryLine "major" 9, versionTagLine, entryLine "major" 1, entryLine "other" 7,
        entryLine "minor" 4, ⟨false, true, none⟩, entryLine "minor" 3]
      (by simp [versionSection, sectionBody, versionTagLine, entryLine])).2.2.2 1 4
    ⟨entryLine "major" 1, by simp [versionSection, sectionBody, versionTagLine, entryLine], rfl⟩
    (by simp [versionSection, sectionBody, versionTagLine, entryLine])
    ⟨entryLine "minor" 4, by simp [versionSection, sectionBody, versionTagLine, entryLine], rfl⟩
    (by simp [versionSection, sectionBody, versionTagLine, entryLine])

/-- C17 (counterexample): for version 1.0 `CreateLoaderForVersion` returns a loader,
and 1.0 is neither v1.4.x nor v1.5.x. -/
theorem loader_for_version_1_0 :
    CreateLoaderForVersion 1 0 = some Loader.v151 ∧ ¬ documentedSupported 1 0 := by
  constructor
  · simp [CreateLoaderForVersion]
  · simp [documentedSupported]

/-- C17 (amended): `CreateLoaderForVersion(major, minor)` returns a loader exactly when
`major = 1` and `minor <= 5`, and null for every other `(major, minor)`; a `PySequence`
is constructed only for a file whose declared version, as `read_version_from_file`
returns it, has `major = 1` and `minor <= 5`. -/
theorem loader_for_version (version_major version_minor : Int) (file : Option (List Line))
    (loadOk : Bool) (p : PySequence) :
    (CreateLoaderForVersion version_major version_minor = some Loader.v151 ↔
      (version_major = 1 ∧ version_minor ≤ 5)) ∧
    (CreateLoaderForVersion version_major version_minor = none ↔
      ¬ (version_major = 1 ∧ version_minor ≤ 5)) ∧
    (PySequence.new file loadOk = Except.ok p →
      p.m_version_major = 1 ∧ p.m_version_minor ≤ 5 ∧
      read_version_from_file file = Except.ok (p.m_version_major, p.m_version_minor)) := by
  refine ⟨?_, ?_, ?_⟩
  · unfold CreateLoaderForVersion
    split <;> simp_all
  · unfold CreateLoaderForVersion
    split <;> simp_all
  · intro h
    unfold PySequence.new at h
    cases hv : read_version_from_file file with
    | error e => rw [hv] at h; simp at h
    | ok ver =>
      rw [hv] at h
      simp only at h
      by_cases hc : ver.1 = 1 ∧ ver.2 ≤ 5
      · have hl : CreateLoaderForVersion ver.1 ver.2 = some Loader.v151 := by
          simp [CreateLoaderForVersion, hc]
        rw [hl] at h
        simp only at h
        cases loadOk with
        | false => simp at h
        | true =>
          simp only [Bool.true_eq_false, if_false] at h
          have hp : p = { m_seq := Loader.v151, m_version_major := ver.1,
                          m_version_minor := ver.2 } := by
            injection h with h
            exact h.symm
          rw [hp]
          exact ⟨hc.1, hc.2, rfl⟩
      · have hl : CreateLoaderForVersion ver.1 ver.2 = none := by
          simp only [CreateLoaderForVersion, hc, if_false]
        rw [hl] at h
        simp at h

/-- C17 (witness of the amended claim): a file declaring version 1.4 that loads. -/
theorem loader_for_version_witness :
    (⟨Loader.v151, 1, 4⟩ : PySequence).m_version_major = 1 ∧
    (⟨Loader.v151, 1, 4⟩ : PySequence).m_version_minor ≤ 5 ∧
    read_version_from_file (some [versionTagLine, entryLine "major" 1, entryLine "minor" 4])
      = Except.ok ((⟨Loader.v151, 1, 4⟩ : PySequence).m_version_major,
          (⟨Loader.v151, 1, 4⟩ : PySequence).m_version_minor) :=
  (loader_for_version 1 4 (some [versionTagLine, entryLine "major" 1, entryLine "minor" 4]) true ⟨Loader.v151, 1, 4⟩).2.2
    (by simp [PySequence.new, read_version_from_file, versionLoop, versionTagLine, entryLine,
          updateVersion, CreateLoaderForVersion])

theorem gradEntry_error (blk : SeqBlock) (ch : Int) (e : GetBlockError)
    (h : gradEntry blk ch = Except.error e) : e = GetBlockError.undefinedRead := by
  unfold gradEntry at h
  by_cases h1 : blk.isTrapGradient ch = true
  · simp [h1] at h
  · by_cases h2 : blk.isArbitraryGradient ch = true
    · cases hp : blk.GetArbGradShapePtr ch with
      | some shape => simp [h1, h2, hp] at h
      | none =>
        by_cases hn : (blk.GetArbGradNumSamples ch).toNat = 0
        · simp [h1, h2, hp, hn] at h
        · simp [h1, h2, hp, hn] at h
          exact h.symm
    · simp [h1, h2] at h

theorem blockDict_error (blk : SeqBlock) (e : GetBlockError)
    (h : blockDict blk = Except.error e) : e = GetBlockError.undefinedRead := by
  unfold blockDict at h
  cases h0 : gradEntry blk 0 with
  | error e0 =>
    rw [h0] at h
    injection h with h
    rw [← h]
    exact gradEntry_error _ _ _ h0
  | ok gx =>
    rw [h0] at h
    cases h1 : gradEntry blk 1 with
    | error e1 =>
      rw [h1] at h
      injection h with h
      rw [← h]
      exact gradEntry_error _ _ _ h1
    | ok gy =>
      rw [h1] at h
      cases h2 : gradEntry blk 2 with
      | error e2 =>
        rw [h2] at h
        injection h with h
        rw [← h]
        exact gradEntry_error _ _ _ h2
      | ok gz =>
        rw [h2] at h
        simp at h

/-- C18: `get_block(idx)` fails with the out-of-range error if and only if `idx < 0` or
`idx >= num_blocks()`; when it does, the sequence store has not been asked for any
block; for an index in range the store is asked for that block once, and when the
store returns a block for every index in range the null-block failure does not
occur. -/
theorem get_block_out_of_range (m_seq : SequenceStore) (idx : Int) :
    ((∃ i, (get_block m_seq idx).2 = Except.error (GetBlockError.outOfRange i)) ↔
      (idx < 0 ∨ idx ≥ m_seq.GetNumberOfBlocks)) ∧
    ((idx < 0 ∨ idx ≥ m_seq.GetNumberOfBlocks) →
      (get_block m_seq idx).1 = [] ∧
      (get_block m_seq idx).2 = Except.error (GetBlockError.outOfRange idx)) ∧
    (¬ (idx < 0 ∨ idx ≥ m_seq.GetNumberOfBlocks) → (get_block m_seq idx).1 = [idx]) ∧
    ((∀ i, 0 ≤ i → i < m_seq.GetNumberOfBlocks → (m_seq.GetBlock i).isSome = true) →
      ∀ j, (get_block m_seq idx).2 ≠ Except.error (GetBlockError.nullBlock j)) := by
  by_cases hc : idx < 0 ∨ idx ≥ m_seq.GetNumberOfBlocks
  · have hg : get_block m_seq idx = ([], Except.error (GetBlockError.outOfRange idx)) := by
      simp only [get_block, hc, if_true]
    refine ⟨⟨fun _ => hc, fun _ => ⟨idx, by rw [hg]⟩⟩, fun _ => by rw [hg]; exact ⟨rfl, rfl⟩,
      fun h => absurd hc h, fun _ j => by rw [hg]; simp⟩
  · cases hb : m_seq.GetBlock idx with
    | none =>
      have hg : get_block m_seq idx = ([idx], Except.error (GetBlockError.nullBlock idx)) := by
        simp only [get_block, hc, if_false, hb]
      refine ⟨⟨fun ⟨i, h⟩ => ?_, fun h => absurd h hc⟩, fun h => absurd h hc,
        fun _ => by rw [hg], fun hall j => ?_⟩
      · rw [hg] at h
        simp at h
      · have hin : 0 ≤ idx ∧ idx < m_seq.GetNumberOfBlocks := by
          simp only [not_or, not_lt, ge_iff_le, not_le] at hc
          exact hc
        have := hall idx hin.1 hin.2
        rw [hb] at this
        simp at this
    | some blk =>
      have hg : get_block m_seq idx = ([idx], blockDict blk) := by
        simp only [get_block, hc, if_false, hb]
      refine ⟨⟨fun ⟨i, h⟩ => ?_, fun h => absurd h hc⟩, fun h => absurd h hc,
        fun _ => by rw [hg], fun _ j => ?_⟩
      · rw [hg] at h
        have := blockDict_error blk _ h
        simp at this
      · rw [hg]
        intro h
        have := blockDict_error blk _ h
        simp at this

/-- C18 (witness): index 3 of a store of two blocks. -/
theorem get_block_out_of_range_witness :
    (get_block ⟨2, fun _ => some emptyBlock⟩ 3).1 = [] ∧
    (get_block ⟨2, fun _ => some emptyBlock⟩ 3).2
      = Except.error (GetBlockError.outOfRange 3) :=
  (get_block_out_of_range ⟨2, fun _ => some emptyBlock⟩ 3).2.1 (by decide)

/-- C19 (the code at a block with an extended trapezoid): a block whose X-axis gradient
is an extended trapezoid with times (0, 10, 20), shape (0, 1, 0) and amplitude 5.
`buildGradientSeries` decodes it to the three points (0,0), (10,5), (20,0), and
`get_block` reports `None` for the X axis, as for an axis without a gradient event. -/
theorem get_block_ext_trap_missing :
    (extTrapBlock 0 ⟨0, 5, 0, 0, 0⟩ [0, 10, 20] [0, 1, 0]).isExtTrapGradient 0 = true ∧
    gradEntry (extTrapBlock 0 ⟨0, 5, 0, 0, 0⟩ [0, 10, 20] [0, 1, 0]) 0 = Except.ok none ∧
    (∃ d : BlockDict,
      (get_block ⟨1, fun _ => some (extTrapBlock 0 ⟨0, 5, 0, 0, 0⟩ [0, 10, 20] [0, 1, 0])⟩ 0).2
        = Except.ok d ∧ d.gx = none) ∧
    buildGradientSeries [some (extTrapBlock 0 ⟨0, 5, 0, 0, 0⟩ [0, 10, 20] [0, 1, 0])] [0] 1 0 (-1)
      = ([0, 10, 20], [some 0, some 5, some 0]) := by
  refine ⟨by simp [extTrapBlock], by simp [gradEntry, extTrapBlock, emptyBlock], ?_, ?_⟩
  · refine ⟨{ duration_us := 0, rf := none, gx := none, gy := none, gz := none, adc := none },
      ?_, rfl⟩
    simp [get_block, blockDict, gradEntry, rfEntry, adcEntry, extTrapBlock, emptyBlock]
  · simp [buildGradientSeries, gradLoop, gradBlockStep, extTrapBlock, emptyBlock, blockFragment,
      extTrapFragment, dedupFragment, dedupLoop, GradState.mergeFragment,
      GradState.breakBefore, GradState.appendPoints, GradState.init, within, epsT, epsV]
    norm_num

theorem realEntries_of_breaks (brk : List (ℚ × Option ℚ)) (h : ∀ e ∈ brk, e.2 = none) :
    realEntries brk = [] := by
  induction brk with
  | nil => rfl
  | cons e tl ih =>
    have he := h e (List.mem_cons_self _ _)
    have ht := ih (fun x hx => h x (List.mem_cons_of_mem _ hx))
    simp only [realEntries] at ht ⊢
    rw [List.filterMap_cons]
    simp [he, ht]

theorem eps_lt_of_pos_int (x : ℚ) (h : ∃ n : Int, 0 < n ∧ x = (n : ℚ)) : epsT < x * 1 := by
  obtain ⟨n, hn, hx⟩ := h
  have h1 : (1 : ℚ) ≤ (n : ℚ) := by exact_mod_cast hn
  rw [hx, mul_one]
  have : epsT < 1 := by norm_num [epsT]
  linarith

/-- Binding and builder agree on trapezoids: for a trapezoid on channel `ch` whose ramp-up, flat
and ramp-down durations are positive integers, `get_block` reports the four corner
points, and they are the non-break entries `buildGradientSeries` produces for the
one-block sequence with block start 0 and time scale 1. -/
theorem get_block_trap_matches_series (blk : SeqBlock) (ch : Int) (raster : ℚ)
    (htrap : blk.isTrapGradient ch = true)
    (hup : ∃ n : Int, 0 < n ∧ (blk.GetGradEvent ch).rampUpTime = (n : ℚ))
    (hflat : ∃ n : Int, 0 < n ∧ (blk.GetGradEvent ch).flatTime = (n : ℚ))
    (hdown : ∃ n : Int, 0 < n ∧ (blk.GetGradEvent ch).rampDownTime = (n : ℚ)) :
    (∃ tm wv : List ℚ, gradEntry blk ch = Except.ok (some (tm, wv)) ∧
      tm.zip wv =
        [((blk.GetGradEvent ch).delay, 0),
         ((blk.GetGradEvent ch).delay + (blk.GetGradEvent ch).rampUpTime,
            (blk.GetGradEvent ch).amplitude),
         ((blk.GetGradEvent ch).delay + (blk.GetGradEvent ch).rampUpTime
            + (blk.GetGradEvent ch).flatTime, (blk.GetGradEvent ch).amplitude),
         ((blk.GetGradEvent ch).delay + (blk.GetGradEvent ch).rampUpTime
            + (blk.GetGradEvent ch).flatTime + (blk.GetGradEvent ch).rampDownTime, 0)]) ∧
    nonBreak (buildGradientSeries [some blk] [0] 1 ch raster) =
        [((blk.GetGradEvent ch).delay, 0),
         ((blk.GetGradEvent ch).delay + (blk.GetGradEvent ch).rampUpTime,
            (blk.GetGradEvent ch).amplitude),
         ((blk.GetGradEvent ch).delay + (blk.GetGradEvent ch).rampUpTime
            + (blk.GetGradEvent ch).flatTime, (blk.GetGradEvent ch).amplitude),
         ((blk.GetGradEvent ch).delay + (blk.GetGradEvent ch).rampUpTime
            + (blk.GetGradEvent ch).flatTime + (blk.GetGradEvent ch).rampDownTime, 0)] := by
  constructor
  · refine ⟨[(blk.GetGradEvent ch).delay,
        (blk.GetGradEvent ch).delay + (blk.GetGradEvent ch).rampUpTime,
        (blk.GetGradEvent ch).delay + (blk.GetGradEvent ch).rampUpTime
          + (blk.GetGradEvent ch).flatTime,
        (blk.GetGradEvent ch).delay + (blk.GetGradEvent ch).rampUpTime
          + (blk.GetGradEvent ch).flatTime + (blk.GetGradEvent ch).rampDownTime],
      [0, (blk.GetGradEvent ch).amplitude, (blk.GetGradEvent ch).amplitude, 0], ?_, rfl⟩
    simp only [gradEntry, htrap, if_true]
  · obtain ⟨brk, _, hb, hs⟩ := gradStep_trap [0] 1 ch raster 0 blk GradState.init gradInit_inv
      htrap (eps_lt_of_pos_int _ hup) (eps_lt_of_pos_int _ hflat) (eps_lt_of_pos_int _ hdown)
    have hseries : buildGradientSeries [some blk] [0] 1 ch raster
        = (gradBlockStep [0] 1 ch raster 0 (some blk) GradState.init).series := by
      simp [buildGradientSeries, gradLoop, GradState.series]
    have hinit : GradState.init.series = ([], []) := rfl
    have hstart : startsAtLast (([], []) : List ℚ × List (Option ℚ))
        (([0] : List ℚ).getD 0 0 + (blk.GetGradEvent ch).delay * 1) = false := rfl
    rw [hseries, hs, hinit, hstart, nonBreak_emit_nil, realEntries_append,
      realEntries_of_breaks brk hb]
    simp only [Bool.false_eq_true, if_false, realEntries_map_sample, List.nil_append,
      trapCorners]
    simp [add_assoc]

/-! ## Claims on the time slider -/

theorem dedupLoop_collapse (rest : List (ℚ × ℚ)) (kept : List (ℚ × ℚ)) (cur : ℚ × ℚ)
    (start : ℚ) :
    dedupLoop rest (kept ++ [cur]) start = kept ++ collapseFrom start cur rest := by
  induction rest generalizing kept cur start with
  | nil => simp [dedupLoop, collapseFrom]
  | cons p rest ih =>
    obtain ⟨tj, vj⟩ := p
    by_cases h : within tj start epsT = true
    · have hc : (kept ++ [cur] ≠ [] ∧ within tj start epsT = true) := ⟨by simp, h⟩
      rw [dedupLoop, if_pos hc, List.dropLast_concat, ih]
      simp [collapseFrom, h]
    · have hc : ¬ (kept ++ [cur] ≠ [] ∧ within tj start epsT = true) := fun hh => h hh.2
      rw [dedupLoop, if_neg hc, ih]
      simp [collapseFrom, h]

theorem dedupFragment_eq_collapseRuns (frag : List (ℚ × ℚ)) :
    dedupFragment frag = collapseRuns frag := by
  cases frag with
  | nil => simp [dedupFragment, dedupLoop, collapseRuns]
  | cons p rest =>
    obtain ⟨tj, vj⟩ := p
    have h := dedupLoop_collapse rest [] (tj, vj) tj
    simp only [List.nil_append] at h
    simp only [dedupFragment, dedupLoop, collapseRuns]
    rw [if_neg (by simp)]
    exact h

theorem collapseFrom_of_gaps (rest : List (ℚ × ℚ)) (cur : ℚ × ℚ)
    (h : List.Chain (fun a b => epsT < |b.1 - a.1|) cur rest) :
    collapseFrom cur.1 cur rest = cur :: rest := by
  induction rest generalizing cur with
  | nil => simp [collapseFrom]
  | cons p rest ih =>
    rw [List.chain_cons] at h
    have hw : within p.1 cur.1 epsT = false := (within_eq_false_iff _ _ _).2 h.1
    simp [collapseFrom, hw, ih p h.2]

theorem dedupFragment_of_gaps (frag : List (ℚ × ℚ)) (h : gapsOver epsT frag) :
    dedupFragment frag = frag := by
  rw [dedupFragment_eq_collapseRuns]
  cases frag with
  | nil => rfl
  | cons p rest => exact collapseFrom_of_gaps rest p h

theorem breakBefore_first (s : GradState) (p : ℚ × ℚ) (hany : s.hasAnyPoint = false) :
    s.breakBefore p = s := by
  simp [GradState.breakBefore, hany]

theorem mergeFragment_init (frag : List (ℚ × ℚ)) :
    (GradState.init.mergeFragment frag).series = emit ([], []) (frag.map sample) := by
  cases frag with
  | nil => simp [GradState.mergeFragment, GradState.series, GradState.init, emit]
  | cons first others =>
    have h0 : GradState.init.hasAnyPoint = false := rfl
    simp only [GradState.mergeFragment, h0, Bool.false_and, Bool.false_eq_true, if_false]
    rw [appendPoints_series, breakBefore_first _ _ h0]
    rfl

theorem arbPoints_gaps (grad : GradEvent) (n : Int) (shape : Nat → ℚ)
    (tStart tFactor raster : ℚ) (h : epsT < |raster * tFactor|) :
    gapsOver epsT (arbPoints grad n shape tStart tFactor raster) := by
  simp only [gapsOver, arbPoints, List.chain'_map]
  cases n.toNat with
  | zero => simp
  | succ m =>
    rw [List.chain'_range_succ]
    intro j _
    have e : tStart + ((j.succ : Nat) : ℚ) * raster * tFactor - (tStart + (j : ℚ) * raster * tFactor)
        = raster * tFactor := by
      push_cast
      ring
    rw [e]
    exact h

/-- C22: a block with an arbitrary gradient on the chosen axis builds a fragment with
one point per shape sample `j`, at time `tStart + j * raster * tFactor` with value
`shape[j] * amplitude`, where `tStart = edges[i] + delay * tFactor` and the raster is the
supplied one when positive and 10 otherwise; when the raster step exceeds the time
tolerance these points are the series of a block list made of that block. -/
theorem arbitrary_gradient_fragment (blk : SeqBlock) (channel : Int) (shape : Nat → ℚ)
    (edges : List ℚ) (i : Nat) (tFactor raster : ℚ)
    (htrap : blk.isTrapGradient channel = false)
    (harb : blk.isArbitraryGradient channel = true)
    (hptr : blk.GetArbGradShapePtr channel = some shape) :
    blockFragment blk channel (edges.getD i 0 + (blk.GetGradEvent channel).delay * tFactor)
        tFactor raster =
      (List.range (blk.GetArbGradNumSamples channel).toNat).map
        (fun (j : Nat) =>
          (edges.getD i 0 + (blk.GetGradEvent channel).delay * tFactor
              + (j : ℚ) * effectiveRaster raster * tFactor,
           shape j * (blk.GetGradEvent channel).amplitude)) ∧
    (effectiveRaster raster = if 0 < raster then raster else 10) ∧
    (i = 0 → edges ≠ [] → epsT < |effectiveRaster raster * tFactor| →
      buildGradientSeries [some blk] edges tFactor channel raster =
        emit ([], [])
          ((arbPoints (blk.GetGradEvent channel) (blk.GetArbGradNumSamples channel) shape
            (edges.getD 0 0 + (blk.GetGradEvent channel).delay * tFactor) tFactor
            (effectiveRaster raster)).map sample)) := by
  have hfrag : ∀ t0 : ℚ, blockFragment blk channel t0 tFactor raster =
      arbPoints (blk.GetGradEvent channel) (blk.GetArbGradNumSamples channel) shape
        t0 tFactor (effectiveRaster raster) := by
    intro t0
    simp only [blockFragment, htrap, harb, hptr, arbFragment, arbPoints, effectiveRaster,
      Bool.false_eq_true, if_false, if_true]
    split
    · rfl
    · rename_i hn
      have : (blk.GetArbGradNumSamples channel).toNat = 0 := by
        apply Int.toNat_eq_zero.2
        omega
      rw [this]
      rfl
  refine ⟨hfrag _, rfl, ?_⟩
  intro hi hedges hstep
  subst hi
  rw [buildGradientSeries_eq_loop _ _ _ _ _ hedges]
  simp only [gradLoop, gradBlockStep, harb, Bool.or_true, Bool.true_or, Bool.true_eq_false,
    if_false]
  rw [hfrag, dedupFragment_of_gaps _ (arbPoints_gaps _ _ _ _ _ _ hstep), mergeFragment_init]

/-- C22 (witness): three samples `1, 2, 3` of amplitude 2 with delay 5 in a block
starting at 100, no raster supplied: points at 105, 115, 125. -/
theorem arbitrary_gradient_fragment_witness :
    blockFragment (arbBlock 0 ⟨5, 2, 0, 0, 0⟩ 3 (fun j => (j : ℚ) + 1)) 0
        (([100] : List ℚ).getD 0 0 + 5 * 1) 1 0 = [(105, 2), (115, 4), (125, 6)] ∧
    buildGradientSeries [some (arbBlock 0 ⟨5, 2, 0, 0, 0⟩ 3 (fun j => (j : ℚ) + 1))] [100] 1 0 0
      = ([105, 115, 125], [some 2, some 4, some 6]) := by
  have h := arbitrary_gradient_fragment (arbBlock 0 ⟨5, 2, 0, 0, 0⟩ 3 (fun j => (j : ℚ) + 1)) 0
    (fun j => (j : ℚ) + 1) [100] 0 1 0 rfl rfl rfl
  constructor
  · refine (h.1 : blockFragment _ 0 (([100] : List ℚ).getD 0 0 + 5 * 1) 1 0 = _).trans ?_
    simp [arbBlock, effectiveRaster, List.range_succ]
    norm_num
  · rw [h.2.2 rfl (by simp) (by simp [effectiveRaster, epsT]; norm_num)]
    simp [arbPoints, arbBlock, effectiveRaster, emit, sample, List.range_succ]
    norm_num

/-- C23 (counterexample): two points whose timestamps differ by half the tolerance are
not exactly equal in time, yet the first is removed; an extended trapezoid with times
`0, 1` and a time factor of `5e-13` produces this fragment. -/
theorem dedup_merges_near_timestamps :
    (0 : ℚ) ≠ 1 / 2000000000000 ∧
    dedupFragment [(0, 1), (1 / 2000000000000, 2)] = [(1 / 2000000000000, 2)] ∧
    buildGradientSeries [some (extTrapBlock 0 ⟨0, 1, 0, 0, 0⟩ [0, 1] [1, 2])] [0]
      (1 / 2000000000000) 0 0 = ([1 / 2000000000000], [some 2]) := by
  have habs : |(2000000000000 : ℚ)⁻¹| ≤ 1000000000000⁻¹ := by
    rw [abs_of_pos (by norm_num)]
    norm_num
  refine ⟨by norm_num, ?_, ?_⟩
  · simp [dedupFragment, dedupLoop, within, epsT, habs]
  · simp [buildGradientSeries, gradLoop, gradBlockStep, blockFragment, extTrapBlock,
      emptyBlock, extTrapFragment, dedupFragment, dedupLoop, within, epsT,
      GradState.mergeFragment, GradState.init, GradState.breakBefore,
      GradState.appendPoints, habs]

theorem collapseFrom_same_time (t : ℚ) (cur : ℚ) (vs : List ℚ) :
    collapseFrom t (t, cur) (vs.map (fun x => (t, x))) =
      [(t, (cur :: vs).getLast (List.cons_ne_nil cur vs))] := by
  induction vs generalizing cur with
  | nil => simp [collapseFrom]
  | cons v vs ih =>
    have hw : within t t epsT = true := by
      rw [within_eq_true_iff]
      simp [epsT]
    simp only [List.map_cons, collapseFrom, hw, if_true]
    rw [ih v]
    simp [List.getLast_cons]

/-- C23 (amended): the deduplication collapses each run of a fragment to one point
carrying the time and value of the last point of the run, a run being a first point and
the points after it whose time is within `1e-12` of that first point's time; points
farther away open a new run and are kept in order.  A run of exactly equal timestamps
collapses to its last point, and a fragment whose consecutive timestamps differ by
more than `1e-12` is unchanged. -/
theorem dedup_collapses_runs (frag : List (ℚ × ℚ)) :
    dedupFragment frag = collapseRuns frag ∧
    (∀ (t v : ℚ) (vs : List ℚ),
      dedupFragment ((v :: vs).map (fun x => (t, x))) =
        [(t, (v :: vs).getLast (List.cons_ne_nil v vs))]) ∧
    (gapsOver epsT frag → dedupFragment frag = frag) := by
  refine ⟨dedupFragment_eq_collapseRuns frag, ?_, dedupFragment_of_gaps frag⟩
  intro t v vs
  rw [dedupFragment_eq_collapseRuns]
  exact collapseFrom_same_time t v vs

/-- C23 (witness): the four corners of a trapezoid with ramps of 10 and a flat top of
20 are more than `1e-12` apart and are all kept. -/
theorem dedup_collapses_runs_witness :
    dedupFragment [(0, 0), (10, 1), (30, 1), (40, 0)] = [(0, 0), (10, 1), (30, 1), (40, 0)] :=
  (dedup_collapses_runs [(0, 0), (10, 1), (30, 1), (40, 0)]).2.2
    (by simp [gapsOver, epsT]; norm_num)

theorem rfStep_edges (edges more : List ℚ) (tFactor : ℚ) (i : Nat) (blk : Option SeqBlock)
    (s : RFState) (hi : i < edges.length) :
    rfBlockStep (edges ++ more) tFactor i blk s = rfBlockStep edges tFactor i blk s := by
  simp only [rfBlockStep, List.getD_append _ _ _ _ hi]

theorem gradStep_edges (edges more : List ℚ) (tFactor : ℚ) (channel : Int) (raster : ℚ)
    (i : Nat) (blk : Option SeqBlock) (s : GradState) (hi : i < edges.length) :
    gradBlockStep (edges ++ more) tFactor channel raster i blk s =
      gradBlockStep edges tFactor channel raster i blk s := by
  simp only [gradBlockStep, List.getD_append _ _ _ _ hi]

theorem adcStep_edges (edges more : List ℚ) (tFactor : ℚ) (i : Nat) (blk : Option SeqBlock)
    (s : List ℚ × List (Option ℚ)) (hi : i < edges.length) :
    adcBlockStep (edges ++ more) tFactor i blk s = adcBlockStep edges tFactor i blk s := by
  simp only [adcBlockStep, List.getD_append _ _ _ _ hi]

theorem rfLoop_edges (edges more : List ℚ) (tFactor : ℚ) (blocks : List (Option SeqBlock))
    (i : Nat) (s : RFState) (h : i + blocks.length ≤ edges.length) :
    rfLoop (edges ++ more) tFactor i blocks s = rfLoop edges tFactor i blocks s := by
  induction blocks generalizing i s with
  | nil => rfl
  | cons x xs ih =>
    simp only [List.length_cons] at h
    simp only [rfLoop]
    rw [rfStep_edges _ _ _ _ _ _ (by omega), ih _ _ (by omega)]

theorem gradLoop_edges (edges more : List ℚ) (tFactor : ℚ) (channel : Int) (raster : ℚ)
    (blocks : List (Option SeqBlock)) (i : Nat) (s : GradState)
    (h : i + blocks.length ≤ edges.length) :
    gradLoop (edges ++ more) tFactor channel raster i blocks s =
      gradLoop edges tFactor channel raster i blocks s := by
  induction blocks generalizing i s with
  | nil => rfl
  | cons x xs ih =>
    simp only [List.length_cons] at h
    simp only [gradLoop]
    rw [gradStep_edges _ _ _ _ _ _ _ _ (by omega), ih _ _ (by omega)]

theorem adcLoop_edges (edges more : List ℚ) (tFactor : ℚ) (blocks : List (Option SeqBlock))
    (i : Nat) (s : List ℚ × List (Option ℚ)) (h : i + blocks.length ≤ edges.length) :
    adcLoop (edges ++ more) tFactor i blocks s = adcLoop edges tFactor i blocks s := by
  induction blocks generalizing i s with
  | nil => rfl
  | cons x xs ih =>
    simp only [List.length_cons] at h
    simp only [adcLoop]
    rw [adcStep_edges _ _ _ _ _ _ (by omega), ih _ _ (by omega)]

theorem rfStep_agree (edges : List ℚ) (tFactor : ℚ) (i : Nat) (x y : Option SeqBlock)
    (s : RFState) (h : blocksAgree x y) :
    rfBlockStep edges tFactor i x s = rfBlockStep edges tFactor i y s := by
  match x, y, h with
  | none, none, _ => rfl
  | some a, some b, h =>
    obtain ⟨h1, h2, h3, h4, h5, _⟩ := h
    simp only [rfBlockStep, ← h1, ← h2, ← h3, ← h4]
    split
    · rfl
    · split
      · rfl
      · rename_i hlen
        have hpos : (0 : Int) < a.GetRFLength := by omega
        have h0 := h5 0 (by simpa using hpos)
        rw [← h0.1, ← h0.2]
        apply List.foldl_ext
        intro st j hj
        have hj2 : (j : Int) < a.GetRFLength := by
          have := List.mem_range.1 hj
          omega
        have hjj := h5 j hj2
        simp only [rfSampleStep, hjj.1, hjj.2]

theorem blockFragment_agree (a b : SeqBlock) (channel : Int) (tStart tFactor raster : ℚ)
    (h : a.agreesBelow b) :
    blockFragment a channel tStart tFactor raster =
      blockFragment b channel tStart tFactor raster := by
  obtain ⟨_, _, _, _, _, h6, h7, h8, h9, h10, h11, h12, h13, _⟩ := h
  simp only [blockFragment, ← h6, ← h7, ← h8, ← h9, ← h10, ← h12, ← h13]
  split
  · rfl
  · split
    · have hp := h11 channel
      cases ha : a.GetArbGradShapePtr channel with
      | none =>
        cases hb : b.GetArbGradShapePtr channel with
        | none => rfl
        | some g => rw [ha, hb] at hp; exact absurd hp (by simp)
      | some f =>
        cases hb : b.GetArbGradShapePtr channel with
        | none => rw [ha, hb] at hp; exact absurd hp (by simp)
        | some g =>
          rw [ha, hb] at hp
          simp only [arbFragment]
          split
          · apply List.map_congr_left
            intro j hj
            have hj2 : (j : Int) < a.GetArbGradNumSamples channel := by
              have := List.mem_range.1 hj
              omega
            rw [hp j hj2]
          · rfl
    · rfl

theorem gradStep_agree (edges : List ℚ) (tFactor : ℚ) (channel : Int) (raster : ℚ) (i : Nat)
    (x y : Option SeqBlock) (s : GradState) (h : blocksAgree x y) :
    gradBlockStep edges tFactor channel raster i x s =
      gradBlockStep edges tFactor channel raster i y s := by
  match x, y, h with
  | none, none, _ => rfl
  | some a, some b, h =>
    have hf := fun t0 => blockFragment_agree a b channel t0 tFactor raster h
    obtain ⟨_, _, _, _, _, h6, h7, h8, h9, _⟩ := h
    simp only [gradBlockStep, hf, ← h6, ← h7, ← h8, ← h9]

theorem adcStep_agree (edges : List ℚ) (tFactor : ℚ) (i : Nat) (x y : Option SeqBlock)
    (s : List ℚ × List (Option ℚ)) (h : blocksAgree x y) :
    adcBlockStep edges tFactor i x s = adcBlockStep edges tFactor i y s := by
  match x, y, h with
  | none, none, _ => rfl
  | some a, some b, h =>
    obtain ⟨_, _, _, _, _, _, _, _, _, _, _, _, _, h14, h15⟩ := h
    simp only [adcBlockStep, ← h14, ← h15]

theorem rfLoop_agree (edges : List ℚ) (tFactor : ℚ) (xs ys : List (Option SeqBlock))
    (i : Nat) (s : RFState) (h : List.Forall₂ blocksAgree xs ys) :
    rfLoop edges tFactor i xs s = rfLoop edges tFactor i ys s := by
  induction h generalizing i s with
  | nil => rfl
  | cons hxy _ ih =>
    simp only [rfLoop]
    rw [rfStep_agree _ _ _ _ _ _ hxy, ih]

theorem gradLoop_agree (edges : List ℚ) (tFactor : ℚ) (channel : Int) (raster : ℚ)
    (xs ys : List (Option SeqBlock)) (i : Nat) (s : GradState)
    (h : List.Forall₂ blocksAgree xs ys) :
    gradLoop edges tFactor channel raster i xs s =
      gradLoop edges tFactor channel raster i ys s := by
  induction h generalizing i s with
  | nil => rfl
  | cons hxy _ ih =>
    simp only [gradLoop]
    rw [gradStep_agree _ _ _ _ _ _ _ _ hxy, ih]

theorem adcLoop_agree (edges : List ℚ) (tFactor : ℚ) (xs ys : List (Option SeqBlock))
    (i : Nat) (s : List ℚ × List (Option ℚ)) (h : List.Forall₂ blocksAgree xs ys) :
    adcLoop edges tFactor i xs s = adcLoop edges tFactor i ys s := by
  induction h generalizing i s with
  | nil => rfl
  | cons hxy _ ih =>
    simp only [adcLoop]
    rw [adcStep_agree _ _ _ _ _ _ hxy, ih]

theorem isEmpty_append_of_cover (blocks : List (Option SeqBlock)) (edges more : List ℚ)
    (hcover : blocks.length ≤ edges.length) :
    (blocks.isEmpty || (edges ++ more).isEmpty) = (blocks.isEmpty || edges.isEmpty) := by
  cases blocks with
  | nil => rfl
  | cons x xs =>
    cases edges with
    | nil => simp at hcover
    | cons e es => rfl

theorem isEmpty_of_agree (xs ys : List (Option SeqBlock))
    (h : List.Forall₂ blocksAgree xs ys) : xs.isEmpty = ys.isEmpty := by
  cases h with
  | nil => rfl
  | cons _ _ => rfl

/-- C30: with at least as many block offsets as blocks, the three builders read
nothing out of bounds: their output is unchanged by entries appended to `edges`
(every `edges[i]` read lies inside the array) and by any change of the RF amplitude,
RF phase and arbitrary-shape arrays at indices at or above the reported lengths; an
extended trapezoid pairs `times[j]` with `shape[j]` only when both arrays are non-empty
and of the same length and contributes nothing otherwise; null blocks, RF events of
length `<= 0` and ADC events with zero samples are skipped. -/
theorem builders_read_in_bounds (blocks blocks2 : List (Option SeqBlock))
    (edges more : List ℚ) (tFactor : ℚ) (channel : Int) (raster : ℚ)
    (hcover : blocks.length ≤ edges.length)
    (hagree : List.Forall₂ blocksAgree blocks blocks2) :
    (buildRFSeries blocks (edges ++ more) tFactor = buildRFSeries blocks edges tFactor ∧
     buildGradientSeries blocks (edges ++ more) tFactor channel raster =
       buildGradientSeries blocks edges tFactor channel raster ∧
     buildADCSeries blocks (edges ++ more) tFactor = buildADCSeries blocks edges tFactor) ∧
    (buildRFSeries blocks2 edges tFactor = buildRFSeries blocks edges tFactor ∧
     buildGradientSeries blocks2 edges tFactor channel raster =
       buildGradientSeries blocks edges tFactor channel raster ∧
     buildADCSeries blocks2 edges tFactor = buildADCSeries blocks edges tFactor) ∧
    (∀ (g : GradEvent) (times : List Int) (shape : List ℚ) (tStart : ℚ),
      (extTrapFragment g times shape tStart tFactor).length ≤ times.length ∧
      (extTrapFragment g times shape tStart tFactor).length ≤ shape.length ∧
      ((times = [] ∨ shape = [] ∨ times.length ≠ shape.length) →
        extTrapFragment g times shape tStart tFactor = [])) ∧
    (∀ (i : Nat) (s : RFState), rfBlockStep edges tFactor i none s = s) ∧
    (∀ (i : Nat) (s : GradState), gradBlockStep edges tFactor channel raster i none s = s) ∧
    (∀ (i : Nat) (s : List ℚ × List (Option ℚ)), adcBlockStep edges tFactor i none s = s) ∧
    (∀ (i : Nat) (blk : SeqBlock) (s : RFState), blk.GetRFLength ≤ 0 →
      rfBlockStep edges tFactor i (some blk) s = s) ∧
    (∀ (i : Nat) (blk : SeqBlock) (s : List ℚ × List (Option ℚ)),
      blk.GetADCEvent.numSamples = 0 → adcBlockStep edges tFactor i (some blk) s = s) := by
  refine ⟨⟨?_, ?_, ?_⟩, ⟨?_, ?_, ?_⟩, ?_, fun _ _ => rfl, fun _ _ => rfl, fun _ _ => rfl, ?_, ?_⟩
  · simp only [buildRFSeries, isEmpty_append_of_cover blocks edges more hcover]
    rw [rfLoop_edges _ _ _ _ _ _ (by omega)]
  · simp only [buildGradientSeries, isEmpty_append_of_cover blocks edges more hcover]
    rw [gradLoop_edges _ _ _ _ _ _ _ _ (by omega)]
  · simp only [buildADCSeries, isEmpty_append_of_cover blocks edges more hcover]
    rw [adcLoop_edges _ _ _ _ _ _ (by omega)]
  · simp only [buildRFSeries, isEmpty_of_agree _ _ hagree]
    rw [rfLoop_agree _ _ _ _ _ _ hagree]
  · simp only [buildGradientSeries, isEmpty_of_agree _ _ hagree]
    rw [gradLoop_agree _ _ _ _ _ _ _ _ hagree]
  · simp only [buildADCSeries, isEmpty_of_agree _ _ hagree]
    rw [adcLoop_agree _ _ _ _ _ _ hagree]
  · intro g times shape tStart
    refine ⟨?_, ?_, ?_⟩
    · simp only [extTrapFragment]
      split
      · simp [List.length_zip]
      · simp
    · simp only [extTrapFragment]
      split
      · simp [List.length_zip]
      · simp
    · intro h
      simp only [extTrapFragment]
      rw [if_neg]
      rintro ⟨h1, h2, h3⟩
      rcases h with h | h | h
      · exact h1 h
      · exact h2 h
      · exact h h3
  · intro i blk s h
    simp only [rfBlockStep, h, if_true]
    split <;> rfl
  · intro i blk s h
    simp only [adcBlockStep, h, if_true]
    split <;> rfl

/-- C30 (witness): a two-sample RF block at offset 0.  An extra offset appended to
`edges` and a different amplitude at index 2, beyond the reported length, leave the RF
series unchanged; a zero-length RF event is skipped, and an extended trapezoid with two
times and one shape value contributes nothing. -/
theorem builders_read_in_bounds_witness :
    buildRFSeries [some (rfBlock ⟨0, 1⟩ 2 1 (fun _ => 1) (fun _ => 0))] ([0] ++ [7]) 1 =
      buildRFSeries [some (rfBlock ⟨0, 1⟩ 2 1 (fun _ => 1) (fun _ => 0))] [0] 1 ∧
    buildRFSeries [some (rfBlock ⟨0, 1⟩ 2 1 (fun j => if j < 2 then 1 else 99) (fun _ => 0))]
        [0] 1 =
      buildRFSeries [some (rfBlock ⟨0, 1⟩ 2 1 (fun _ => 1) (fun _ => 0))] [0] 1 ∧
    rfBlockStep [0] 1 0 (some (rfBlock ⟨0, 1⟩ 0 1 (fun _ => 1) (fun _ => 0))) RFState.init =
      RFState.init ∧
    adcBlockStep [0] 1 0 (some (adcBlock ⟨0, 1, 0⟩)) ([], []) = ([], []) ∧
    extTrapFragment ⟨0, 1, 0, 0, 0⟩ [0, 10] [1] 0 1 = [] := by
  have h := builders_read_in_bounds
    [some (rfBlock ⟨0, 1⟩ 2 1 (fun _ => 1) (fun _ => 0))]
    [some (rfBlock ⟨0, 1⟩ 2 1 (fun j => if j < 2 then 1 else 99) (fun _ => 0))]
    [0] [7] 1 0 0 (by simp)
    (by
      refine List.Forall₂.cons ?_ List.Forall₂.nil
      refine ⟨rfl, rfl, rfl, rfl, ?_, rfl, rfl, rfl, rfl, rfl, ?_, rfl, rfl, rfl, rfl⟩
      · intro j hj
        have hj2 : j < 2 := by
          have : (j : Int) < 2 := hj
          omega
        simp [rfBlock, hj2]
      · intro ch
        simp [rfBlock, emptyBlock])
  exact ⟨h.1.1, h.2.1.1, h.2.2.2.2.2.2.1 0 _ _ (by decide), h.2.2.2.2.2.2.2 0 _ _ rfl,
    (h.2.2.1 ⟨0, 1, 0, 0, 0⟩ [0, 10] [1] 0).2.2 (by simp)⟩

/-! ## Claims on DoubleRangeSlider and the time window of TRManager -/

theorem ite_pair_fst (c : Bool) (x : DoubleRangeSlider) (l : List SliderSignal) :
    (if c = true then (x, l) else (x, [])).1 = x := by
  cases c <;> rfl

theorem setValues_fields (w : DoubleRangeSlider) (a b : Int) :
    (w.setValues a b).1 =
      { w with
        m_startValue :=
          (if (if (if a < w.m_minimum then w.m_minimum else a) > w.m_maximum then w.m_maximum
                else (if a < w.m_minimum then w.m_minimum else a)) >
              (if (if b < w.m_minimum then w.m_minimum else b) > w.m_maximum then w.m_maximum
                else (if b < w.m_minimum then w.m_minimum else b))
           then (if (if b < w.m_minimum then w.m_minimum else b) > w.m_maximum then w.m_maximum
                else (if b < w.m_minimum then w.m_minimum else b))
           else (if (if a < w.m_minimum then w.m_minimum else a) > w.m_maximum then w.m_maximum
                else (if a < w.m_minimum then w.m_minimum else a))),
        m_endValue :=
          (if (if b < w.m_minimum then w.m_minimum else b) > w.m_maximum then w.m_maximum
            else (if b < w.m_minimum then w.m_minimum else b)) } := by
  simp only [DoubleRangeSlider.setValues]
  exact ite_pair_fst _ _ _

theorem setValues_signals (w : DoubleRangeSlider) (a b : Int)
    (h : (w.setValues a b).1.m_startValue = w.m_startValue ∧
      (w.setValues a b).1.m_endValue = w.m_endValue) :
    (w.setValues a b).2 = [] := by
  rw [setValues_fields] at h
  simp only [DoubleRangeSlider.setValues]
  rw [if_neg]
  intro hc
  simp only [Bool.or_eq_true, decide_eq_true_eq] at hc
  rcases hc with hc | hc
  · exact hc h.1.symm
  · exact hc h.2.symm

/-- C26: the slider invariant `minimum <= startValue <= endValue <= maximum` holds
after construction, where the members are `(0, 0, 100, 100)`, and is kept by `setRange`
with `min <= max` and by `setStartValue`, `setEndValue` and `setValues` with any
arguments; `setValues(a, b)` sets the end to `b` clamped into the range and the start to
the smaller of the clamped `a` and that end, and emits `valuesChanged` only when one of
the two values changed. -/
theorem slider_invariant (w : DoubleRangeSlider) (lo hi a b : Int) (hw : w.Inv)
    (hlohi : lo ≤ hi) :
    DoubleRangeSlider.new.Inv ∧
    DoubleRangeSlider.new = ⟨0, 100, 0, 100⟩ ∧
    (w.setRange lo hi).Inv ∧
    (w.setStartValue a).1.Inv ∧
    (w.setEndValue a).1.Inv ∧
    (w.setValues a b).1.Inv ∧
    (w.setValues a b).1.m_endValue = clamp b w.m_minimum w.m_maximum ∧
    (w.setValues a b).1.m_startValue =
      min (clamp a w.m_minimum w.m_maximum) (clamp b w.m_minimum w.m_maximum) ∧
    (w.setValues a b).1.m_minimum = w.m_minimum ∧
    (w.setValues a b).1.m_maximum = w.m_maximum ∧
    ((∃ e ∈ (w.setValues a b).2, e.isValuesChanged = true) →
      (w.setValues a b).1.m_startValue ≠ w.m_startValue ∨
      (w.setValues a b).1.m_endValue ≠ w.m_endValue) := by
  obtain ⟨h1, h2, h3⟩ := hw
  refine ⟨by decide, rfl, ?_, ?_, ?_, ?_, ?_, ?_, ?_, ?_, ?_⟩
  · simp only [DoubleRangeSlider.Inv, DoubleRangeSlider.setRange]
    split_ifs <;> omega
  · simp only [DoubleRangeSlider.Inv, DoubleRangeSlider.setStartValue]
    split_ifs <;> simp only [] <;> omega
  · simp only [DoubleRangeSlider.Inv, DoubleRangeSlider.setEndValue]
    split_ifs <;> simp only [] <;> omega
  · rw [setValues_fields]
    simp only [DoubleRangeSlider.Inv]
    split_ifs <;> omega
  · rw [setValues_fields]
    simp only [clamp]
    split_ifs <;> omega
  · rw [setValues_fields]
    simp only [clamp]
    split_ifs <;> omega
  · rw [setValues_fields]
  · rw [setValues_fields]
  · rintro ⟨e, he, _⟩
    by_contra hcon
    have hsame : (w.setValues a b).1.m_startValue = w.m_startValue ∧
        (w.setValues a b).1.m_endValue = w.m_endValue := by
      constructor
      · by_contra hne
        exact hcon (Or.inl hne)
      · by_contra hne
        exact hcon (Or.inr hne)
    rw [setValues_signals w a b hsame] at he
    simp at he

/-- C26 (witness): a slider on `[0, 100]` holding `[20, 60]`: a new range `[30, 50]`
gives `[30, 50]`, a start of 80 stops at the end 60, an end of 5 stops at the start 20,
and `setValues(70, 10)` gives `[10, 10]`. -/
theorem slider_invariant_witness :
    ((⟨0, 100, 20, 60⟩ : DoubleRangeSlider).setRange 30 50).Inv ∧
    ((⟨0, 100, 20, 60⟩ : DoubleRangeSlider).setStartValue 80).1.Inv ∧
    ((⟨0, 100, 20, 60⟩ : DoubleRangeSlider).setEndValue 5).1.Inv ∧
    ((⟨0, 100, 20, 60⟩ : DoubleRangeSlider).setValues 70 10).1.Inv ∧
    ((⟨0, 100, 20, 60⟩ : DoubleRangeSlider).setValues 70 10).1.m_endValue = clamp 10 0 100 := by
  have h := slider_invariant ⟨0, 100, 20, 60⟩ 30 50 80 10 (by decide) (by decide)
  have h5 := slider_invariant ⟨0, 100, 20, 60⟩ 30 50 5 10 (by decide) (by decide)
  have h70 := slider_invariant ⟨0, 100, 20, 60⟩ 30 50 70 10 (by decide) (by decide)
  exact ⟨h.2.2.1, h.2.2.2.1, h5.2.2.2.2.1, h70.2.2.2.2.2.1, h70.2.2.2.2.2.2.1⟩

/-- C29: a shift of the time window by a non-zero increment keeps it inside the slider
bounds `lo = max(0, minimum) <= hi = maximum`, keeps its size whenever the size fits
between the bounds, and is the plain translation when no clamping is needed.  The new
window is the one remembered in `m_lastRelStartMs`, `m_lastRelEndMs`. -/
theorem shift_window_in_bounds (tc : TimeControls) (s0 e0 inc : ℚ)
    (hs : tc.m_pTimeStartInput = some s0) (he : tc.m_pTimeEndInput = some e0)
    (hinc : inc ≠ 0)
    (hb : max 0 (tc.m_pTimeRangeSlider.m_minimum : ℚ) ≤ (tc.m_pTimeRangeSlider.m_maximum : ℚ)) :
    max 0 (tc.m_pTimeRangeSlider.m_minimum : ℚ) ≤
        (onTimeIncrementEditingFinished (some inc) tc).1.m_lastRelStartMs ∧
    (onTimeIncrementEditingFinished (some inc) tc).1.m_lastRelStartMs ≤
        (onTimeIncrementEditingFinished (some inc) tc).1.m_lastRelEndMs ∧
    (onTimeIncrementEditingFinished (some inc) tc).1.m_lastRelEndMs ≤
        (tc.m_pTimeRangeSlider.m_maximum : ℚ) ∧
    (max s0 e0 - min s0 e0 ≤
        (tc.m_pTimeRangeSlider.m_maximum : ℚ) - max 0 (tc.m_pTimeRangeSlider.m_minimum : ℚ) →
      (onTimeIncrementEditingFinished (some inc) tc).1.m_lastRelEndMs -
          (onTimeIncrementEditingFinished (some inc) tc).1.m_lastRelStartMs =
        max s0 e0 - min s0 e0) ∧
    (max 0 (tc.m_pTimeRangeSlider.m_minimum : ℚ) ≤ min s0 e0 + inc →
      max s0 e0 + inc ≤ (tc.m_pTimeRangeSlider.m_maximum : ℚ) →
      (onTimeIncrementEditingFinished (some inc) tc).1.m_lastRelStartMs = min s0 e0 + inc ∧
      (onTimeIncrementEditingFinished (some inc) tc).1.m_lastRelEndMs = max s0 e0 + inc) := by
  have hrun : (onTimeIncrementEditingFinished (some inc) tc).1.m_lastRelStartMs =
        (shiftedWindow tc.m_pTimeRangeSlider s0 e0 inc).1 ∧
      (onTimeIncrementEditingFinished (some inc) tc).1.m_lastRelEndMs =
        (shiftedWindow tc.m_pTimeRangeSlider s0 e0 inc).2 := by
    simp [onTimeIncrementEditingFinished, hinc, hs, he, setTimeRange]
  rw [hrun.1, hrun.2]
  have hmin : min s0 e0 = if e0 < s0 then e0 else s0 := by
    split_ifs with h
    · exact min_eq_right (le_of_lt h)
    · exact min_eq_left (not_lt.1 h)
  have hmax : max s0 e0 = if e0 < s0 then s0 else e0 := by
    split_ifs with h
    · exact max_eq_left (le_of_lt h)
    · exact max_eq_right (not_lt.1 h)
  have hse : (if e0 < s0 then e0 else s0) ≤ (if e0 < s0 then s0 else e0) := by
    split_ifs with h
    · exact le_of_lt h
    · exact not_lt.1 h
  rw [hmin, hmax]
  simp only [shiftedWindow]
  generalize (if e0 < s0 then e0 else s0) = s at hse ⊢
  generalize (if e0 < s0 then s0 else e0) = e at hse ⊢
  generalize max 0 (tc.m_pTimeRangeSlider.m_minimum : ℚ) = lo at hb ⊢
  generalize (tc.m_pTimeRangeSlider.m_maximum : ℚ) = hi at hb ⊢
  have hw : (if e - s < 0 then (0 : ℚ) else e - s) = e - s := if_neg (by linarith)
  rw [hw]
  refine ⟨?_, ?_, ?_, ?_, ?_⟩
  · split_ifs <;> linarith
  · split_ifs <;> linarith
  · split_ifs <;> linarith
  · intro hfit
    split_ifs <;> linarith
  · intro h1 h2
    constructor <;> split_ifs <;> linarith

/-- C29 (witness): the window `[10, 30]` on a slider `[0, 100]` shifted by 5 becomes
`[15, 35]`. -/
theorem shift_window_in_bounds_witness :
    (onTimeIncrementEditingFinished (some 5)
      (⟨100, ⟨0, 100, 10, 30⟩, some 10, some 30, 10, 30⟩ : TimeControls)).1.m_lastRelStartMs
      = min 10 30 + 5 ∧
    (onTimeIncrementEditingFinished (some 5)
      (⟨100, ⟨0, 100, 10, 30⟩, some 10, some 30, 10, 30⟩ : TimeControls)).1.m_lastRelEndMs
      = max 10 30 + 5 :=
  (shift_window_in_bounds (⟨100, ⟨0, 100, 10, 30⟩, some 10, some 30, 10, 30⟩ : TimeControls)
    10 30 5 rfl rfl (by norm_num) (by norm_num)).2.2.2.2 (by norm_num) (by norm_num)

theorem upperBoundLoop_spec (edges : List ℚ) (value : ℚ) (hs : nonDecreasing edges)
    (fuel first count : Nat) (hfuel : count ≤ fuel) (hlen : first + count ≤ edges.length)
    (hlow : ∀ j : Nat, j < first → edges.getD j 0 ≤ value)
    (hup : ∀ j : Nat, first + count ≤ j → j < edges.length → value < edges.getD j 0) :
    upperBoundLoop edges value fuel first count ≤ edges.length ∧
    (∀ j : Nat, j < upperBoundLoop edges value fuel first count → edges.getD j 0 ≤ value) ∧
    (∀ j : Nat, upperBoundLoop edges value fuel first count ≤ j → j < edges.length →
      value < edges.getD j 0) := by
  induction fuel generalizing first count with
  | zero =>
    have hc : count = 0 := by omega
    subst hc
    simp only [upperBoundLoop]
    exact ⟨by omega, hlow, fun j hj hj2 => hup j (by omega) hj2⟩
  | succ fuel ih =>
    simp only [upperBoundLoop]
    by_cases hc : count = 0
    · rw [if_pos hc]
      subst hc
      exact ⟨by omega, hlow, fun j hj hj2 => hup j (by omega) hj2⟩
    · rw [if_neg hc]
      have hstep : count / 2 < count := Nat.div_lt_self (by omega) (by decide)
      have hit : first + count / 2 < edges.length := by omega
      by_cases hv : value < edges.getD (first + count / 2) 0
      · rw [if_pos hv]
        apply ih first (count / 2) (by omega) (by omega) hlow
        intro j hj hj2
        exact lt_of_lt_of_le hv (hs _ _ hj hj2)
      · rw [if_neg hv]
        apply ih (first + count / 2 + 1) (count - (count / 2 + 1)) (by omega) (by omega)
        · intro j hj
          exact le_trans (hs j (first + count / 2) (by omega) hit) (not_lt.1 hv)
        · intro j hj hj2
          exact hup j (by omega) hj2

theorem upper_bound_spec (edges : List ℚ) (value : ℚ) (hs : nonDecreasing edges) :
    upper_bound edges value ≤ edges.length ∧
    (∀ j : Nat, j < upper_bound edges value → edges.getD j 0 ≤ value) ∧
    (∀ j : Nat, upper_bound edges value ≤ j → j < edges.length → value < edges.getD j 0) :=
  upperBoundLoop_spec edges value hs edges.length 0 edges.length le_rfl (by omega)
    (fun j hj => absurd hj (by omega)) (fun j hj hj2 => absurd hj2 (by omega))

theorem block_unique (edges : List ℚ) (t : ℚ) (hs : nonDecreasing edges) (i j : Nat)
    (hi : i + 1 < edges.length) (hj : j + 1 < edges.length)
    (hi1 : edges.getD i 0 ≤ t) (hi2 : t < edges.getD (i + 1) 0)
    (hj1 : edges.getD j 0 ≤ t) (hj2 : t < edges.getD (j + 1) 0) : j = i := by
  by_contra hne
  rcases Nat.lt_or_gt_of_ne hne with h | h
  · have := hs (j + 1) i (by omega) (by omega)
    linarith
  · have := hs (i + 1) j (by omega) (by omega)
    linarith

theorem scanBlockIndex_eq (edges : List ℚ) (t : ℚ) (hs : nonDecreasing edges) (i : Nat)
    (hi : i + 1 < edges.length) (hi1 : edges.getD i 0 ≤ t) (hi2 : t < edges.getD (i + 1) 0) :
    scanBlockIndex edges t = some i := by
  unfold scanBlockIndex
  cases hf : (List.range (edges.length - 1)).find?
      (fun i => decide (t ≥ edges.getD i 0) && decide (t < edges.getD (i + 1) 0)) with
  | none =>
    rw [List.find?_eq_none] at hf
    have := hf i (List.mem_range.2 (by omega))
    simp only [Bool.and_eq_true, decide_eq_true_eq, ge_iff_le, not_and, not_lt] at this
    exact absurd hi2 (not_lt.2 (this hi1))
  | some k =>
    have hk := List.find?_some hf
    have hmem := List.mem_of_find?_eq_some hf
    simp only [Bool.and_eq_true, decide_eq_true_eq, ge_iff_le] at hk
    have hk2 := List.mem_range.1 hmem
    rw [block_unique edges t hs i k hi (by omega) hi1 hi2 hk.1 hk.2]

theorem calculateBlockRange_bounds (loader : PulseqLoader) (numBlocks : Nat)
    (tFactor totalDuration_us : ℚ) (blockEdges : List ℚ) (startTr endTr : Int) :
    ((loader.hasRepetitionTime = false ∨ numBlocks = 0) →
      calculateBlockRangeFromTrRange loader numBlocks tFactor totalDuration_us blockEdges
        startTr endTr = (0, 0)) ∧
    (loader.hasRepetitionTime = true → 0 < numBlocks →
      0 ≤ (calculateBlockRangeFromTrRange loader numBlocks tFactor totalDuration_us
        blockEdges startTr endTr).1 ∧
      (calculateBlockRangeFromTrRange loader numBlocks tFactor totalDuration_us
        blockEdges startTr endTr).1 ≤
      (calculateBlockRangeFromTrRange loader numBlocks tFactor totalDuration_us
        blockEdges startTr endTr).2 ∧
      (calculateBlockRangeFromTrRange loader numBlocks tFactor totalDuration_us
        blockEdges startTr endTr).2 ≤ (numBlocks : Int) - 1) := by
  constructor
  · intro h
    simp only [calculateBlockRangeFromTrRange, if_pos h]
  · intro h1 h2
    have hn : ¬ (loader.hasRepetitionTime = false ∨ numBlocks = 0) := by
      rintro (h | h)
      · rw [h1] at h
        exact absurd h (by simp)
      · omega
    simp only [calculateBlockRangeFromTrRange, if_neg hn]
    generalize scanBlockIndex blockEdges _ = a
    generalize scanBlockIndex blockEdges _ = b
    cases a <;> cases b <;> simp only [] <;> split_ifs <;> omega

/-- C27: on a non-decreasing edge array `e[0..n]` with `n >= 1` and a time `t` with
`e[0] <= t < e[n]`, the bisection lookup `findBlockIndex` and the linear scan of
`calculateBlockRangeFromTrRange` select the same index, the only `i` with
`e[i] <= t < e[i+1]`; for any `t` the result of `findBlockIndex` lies in `[0, n-1]`;
`calculateBlockRangeFromTrRange` returns `0 <= startBlock <= endBlock <= numBlocks - 1`
when there is a repetition time and a block, and `(0, 0)` otherwise. -/
theorem block_lookup_agree (edges : List ℚ) (n : Nat) (t : ℚ)
    (hlen : edges.length = n + 1) (hn : 1 ≤ n) (hs : nonDecreasing edges) :
    (edges.getD 0 0 ≤ t → t < edges.getD n 0 →
      ∃ i : Nat, i < n ∧ edges.getD i 0 ≤ t ∧ t < edges.getD (i + 1) 0 ∧
        findBlockIndex edges t = (i : Int) ∧ scanBlockIndex edges t = some i ∧
        ∀ j : Nat, j < n → edges.getD j 0 ≤ t → t < edges.getD (j + 1) 0 → j = i) ∧
    (0 ≤ findBlockIndex edges t ∧ findBlockIndex edges t ≤ (n : Int) - 1) ∧
    (∀ (loader : PulseqLoader) (numBlocks : Nat) (tFactor totalDuration_us : ℚ)
        (startTr endTr : Int),
      ((loader.hasRepetitionTime = false ∨ numBlocks = 0) →
        calculateBlockRangeFromTrRange loader numBlocks tFactor totalDuration_us edges
          startTr endTr = (0, 0)) ∧
      (loader.hasRepetitionTime = true → 0 < numBlocks →
        0 ≤ (calculateBlockRangeFromTrRange loader numBlocks tFactor totalDuration_us
          edges startTr endTr).1 ∧
        (calculateBlockRangeFromTrRange loader numBlocks tFactor totalDuration_us
          edges startTr endTr).1 ≤
        (calculateBlockRangeFromTrRange loader numBlocks tFactor totalDuration_us
          edges startTr endTr).2 ∧
        (calculateBlockRangeFromTrRange loader numBlocks tFactor totalDuration_us
          edges startTr endTr).2 ≤ (numBlocks : Int) - 1)) := by
  obtain ⟨hub1, hub2, hub3⟩ := upper_bound_spec edges t hs
  refine ⟨?_, ?_, fun loader numBlocks tFactor total startTr endTr =>
    calculateBlockRange_bounds loader numBlocks tFactor total edges startTr endTr⟩
  · intro h0 hN
    have hpos : 0 < upper_bound edges t := by
      by_contra hz
      have hz2 : upper_bound edges t = 0 := by omega
      have := hub3 0 (by omega) (by omega)
      linarith
    have hle : upper_bound edges t ≤ n := by
      by_contra hgt
      have := hub2 n (by omega)
      linarith
    obtain ⟨i, hi⟩ : ∃ i : Nat, upper_bound edges t = i + 1 := ⟨upper_bound edges t - 1, by omega⟩
    have hi1 : edges.getD i 0 ≤ t := hub2 i (by omega)
    have hi2 : t < edges.getD (i + 1) 0 := hub3 (i + 1) (by omega) (by omega)
    refine ⟨i, by omega, hi1, hi2, ?_, scanBlockIndex_eq edges t hs i (by omega) hi1 hi2, ?_⟩
    · simp only [findBlockIndex, hi, hlen]
      push_cast
      split_ifs <;> omega
    · intro j hj hj1 hj2
      exact block_unique edges t hs i j (by omega) (by omega) hi1 hi2 hj1 hj2
  · simp only [findBlockIndex, hlen]
    push_cast
    constructor <;> split_ifs <;> omega

/-- C27 (witness): edges `0, 10, 30` and time 12: both lookups select block 1; a time
of 50, beyond the last edge, gives a `findBlockIndex` in `[0, 1]`. -/
theorem block_lookup_agree_witness :
    (∃ i : Nat, i < 2 ∧ ([0, 10, 30] : List ℚ).getD i 0 ≤ 12 ∧
        12 < ([0, 10, 30] : List ℚ).getD (i + 1) 0 ∧
        findBlockIndex [0, 10, 30] 12 = (i : Int) ∧ scanBlockIndex [0, 10, 30] 12 = some i ∧
        ∀ j : Nat, j < 2 → ([0, 10, 30] : List ℚ).getD j 0 ≤ 12 →
          12 < ([0, 10, 30] : List ℚ).getD (j + 1) 0 → j = i) ∧
    (0 ≤ findBlockIndex [0, 10, 30] 50 ∧ findBlockIndex [0, 10, 30] 50 ≤ ((2 : Nat) : Int) - 1) := by
  have hs : nonDecreasing [0, 10, 30] := by
    intro i j hij hj
    have hj3 : j < 3 := hj
    interval_cases j <;> interval_cases i <;> norm_num [List.getD]
  exact ⟨(block_lookup_agree [0, 10, 30] 2 12 rfl (by decide) hs).1
      (by norm_num [List.getD]) (by norm_num [List.getD]),
    (block_lookup_agree [0, 10, 30] 2 50 rfl (by decide) hs).2.1⟩

/-! ## Claims on the consistency of the label queries -/

theorem sequence_fold (c : LabelConstants) (labelId : Int) (l : StateMap)
    (acc : List (Int × Int)) :
    l.foldl
      (fun sequence p =>
        if labelUsedIn c labelId p.2 then sequence ++ [(p.1, p.2.val.getD labelId.toNat 0)]
        else sequence) acc = acc ++ l.filterMap (sequenceEntry c labelId) := by
  induction l generalizing acc with
  | nil => simp
  | cons p tl ih =>
    simp only [List.foldl_cons]
    rw [ih]
    by_cases h : labelUsedIn c labelId p.2 = true
    · simp [sequenceEntry, h, List.filterMap_cons]
    · simp [sequenceEntry, h, List.filterMap_cons]

theorem find_fold (c : LabelConstants) (labelId targetValue : Int) (l : StateMap)
    (acc : List Int) :
    l.foldl
      (fun result p =>
        if labelUsedIn c labelId p.2 && decide (p.2.val.getD labelId.toNat 0 = targetValue)
        then result ++ [p.1] else result) acc =
      acc ++ ((l.filterMap (sequenceEntry c labelId)).filter
        (fun q => decide (q.2 = targetValue))).map Prod.fst := by
  induction l generalizing acc with
  | nil => simp
  | cons p tl ih =>
    simp only [List.foldl_cons]
    rw [ih]
    by_cases h : labelUsedIn c labelId p.2 = true
    · by_cases hv : p.2.val.getD labelId.toNat 0 = targetValue
      · have hv2 := hv
        rw [List.getD_eq_getElem?_getD] at hv2
        simp [sequenceEntry, h, hv2, List.filterMap_cons, List.filter_cons]
      · have hv2 := hv
        rw [List.getD_eq_getElem?_getD] at hv2
        simp [sequenceEntry, h, hv2, List.filterMap_cons, List.filter_cons]
    · simp [sequenceEntry, h, List.filterMap_cons]

theorem range_fold_props (c : LabelConstants) (labelId : Int) (l : StateMap)
    (acc : Int × Int × Bool) :
    (l.foldl
      (fun acc p =>
        if labelUsedIn c labelId p.2 then
          let val := p.2.val.getD labelId.toNat 0
          let minVal := if val < acc.1 then val else acc.1
          let maxVal := if val > acc.2.1 then val else acc.2.1
          (minVal, maxVal, true)
        else acc) acc).1 ≤ acc.1 ∧
    acc.2.1 ≤ (l.foldl
      (fun acc p =>
        if labelUsedIn c labelId p.2 then
          let val := p.2.val.getD labelId.toNat 0
          let minVal := if val < acc.1 then val else acc.1
          let maxVal := if val > acc.2.1 then val else acc.2.1
          (minVal, maxVal, true)
        else acc) acc).2.1 ∧
    (∀ q ∈ l.filterMap (sequenceEntry c labelId),
      (l.foldl
        (fun acc p =>
          if labelUsedIn c labelId p.2 then
            let val := p.2.val.getD labelId.toNat 0
            let minVal := if val < acc.1 then val else acc.1
            let maxVal := if val > acc.2.1 then val else acc.2.1
            (minVal, maxVal, true)
          else acc) acc).1 ≤ q.2 ∧
      q.2 ≤ (l.foldl
        (fun acc p =>
          if labelUsedIn c labelId p.2 then
            let val := p.2.val.getD labelId.toNat 0
            let minVal := if val < acc.1 then val else acc.1
            let maxVal := if val > acc.2.1 then val else acc.2.1
            (minVal, maxVal, true)
          else acc) acc).2.1) ∧
    ((l.foldl
        (fun acc p =>
          if labelUsedIn c labelId p.2 then
            let val := p.2.val.getD labelId.toNat 0
            let minVal := if val < acc.1 then val else acc.1
            let maxVal := if val > acc.2.1 then val else acc.2.1
            (minVal, maxVal, true)
          else acc) acc).1 = acc.1 ∨
      ∃ q ∈ l.filterMap (sequenceEntry c labelId),
        q.2 = (l.foldl
          (fun acc p =>
            if labelUsedIn c labelId p.2 then
              let val := p.2.val.getD labelId.toNat 0
              let minVal := if val < acc.1 then val else acc.1
              let maxVal := if val > acc.2.1 then val else acc.2.1
              (minVal, maxVal, true)
            else acc) acc).1) ∧
    ((l.foldl
        (fun acc p =>
          if labelUsedIn c labelId p.2 then
            let val := p.2.val.getD labelId.toNat 0
            let minVal := if val < acc.1 then val else acc.1
            let maxVal := if val > acc.2.1 then val else acc.2.1
            (minVal, maxVal, true)
          else acc) acc).2.1 = acc.2.1 ∨
      ∃ q ∈ l.filterMap (sequenceEntry c labelId),
        q.2 = (l.foldl
          (fun acc p =>
            if labelUsedIn c labelId p.2 then
              let val := p.2.val.getD labelId.toNat 0
              let minVal := if val < acc.1 then val else acc.1
              let maxVal := if val > acc.2.1 then val else acc.2.1
              (minVal, maxVal, true)
            else acc) acc).2.1) ∧
    (l.filterMap (sequenceEntry c labelId) ≠ [] →
      (l.foldl
        (fun acc p =>
          if labelUsedIn c labelId p.2 then
            let val := p.2.val.getD labelId.toNat 0
            let minVal := if val < acc.1 then val else acc.1
            let maxVal := if val > acc.2.1 then val else acc.2.1
            (minVal, maxVal, true)
          else acc) acc).2.2 = true) := by
  induction l generalizing acc with
  | nil => simp
  | cons p tl ih =>
    simp only [List.foldl_cons]
    by_cases h : labelUsedIn c labelId p.2 = true
    · obtain ⟨i1, i2, i3, i4, i5, i6⟩ := ih
        ((if p.2.val.getD labelId.toNat 0 < acc.1 then p.2.val.getD labelId.toNat 0 else acc.1),
         (if p.2.val.getD labelId.toNat 0 > acc.2.1 then p.2.val.getD labelId.toNat 0
          else acc.2.1), true)
      have hfm : (p :: tl).filterMap (sequenceEntry c labelId) =
          (p.1, p.2.val.getD labelId.toNat 0) :: tl.filterMap (sequenceEntry c labelId) := by
        simp [sequenceEntry, h, List.filterMap_cons]
      have hfl : ∀ t0 : Int × Int × Bool, tl.filterMap (sequenceEntry c labelId) = [] →
          tl.foldl
            (fun acc p =>
              if labelUsedIn c labelId p.2 then
                let val := p.2.val.getD labelId.toNat 0
                let minVal := if val < acc.1 then val else acc.1
                let maxVal := if val > acc.2.1 then val else acc.2.1
                (minVal, maxVal, true)
              else acc) t0 = t0 := by
        intro t0 hnil
        apply foldl_unchanged
        intro x hx b
        have hxn : sequenceEntry c labelId x = none := by
          have := List.filterMap_eq_nil_iff.1 hnil x hx
          exact this
        have hxu : labelUsedIn c labelId x.2 = false := by
          cases hu : labelUsedIn c labelId x.2 with
          | false => rfl
          | true => simp [sequenceEntry, hu] at hxn
        simp [hxu]
      rw [hfm]
      simp only [h, if_true] at i1 i2 i3 i4 i5 i6 ⊢
      refine ⟨?_, ?_, ?_, ?_, ?_, ?_⟩
      · refine le_trans i1 ?_
        split_ifs <;> omega
      · refine le_trans ?_ i2
        split_ifs <;> omega
      · intro q hq
        rcases List.mem_cons.1 hq with hq | hq
        · rw [hq]
          simp only []
          constructor
          · refine le_trans i1 ?_
            split_ifs <;> omega
          · refine le_trans ?_ i2
            split_ifs <;> omega
        · exact i3 q hq
      · rcases i4 with i4 | ⟨q, hq, hq2⟩
        · by_cases hlt : p.2.val.getD labelId.toNat 0 < acc.1
          · right
            refine ⟨(p.1, p.2.val.getD labelId.toNat 0), List.mem_cons_self _ _, ?_⟩
            rw [i4, if_pos hlt]
          · left
            rw [i4, if_neg hlt]
        · exact Or.inr ⟨q, List.mem_cons_of_mem _ hq, hq2⟩
      · rcases i5 with i5 | ⟨q, hq, hq2⟩
        · by_cases hgt : p.2.val.getD labelId.toNat 0 > acc.2.1
          · right
            refine ⟨(p.1, p.2.val.getD labelId.toNat 0), List.mem_cons_self _ _, ?_⟩
            rw [i5, if_pos hgt]
          · left
            rw [i5, if_neg hgt]
        · exact Or.inr ⟨q, List.mem_cons_of_mem _ hq, hq2⟩
      · intro _
        by_cases hnil : tl.filterMap (sequenceEntry c labelId) = []
        · rw [hfl _ hnil]
        · exact i6 hnil
    · obtain ⟨i1, i2, i3, i4, i5, i6⟩ := ih acc
      have hfm : (p :: tl).filterMap (sequenceEntry c labelId) =
          tl.filterMap (sequenceEntry c labelId) := by
        simp [sequenceEntry, h, List.filterMap_cons]
      rw [hfm]
      simp only [h, Bool.false_eq_true, if_false]
      exact ⟨i1, i2, i3, i4, i5, i6⟩

theorem snapshotsFrom_sorted (c : LabelConstants) (blocks : List (List LabelOp)) (i : Nat)
    (t : LabelStateAndBookkeeping) :
    (snapshotsFrom c i t blocks).Pairwise (fun p q => p.1 < q.1) := by
  induction blocks generalizing i t with
  | nil => simp [snapshotsFrom]
  | cons b rest ih =>
    simp only [snapshotsFrom, List.pairwise_cons]
    refine ⟨?_, ih (i + 1) _⟩
    intro q hq
    have := (snapshotsFrom_keys c rest (i + 1) _ q hq).1
    push_cast at this
    show (i : Int) < q.1
    omega

theorem sequence_sorted (c : LabelConstants) (labelId : Int) (l : StateMap)
    (h : l.Pairwise (fun p q => p.1 < q.1)) :
    (l.filterMap (sequenceEntry c labelId)).Pairwise (fun p q => p.1 < q.1) := by
  refine List.Pairwise.filterMap (sequenceEntry c labelId) ?_ h
  intro a a2 haa b hb b2 hb2
  simp only [sequenceEntry, Option.mem_def] at hb hb2
  split at hb
  · split at hb2
    · cases hb
      cases hb2
      exact haa
    · exact absurd hb2 (by simp)
  · exact absurd hb (by simp)

/-- C28: the three label queries agree on every counter id and block sequence whose
counter values are `int` values.  The value sequence lists, in strictly ascending block
index, the snapshots that mark the counter used, each with the snapshot's value;
`findBlocksWithLabel(id, v)` is the list of block indices of the entries of that sequence
with value `v`, in the same order; and when the sequence is not empty,
`getLabelValueRange(id)` returns its least and greatest value, so every value of the
sequence lies in the returned range and `min <= max`. -/
theorem label_queries_consistent (c : LabelConstants) (seq : List (List LabelOp))
    (labelId : Int)
    (hint : ∀ q ∈ (PulseqLabelAnalyzer.new c seq).getLabelValueSequence c labelId,
      INT_MIN ≤ q.2 ∧ q.2 ≤ INT_MAX) :
    (PulseqLabelAnalyzer.new c seq).getLabelValueSequence c labelId =
      (PulseqLabelAnalyzer.new c seq).m_blockLabelStates.filterMap
        (sequenceEntry c labelId) ∧
    ((PulseqLabelAnalyzer.new c seq).getLabelValueSequence c labelId).Pairwise
      (fun p q => p.1 < q.1) ∧
    (∀ v : Int, (PulseqLabelAnalyzer.new c seq).findBlocksWithLabel c labelId v =
      (((PulseqLabelAnalyzer.new c seq).getLabelValueSequence c labelId).filter
        (fun q => decide (q.2 = v))).map Prod.fst) ∧
    ((PulseqLabelAnalyzer.new c seq).getLabelValueSequence c labelId ≠ [] →
      (∀ q ∈ (PulseqLabelAnalyzer.new c seq).getLabelValueSequence c labelId,
        ((PulseqLabelAnalyzer.new c seq).getLabelValueRange c labelId).1 ≤ q.2 ∧
        q.2 ≤ ((PulseqLabelAnalyzer.new c seq).getLabelValueRange c labelId).2) ∧
      (∃ q ∈ (PulseqLabelAnalyzer.new c seq).getLabelValueSequence c labelId,
        q.2 = ((PulseqLabelAnalyzer.new c seq).getLabelValueRange c labelId).1) ∧
      (∃ q ∈ (PulseqLabelAnalyzer.new c seq).getLabelValueSequence c labelId,
        q.2 = ((PulseqLabelAnalyzer.new c seq).getLabelValueRange c labelId).2) ∧
      ((PulseqLabelAnalyzer.new c seq).getLabelValueRange c labelId).1 ≤
        ((PulseqLabelAnalyzer.new c seq).getLabelValueRange c labelId).2) := by
  have hseq : (PulseqLabelAnalyzer.new c seq).getLabelValueSequence c labelId =
      (PulseqLabelAnalyzer.new c seq).m_blockLabelStates.filterMap
        (sequenceEntry c labelId) := by
    simp only [PulseqLabelAnalyzer.getLabelValueSequence]
    rw [sequence_fold]
    simp
  rw [hseq] at hint ⊢
  refine ⟨rfl, ?_, ?_, ?_⟩
  · apply sequence_sorted
    rw [new_states]
    exact snapshotsFrom_sorted c seq 0 _
  · intro v
    simp only [PulseqLabelAnalyzer.findBlocksWithLabel]
    rw [find_fold]
    simp
  · intro hne
    obtain ⟨i1, i2, i3, i4, i5, i6⟩ := range_fold_props c labelId
      (PulseqLabelAnalyzer.new c seq).m_blockLabelStates (INT_MAX, INT_MIN, false)
    have hfound := i6 hne
    obtain ⟨q0, hq0⟩ := List.exists_mem_of_ne_nil _ hne
    have hrange : (PulseqLabelAnalyzer.new c seq).getLabelValueRange c labelId =
        (((PulseqLabelAnalyzer.new c seq).m_blockLabelStates.foldl
          (fun acc p =>
            if labelUsedIn c labelId p.2 then
              let val := p.2.val.getD labelId.toNat 0
              let minVal := if val < acc.1 then val else acc.1
              let maxVal := if val > acc.2.1 then val else acc.2.1
              (minVal, maxVal, true)
            else acc) (INT_MAX, INT_MIN, false)).1,
         ((PulseqLabelAnalyzer.new c seq).m_blockLabelStates.foldl
          (fun acc p =>
            if labelUsedIn c labelId p.2 then
              let val := p.2.val.getD labelId.toNat 0
              let minVal := if val < acc.1 then val else acc.1
              let maxVal := if val > acc.2.1 then val else acc.2.1
              (minVal, maxVal, true)
            else acc) (INT_MAX, INT_MIN, false)).2.1) := by
      simp only [PulseqLabelAnalyzer.getLabelValueRange]
      rw [if_neg (by rw [hfound]; simp)]
    rw [hrange]
    simp only [] at i1 i2 i4 i5 ⊢
    have hb0 := hint q0 hq0
    have hr0 := i3 q0 hq0
    refine ⟨i3, ?_, ?_, le_trans hr0.1 hr0.2⟩
    · rcases i4 with i4 | i4
      · exact ⟨q0, hq0, by rw [i4] at hr0 ⊢; omega⟩
      · exact i4
    · rcases i5 with i5 | i5
      · exact ⟨q0, hq0, by rw [i5] at hr0 ⊢; omega⟩
      · exact i5

/-- C28 (witness): with `NUM_LABELS = 12` and the counters up to 9 ADC-relevant, counter
10 is set to 5 in block 0, untouched in block 1 and incremented by 2 in block 2: the
sequence is `(0, 5), (1, 5), (2, 7)`, the blocks with value 5 are `0, 1`, and the range
is `(5, 7)`. -/
theorem label_queries_consistent_witness :
    (PulseqLabelAnalyzer.new ⟨12, 9⟩
      [[LabelOp.set 10 5], [], [LabelOp.inc 10 2]]).getLabelValueSequence ⟨12, 9⟩ 10 =
      [(0, 5), (1, 5), (2, 7)] ∧
    (PulseqLabelAnalyzer.new ⟨12, 9⟩
      [[LabelOp.set 10 5], [], [LabelOp.inc 10 2]]).findBlocksWithLabel ⟨12, 9⟩ 10 5 =
      (((PulseqLabelAnalyzer.new ⟨12, 9⟩
        [[LabelOp.set 10 5], [], [LabelOp.inc 10 2]]).getLabelValueSequence ⟨12, 9⟩ 10).filter
          (fun q => decide (q.2 = 5))).map Prod.fst ∧
    ((PulseqLabelAnalyzer.new ⟨12, 9⟩
      [[LabelOp.set 10 5], [], [LabelOp.inc 10 2]]).getLabelValueRange ⟨12, 9⟩ 10).1 ≤
    ((PulseqLabelAnalyzer.new ⟨12, 9⟩
      [[LabelOp.set 10 5], [], [LabelOp.inc 10 2]]).getLabelValueRange ⟨12, 9⟩ 10).2 := by
  have hsq : (PulseqLabelAnalyzer.new ⟨12, 9⟩
      [[LabelOp.set 10 5], [], [LabelOp.inc 10 2]]).getLabelValueSequence ⟨12, 9⟩ 10 =
      [(0, 5), (1, 5), (2, 7)] := by
    simp only [PulseqLabelAnalyzer.getLabelValueSequence]
    rw [new_states]
    decide
  have h := label_queries_consistent ⟨12, 9⟩ [[LabelOp.set 10 5], [], [LabelOp.inc 10 2]] 10
    (by
      rw [hsq]
      decide)
  exact ⟨hsq, h.2.2.1 5, (h.2.2.2 (by rw [hsq]; simp)).2.2.2⟩

end SeqEyes
